import Mathlib

/-!
# Crypto Quest Arcade: the dashboard aggregation of `App.jsx`

A shallow embedding of the three refresh tasks of the `Home` component,
`refreshTVL`, `refreshActivity` (with the block range it scans) and
`refreshGovernanceSummary`, of the polling effect that calls them, of
`timeLeft` of `GovernancePanel.jsx` and of the recent-wins listener of
`LootBoxPanel.jsx`, together with the properties stated about them.

Conventions of the embedding

* A JavaScript `Number` is an IEEE-754 binary64 value.  Every finite binary64
  value is an integer multiple of `2^(-1074)`; a number is held as that integer
  (`JSNumber`), so that arithmetic is exact integer arithmetic followed by an
  explicit rounding to 53 significant bits (round to nearest, ties to even).
  Infinities and NaN are not represented: they need magnitudes of `2^1024`,
  while every quantity read from the chain is a `uint256` scaled by `10^-18`.
* Block numbers, timestamps and proposal deadlines are natural numbers below
  `2^53`, where `Number(...)` is exact; they are held as `Nat`.
* Addresses are strings; `toLowerCase` and `slice` act on their characters.
* The `scores` object is an association list in insertion order, which is the
  order `Object.entries` enumerates string keys that are not array indices.
* A rejected `await` (or a `TypeError` on a missing value) is `none` / `throw`,
  caught by the nearest enclosing `try`.
* The wall clock `Math.floor(Date.now() / 1000)` is one value per cycle.
* `Array.prototype.sort` is a stable sort; `List.insertionSort` is one, and a
  stable sort by a consistent comparator is unique.
* A `BigInt` is an exact integer; the token amounts summed by `refreshTVL` are
  held as `Nat`.
* The state of the `useState` hooks is passed explicitly: a run of a task maps
  the state before it to the state after it.
* The polling effect is a transition system on the number of runs of each task
  that were started and have not settled; a call of an `async` task starts a
  run, the settling of its promise ends it.
-/

namespace CryptoArcade

/-! ## JavaScript numbers -/

/-- A finite binary64 value `k * 2^(-1074)`, held as the integer `k`. -/
abbrev JSNumber := Int

/-- The value of one whole unit, `1.0`, as a `JSNumber`. -/
def ONE : Nat := 2 ^ 1074

/-- The least `s` such that `n / (b * 2^s)` has at most 53 bits (`fuel` bounds the search). -/
def shiftFor : Nat → Nat → Nat → Nat
  | 0, _, _ => 0
  | fuel + 1, n, b => if n / b < 2 ^ 53 then 0 else shiftFor fuel n (2 * b) + 1

/-- Nearest natural number to `a / b`, ties to the even one. -/
def roundHalfEven (a b : Nat) : Nat :=
  let f := a / b
  let r := a % b
  if 2 * r < b then f else if b < 2 * r then f + 1 else if f % 2 = 0 then f else f + 1

/-- The binary64 value nearest to the exact quotient `a / b` (both counted in units of
`2^(-1074)`): the quotient is rounded to 53 significant bits, ties to even. -/
def roundToDouble (a : Int) (b : Nat) : Int :=
  let n := a.natAbs
  let s := shiftFor n n b
  Int.sign a * ((roundHalfEven n (b * 2 ^ s) * 2 ^ s : Nat) : Int)

/-- JavaScript `a + b`. -/
def fadd (a b : JSNumber) : JSNumber := roundToDouble (a + b) 1

/-- JavaScript `a - b`. -/
def fsub (a b : JSNumber) : JSNumber := roundToDouble (a - b) 1

/-- JavaScript `a * b`. -/
def fmul (a b : JSNumber) : JSNumber := roundToDouble (a * b) ONE

/-- `Number(ethers.formatUnits(m.toString(), decimals))`: the decimal `m / 10^decimals`
parsed to the nearest binary64 value. -/
def formatUnitsNumber (m : Nat) (decimals : Nat) : JSNumber :=
  roundToDouble ((m : Int) * (ONE : Int)) (10 ^ decimals)

/-- `Number(n.toString())` for a non-negative integer `n`. -/
def numberOfNat (n : Nat) : JSNumber := formatUnitsNumber n 0

/-- The literal `0.1`. -/
def TENTH : JSNumber := formatUnitsNumber 1 1

/-! ## Strings -/

/-- `s.toLowerCase()`. -/
def toLowerCase (s : String) : String := ⟨s.data.map Char.toLower⟩

/-- `shortAddr` of `Home`: the first 6 characters, three dots, the last 4 characters. -/
def shortAddr (a : String) : String :=
  if a = "" then "0x0"
  else ⟨a.data.take 6⟩ ++ "..." ++ ⟨a.data.drop (a.data.length - 4)⟩

/-- The test `x ? ... : ...` on an optional string: `undefined` and `""` are falsy. -/
def truthyString : Option String → Option String
  | some s => if s = "" then none else some s
  | none => none

/-- The test on an optional non-negative integer: `undefined` and `0` are falsy. -/
def truthyNat : Option Nat → Option Nat
  | some n => if n = 0 then none else some n
  | none => none

/-! ## Events, records and the outside world -/

/-- A `BoxOpened` log of the LootBox contract: `args[0..3]`, block number, transaction hash. -/
structure BoxOpenedEvent where
  user : Option String
  trophyId : Option Nat
  timestamp : Option Nat
  boxCount : Option Nat
  blockNumber : Option Nat
  transactionHash : String
deriving DecidableEq

/-- A `Staked` or `Harvested` log of the StakeBadge contract: `args[0]` user, `args[1]` amount
in wei. -/
structure StakeEvent where
  user : Option String
  amount : Option Nat
  blockNumber : Option Nat
  transactionHash : String
deriving DecidableEq

/-- A `ListingSold` log of the TradeHub contract: `args[0]` buyer, `args[3]` price in wei. -/
structure ListingSoldEvent where
  buyer : Option String
  price : Option Nat
  blockNumber : Option Nat
  transactionHash : String
deriving DecidableEq

/-- One entry of the `activities` array. -/
structure ActivityRecord where
  actor : String
  display : String
  text : String
  txHash : String
  time : Nat
deriving DecidableEq

/-- One entry of `recentActivity`: the record spread, plus `prettyTime`. -/
structure RecentEntry where
  record : ActivityRecord
  prettyTime : String
deriving DecidableEq

/-- One entry of `leaderboard`. -/
structure BoardEntry where
  addr : String
  score : JSNumber
deriving DecidableEq

/-- The tuple returned by `council.getProposal(i)`: `p[3]` (end of voting) and `p[6]` (tallied). -/
structure Proposal where
  closesAt : Nat
  tallied : Bool
deriving DecidableEq

/-- One event feed of a contract: whether `contract.filters.X` exists, and what
`queryFilter(filter, fromBlock, toBlock)` answers (`none`: the read is rejected).  The list is
in emission order, as the provider returns logs. -/
structure Feed (ε : Type) where
  hasFilter : Bool
  queryFilter : Int → Int → Option (List ε)

/-- Everything a refresh task reads: configuration, wallet, clock, provider and contracts. -/
structure World where
  provider : Bool
  account : Option String
  nowSec : Nat
  LOOTBOX_ADDRESS : Bool
  STAKE_BADGE_ADDRESS : Bool
  TRADEHUB_ADDRESS : Bool
  ARCADE_COUNCIL_ADDRESS : Bool
  getBlockNumber : Option Nat
  getBlock : Option Nat → Option Nat
  boxOpened : Feed BoxOpenedEvent
  staked : Feed StakeEvent
  harvested : Feed StakeEvent
  listingSold : Feed ListingSoldEvent
  getProposalCount : Option Nat
  getProposal : Nat → Option Proposal
  numberToString : JSNumber → String
  toLocaleString : Nat → String

/-! ## `refreshActivity` -/

/-- The `scores` object: actor to score, in insertion order. -/
abbrev Scores := List (String × JSNumber)

/-- The statement `scores[actor] = (scores[actor] || 0) + c`. -/
def scoreAdd : Scores → String → JSNumber → Scores
  | [], actor, c => [(actor, fadd 0 c)]
  | (k, v) :: rest, actor, c =>
    if k = actor then (k, fadd v c) :: rest else (k, v) :: scoreAdd rest actor c

/-- The two accumulators of a cycle. -/
structure Acc where
  activities : List ActivityRecord
  scores : Scores
deriving DecidableEq

/-- What one pass of a loop body does with an event: `continue`, throw, or push a record and
add a contribution to the actor. -/
inductive Outcome where
  | skip
  | throw
  | push (actor : String) (record : ActivityRecord) (contribution : JSNumber)
deriving DecidableEq

/-- The loop `for (const e of evs) { ... }` inside a `try`: the flag tells whether the loop ran
to its end; at a throw the accumulators keep what was pushed before. -/
def forEach {ε : Type} (body : ε → Outcome) : List ε → Acc → Acc × Bool
  | [], acc => (acc, true)
  | e :: es, acc =>
    match body e with
    | Outcome.skip => forEach body es acc
    | Outcome.throw => (acc, false)
    | Outcome.push actor r c =>
      forEach body es { activities := acc.activities ++ [r], scores := scoreAdd acc.scores actor c }

/-- The expression `(account && actor === account.toLowerCase()) ? "You" : shortAddr(actor)`. -/
def displayOf (w : World) (actor : String) : String :=
  match truthyString w.account with
  | some account => if actor = toLowerCase account then "You" else shortAddr actor
  | none => shortAddr actor

/-- The timestamp of a `BoxOpened` event: `args[2]` when it is a non-zero number, else the
timestamp of the event's block when `blockNumber` is truthy, else the wall clock. -/
def boxOpenedTime (w : World) (e : BoxOpenedEvent) : Option Nat :=
  match truthyNat e.timestamp with
  | some ts => some ts
  | none =>
    match truthyNat e.blockNumber with
    | some b => w.getBlock (some b)
    | none => some w.nowSec

/-- The amount `e.args?.[k] ? Number(ethers.formatUnits(e.args[k].toString(), 18)) : 0`. -/
def amountOf (a : Option Nat) : JSNumber :=
  match truthyNat a with
  | some wei => formatUnitsNumber wei 18
  | none => 0

/-- The template argument of an optional integer: its digits, or `undefined`. -/
def optNatToString : Option Nat → String
  | some n => toString n
  | none => "undefined"

/-- Body of the `BoxOpened` loop. -/
def boxOpenedBody (w : World) (e : BoxOpenedEvent) : Outcome :=
  match truthyString e.user with
  | none => Outcome.skip
  | some user =>
    let actor := toLowerCase user
    match boxOpenedTime w e with
    | none => Outcome.throw
    | some ts =>
      let boxCount : JSNumber :=
        match e.boxCount with
        | some n => numberOfNat n
        | none => numberOfNat 1
      let display := displayOf w actor
      Outcome.push actor
        { actor := actor
          display := display
          text := display ++ " opened " ++ w.numberToString boxCount
            ++ " LootBox(es) and won trophy #" ++ optNatToString e.trophyId
          txHash := e.transactionHash
          time := ts }
        boxCount

/-- Body of the `Staked` loop. -/
def stakedBody (w : World) (e : StakeEvent) : Outcome :=
  match truthyString e.user with
  | none => Outcome.skip
  | some user =>
    let actor := toLowerCase user
    let amount := amountOf e.amount
    let display := displayOf w actor
    match w.getBlock e.blockNumber with
    | none => Outcome.throw
    | some time =>
      Outcome.push actor
        { actor := actor
          display := display
          text := display ++ " staked " ++ w.numberToString amount ++ " ARC"
          txHash := e.transactionHash
          time := time }
        (fmul amount TENTH)

/-- Body of the `Harvested` loop. -/
def harvestedBody (w : World) (e : StakeEvent) : Outcome :=
  match truthyString e.user with
  | none => Outcome.skip
  | some user =>
    let actor := toLowerCase user
    let amount := amountOf e.amount
    let display := displayOf w actor
    match w.getBlock e.blockNumber with
    | none => Outcome.throw
    | some time =>
      Outcome.push actor
        { actor := actor
          display := display
          text := display ++ " harvested " ++ w.numberToString amount ++ " ARC"
          txHash := e.transactionHash
          time := time }
        amount

/-- Body of the `ListingSold` loop. -/
def listingSoldBody (w : World) (e : ListingSoldEvent) : Outcome :=
  match truthyString e.buyer with
  | none => Outcome.skip
  | some buyer =>
    let actor := toLowerCase buyer
    let price := amountOf e.price
    let display := displayOf w actor
    match w.getBlock e.blockNumber with
    | none => Outcome.throw
    | some time =>
      Outcome.push actor
        { actor := actor
          display := display
          text := display ++ " bought item for " ++ w.numberToString price ++ " ARC"
          txHash := e.transactionHash
          time := time }
        price

/-- The two bounds handed to every `queryFilter(filter, fromBlock, blockNow)` of a cycle. -/
structure BlockRange where
  fromBlock : Int
  toBlock : Int
deriving DecidableEq

/-- The range of a cycle: `fromBlock = Math.max(0, blockNow - 5000)`, up to `blockNow`. -/
def scanRange (blockNow : Nat) : BlockRange :=
  { fromBlock := max 0 ((blockNow : Int) - 5000), toBlock := blockNow }

/-- One guarded block `if (filter) { evs = await queryFilter(...); for (e of evs.reverse()) ... }`
running inside a `try`: the flag is false when the read or the loop threw. -/
def scanFeed {ε : Type} (feed : Feed ε) (body : ε → Outcome) (fromBlock blockNow : Int)
    (acc : Acc) : Acc × Bool :=
  if feed.hasFilter then
    match feed.queryFilter fromBlock blockNow with
    | none => (acc, false)
    | some evs => forEach body evs.reverse acc
  else (acc, true)

/-- The block `// LootBox events`. -/
def lootBoxSection (w : World) (fromBlock blockNow : Int) (acc : Acc) : Acc :=
  if w.LOOTBOX_ADDRESS then (scanFeed w.boxOpened (boxOpenedBody w) fromBlock blockNow acc).1
  else acc

/-- The block `// StakeBadge events`: the `Staked` and the `Harvested` scan share one `try`. -/
def stakeBadgeSection (w : World) (fromBlock blockNow : Int) (acc : Acc) : Acc :=
  if w.STAKE_BADGE_ADDRESS then
    match scanFeed w.staked (stakedBody w) fromBlock blockNow acc with
    | (acc1, false) => acc1
    | (acc1, true) => (scanFeed w.harvested (harvestedBody w) fromBlock blockNow acc1).1
  else acc

/-- The block `// TradeHub ListingSold (optional)`. -/
def tradeHubSection (w : World) (fromBlock blockNow : Int) (acc : Acc) : Acc :=
  if w.TRADEHUB_ADDRESS then
    (scanFeed w.listingSold (listingSoldBody w) fromBlock blockNow acc).1
  else acc

/-- The accumulators after the three source blocks, for a chain height `blockNow`. -/
def collect (w : World) (blockNow : Nat) : Acc :=
  let fromBlock := (scanRange blockNow).fromBlock
  let toBlock := (scanRange blockNow).toBlock
  tradeHubSection w fromBlock toBlock
    (stakeBadgeSection w fromBlock toBlock
      (lootBoxSection w fromBlock toBlock { activities := [], scores := [] }))

/-- The comparator `(a, b) => b.score - a.score`. -/
def byScore (a b : BoardEntry) : JSNumber := fsub b.score a.score

/-- The comparator `(a, b) => b.time - a.time`. -/
def byTime (a b : ActivityRecord) : Int := (b.time : Int) - (a.time : Int)

/-- `Array.prototype.sort(cmp)`: a stable sort that keeps `a` before `b` when `cmp(a, b) ≤ 0`. -/
def sortBy {α : Type} (cmp : α → α → Int) (l : List α) : List α :=
  l.insertionSort (fun a b => cmp a b ≤ 0)

/-- The line building `board`. -/
def boardOf (scores : Scores) : List BoardEntry :=
  (sortBy byScore (scores.map (fun p => { addr := p.1, score := p.2 }))).take 10

/-- The line building `recent`. -/
def recentOf (w : World) (activities : List ActivityRecord) : List RecentEntry :=
  ((sortBy byTime activities).take 20).map
    (fun a => { record := a, prettyTime := w.toLocaleString (a.time * 1000) })

/-- The size of `uniqActors`. -/
def uniqActorsOf (recent : List RecentEntry) : Nat :=
  (((recent.map (fun a => toLowerCase a.record.actor)).filter
    (fun x => x ≠ "" ∧ x ≠ "unknown")).dedup).length

/-- What one successful cycle hands to `setLeaderboard`, `setRecentActivity` and
`setActivePlayers` (the count is published as its decimal string). -/
structure Published where
  leaderboard : List BoardEntry
  recentActivity : List RecentEntry
  activePlayers : Nat
deriving DecidableEq

/-- One run of `refreshActivity`: `none` when nothing is published (no provider, or the chain
height read is rejected and the outer `catch` only logs). -/
def refreshActivity (w : World) : Option Published :=
  if w.provider then
    match w.getBlockNumber with
    | none => none
    | some blockNow =>
      let acc := collect w blockNow
      let board := boardOf acc.scores
      let recent := recentOf w acc.activities
      some { leaderboard := board, recentActivity := recent, activePlayers := uniqActorsOf recent }
  else none

/-! ## `refreshGovernanceSummary` -/

/-- The loop variables `nextId` (`none`: `null`) and `nextEnd` (`none`: `Infinity`). -/
structure Nearest where
  nextId : Option Nat
  nextEnd : Option Nat
deriving DecidableEq

/-- The test `end < nextEnd`. -/
def belowNextEnd (closesAt : Nat) : Option Nat → Bool
  | none => true
  | some nextEnd => decide (closesAt < nextEnd)

/-- One pass of the loop `for (let i = 1; i <= count; i++)`; `none` when `getProposal(i)` is
rejected. -/
def scanStep (w : World) (now : Nat) (st : Nearest) (i : Nat) : Option Nearest :=
  match w.getProposal i with
  | none => none
  | some p =>
    if now < p.closesAt ∧ belowNextEnd p.closesAt st.nextEnd = true ∧ p.tallied = false then
      some { nextId := some i, nextEnd := some p.closesAt }
    else some st

/-- The whole loop over the ids `1..count`. -/
def scanProposals (w : World) (now count : Nat) : Option Nearest :=
  (List.range' 1 count).foldlM (scanStep w now) { nextId := none, nextEnd := none }

/-- The selected proposal and the end of its voting window. -/
structure DeadlineSummary where
  proposalId : Nat
  closesAt : Nat
deriving DecidableEq

/-- The selection made by `refreshGovernanceSummary`; `none` stands for every path that ends in
`setGovNext("No active proposals")`: no provider or council address, a rejected read (the
`catch`), or `!nextId` after the loop. -/
def selectNearestDeadline (w : World) : Option DeadlineSummary :=
  if w.provider ∧ w.ARCADE_COUNCIL_ADDRESS then
    match w.getProposalCount with
    | none => none
    | some count =>
      match scanProposals w w.nowSec count with
      | none => none
      | some st =>
        match truthyNat st.nextId, st.nextEnd with
        | some nextId, some nextEnd => some { proposalId := nextId, closesAt := nextEnd }
        | _, _ => none
  else none

/-- The countdown `label` for `diff = nextEnd - now` seconds. -/
def countdownLabel (diff : Nat) : String :=
  let days := diff / 86400
  let hours := (diff % 86400) / 3600
  let mins := (diff % 3600) / 60
  (if days > 0 then toString days ++ "d " else "") ++ toString hours ++ "h " ++ toString mins ++ "m"

/-- The string handed to `setGovNext` by one run of `refreshGovernanceSummary`. -/
def refreshGovernanceSummary (w : World) : String :=
  match selectNearestDeadline w with
  | none => "No active proposals"
  | some d =>
    "Next vote: Proposal #" ++ toString d.proposalId ++ " closes in "
      ++ countdownLabel (d.closesAt - w.nowSec)

/-! ## Vocabulary of the stated properties -/

/-- A proposal that can still be voted on at time `now`: its window is open and it is not
tallied. -/
def isOpenAt (now : Nat) (p : Proposal) : Prop := now < p.closesAt ∧ p.tallied = false

/-- The scenario of the deadline selection: three proposals read at `now = 1000`. -/
def deadlineScenario : World :=
  { provider := true
    account := none
    nowSec := 1000
    LOOTBOX_ADDRESS := false
    STAKE_BADGE_ADDRESS := false
    TRADEHUB_ADDRESS := false
    ARCADE_COUNCIL_ADDRESS := true
    getBlockNumber := some 0
    getBlock := fun _ => none
    boxOpened := { hasFilter := false, queryFilter := fun _ _ => none }
    staked := { hasFilter := false, queryFilter := fun _ _ => none }
    harvested := { hasFilter := false, queryFilter := fun _ _ => none }
    listingSold := { hasFilter := false, queryFilter := fun _ _ => none }
    getProposalCount := some 3
    getProposal := fun i =>
      match i with
      | 1 => some { closesAt := 900, tallied := false }
      | 2 => some { closesAt := 1500, tallied := false }
      | 3 => some { closesAt := 1200, tallied := true }
      | _ => none
    numberToString := fun _ => ""
    toLocaleString := fun _ => "" }

/-- The proposals of `deadlineScenario`, by id. -/
def deadlineScenarioProposals (i : Nat) : Proposal :=
  match i with
  | 1 => { closesAt := 900, tallied := false }
  | 2 => { closesAt := 1500, tallied := false }
  | _ => { closesAt := 1200, tallied := true }

/-- The same council as `deadlineScenario`, but the read of proposal 3 is rejected. -/
def failingReadScenario : World :=
  { deadlineScenario with
    getProposal := fun i =>
      match i with
      | 1 => some { closesAt := 900, tallied := false }
      | 2 => some { closesAt := 1500, tallied := false }
      | _ => none }

/-- The loop invariant of the deadline scan after the ids `1..k`. -/
def ScanInv (now : Nat) (P : Nat → Proposal) (k : Nat) (st : Nearest) : Prop :=
  (st = { nextId := none, nextEnd := none } ∧ ∀ j, 1 ≤ j → j ≤ k → ¬ isOpenAt now (P j)) ∨
  (∃ id e, st = { nextId := some id, nextEnd := some e } ∧ 1 ≤ id ∧ id ≤ k ∧
    (P id).closesAt = e ∧ isOpenAt now (P id) ∧
    ∀ j, 1 ≤ j → j ≤ k → isOpenAt now (P j) →
      e ≤ (P j).closesAt ∧ ((P j).closesAt = e → id ≤ j))


/-- ScoreAccumulator: the scoring statement folded over `(actor, contribution)` records. -/
def accumulate (records : List (String × JSNumber)) : Scores :=
  records.foldl (fun scores r => scoreAdd scores r.1 r.2) []

/-- The sum `((0 + c₁) + c₂) + ...` in binary64 arithmetic, taken left to right. -/
def floatSum (cs : List JSNumber) : JSNumber := cs.foldl fadd 0

/-- The contributions of one actor among `(actor, contribution)` records, in their order. -/
def contributionsFor (actor : String) (records : List (String × JSNumber)) : List JSNumber :=
  (records.filter (fun r => r.1 = actor)).map Prod.snd

/-- The score of an actor according to a list of records: nothing when the actor has no record,
else the sum of the actor's contributions. -/
def sumFor (actor : String) (records : List (String × JSNumber)) : Option JSNumber :=
  match contributionsFor actor records with
  | [] => none
  | c :: cs => some (floatSum (c :: cs))

/-- The score entry of an actor after further contributions `cs`, from its entry `init`. -/
def scoreAfter (init : Option JSNumber) (cs : List JSNumber) : Option JSNumber :=
  cs.foldl (fun o c => some (fadd (o.getD 0) c)) init


/-- EventNormalizer of one source kind: the actor of an event (`none`: the event is dropped),
its resolved timestamp (`none`: the read is rejected), the record built from both, and the
score contribution. -/
structure Normalizer (ε : Type) where
  actor : ε → Option String
  time : ε → Option Nat
  record : ε → String → Nat → ActivityRecord
  contribution : ε → JSNumber

/-- What a loop body built from a normalizer does with an event. -/
def Normalizer.outcome {ε : Type} (N : Normalizer ε) (e : ε) : Outcome :=
  match N.actor e with
  | none => Outcome.skip
  | some a =>
    match N.time e with
    | none => Outcome.throw
    | some t => Outcome.push a (N.record e a t) (N.contribution e)

/-- The event does not make the loop throw: it is dropped, or its timestamp is resolved. -/
def Normalizer.readOk {ε : Type} (N : Normalizer ε) (e : ε) : Bool :=
  (N.actor e).isNone || (N.time e).isSome

/-- The activity record of an event, when it is not dropped and its timestamp is resolved. -/
def Normalizer.normalize {ε : Type} (N : Normalizer ε) (e : ε) : Option ActivityRecord :=
  (N.actor e).bind (fun a => (N.time e).map (fun t => N.record e a t))

/-- The actor and score contribution of an event that is not dropped. -/
def Normalizer.scored {ε : Type} (N : Normalizer ε) (e : ε) : Option (String × JSNumber) :=
  (N.actor e).map (fun a => (a, N.contribution e))

/-- The primary actor of an event, lower-cased; `none` when the field is absent or empty. -/
def actorOf (user : Option String) : Option String := (truthyString user).map toLowerCase

/-- Score contribution of a `BoxOpened` event: its box count, 1 when the field is absent. -/
def boxOpenedContribution (e : BoxOpenedEvent) : JSNumber :=
  match e.boxCount with
  | some n => numberOfNat n
  | none => numberOfNat 1

/-- Normalizer of `BoxOpened` events. -/
def boxOpenedNormalizer (w : World) : Normalizer BoxOpenedEvent :=
  { actor := fun e => actorOf e.user
    time := fun e => boxOpenedTime w e
    record := fun e actor ts =>
      { actor := actor
        display := displayOf w actor
        text := displayOf w actor ++ " opened " ++ w.numberToString (boxOpenedContribution e)
          ++ " LootBox(es) and won trophy #" ++ optNatToString e.trophyId
        txHash := e.transactionHash
        time := ts }
    contribution := boxOpenedContribution }

/-- Normalizer of `Staked` events: contribution `amount * 0.1`. -/
def stakedNormalizer (w : World) : Normalizer StakeEvent :=
  { actor := fun e => actorOf e.user
    time := fun e => w.getBlock e.blockNumber
    record := fun e actor time =>
      { actor := actor
        display := displayOf w actor
        text := displayOf w actor ++ " staked " ++ w.numberToString (amountOf e.amount) ++ " ARC"
        txHash := e.transactionHash
        time := time }
    contribution := fun e => fmul (amountOf e.amount) TENTH }

/-- Normalizer of `Harvested` events: contribution `amount`. -/
def harvestedNormalizer (w : World) : Normalizer StakeEvent :=
  { actor := fun e => actorOf e.user
    time := fun e => w.getBlock e.blockNumber
    record := fun e actor time =>
      { actor := actor
        display := displayOf w actor
        text := displayOf w actor ++ " harvested " ++ w.numberToString (amountOf e.amount)
          ++ " ARC"
        txHash := e.transactionHash
        time := time }
    contribution := fun e => amountOf e.amount }

/-- Normalizer of `ListingSold` events: contribution `price`. -/
def listingSoldNormalizer (w : World) : Normalizer ListingSoldEvent :=
  { actor := fun e => actorOf e.buyer
    time := fun e => w.getBlock e.blockNumber
    record := fun e actor time =>
      { actor := actor
        display := displayOf w actor
        text := displayOf w actor ++ " bought item for " ++ w.numberToString (amountOf e.price)
          ++ " ARC"
        txHash := e.transactionHash
        time := time }
    contribution := fun e => amountOf e.price }

/-- The events of a feed inside the scanned window, in emission order: what `queryFilter`
answered, when the source is configured, its filter exists and the read is answered. -/
def scannedEvents {ε : Type} (configured : Bool) (feed : Feed ε) (r : BlockRange) : List ε :=
  if configured = true ∧ feed.hasFilter = true then
    (feed.queryFilter r.fromBlock r.toBlock).getD []
  else []

/-- The events of a feed that the cycle handles, in the order it handles them: latest emitted
first, up to (not including) the first one whose timestamp read is rejected. -/
def processedEvents {ε : Type} (N : Normalizer ε) (configured : Bool) (feed : Feed ε)
    (r : BlockRange) : List ε :=
  (scannedEvents configured feed r).reverse.takeWhile N.readOk

/-- The scan of a feed ends without a throw. -/
def scanCompletes {ε : Type} (N : Normalizer ε) (feed : Feed ε) (r : BlockRange) : Bool :=
  !feed.hasFilter ||
    match feed.queryFilter r.fromBlock r.toBlock with
    | none => false
    | some evs => evs.all N.readOk

/-- The `Harvested` scan is reached: the StakeBadge address is set and the `Staked` scan, which
shares its `try`, did not throw. -/
def harvestedReached (w : World) (r : BlockRange) : Bool :=
  w.STAKE_BADGE_ADDRESS && scanCompletes (stakedNormalizer w) w.staked r

/-- The normalized records of a cycle, source after source, in the order they are pushed. -/
def normalizedRecords (w : World) (blockNow : Nat) : List ActivityRecord :=
  let r := scanRange blockNow
  (processedEvents (boxOpenedNormalizer w) w.LOOTBOX_ADDRESS w.boxOpened r).filterMap
      (boxOpenedNormalizer w).normalize
    ++ (processedEvents (stakedNormalizer w) w.STAKE_BADGE_ADDRESS w.staked r).filterMap
      (stakedNormalizer w).normalize
    ++ (processedEvents (harvestedNormalizer w) (harvestedReached w r) w.harvested r).filterMap
      (harvestedNormalizer w).normalize
    ++ (processedEvents (listingSoldNormalizer w) w.TRADEHUB_ADDRESS w.listingSold r).filterMap
      (listingSoldNormalizer w).normalize

/-- The `(actor, contribution)` pairs of the events a cycle handles and does not drop, source
after source, in the order they are handled. -/
def countedContributions (w : World) (blockNow : Nat) : List (String × JSNumber) :=
  let r := scanRange blockNow
  (processedEvents (boxOpenedNormalizer w) w.LOOTBOX_ADDRESS w.boxOpened r).filterMap
      (boxOpenedNormalizer w).scored
    ++ (processedEvents (stakedNormalizer w) w.STAKE_BADGE_ADDRESS w.staked r).filterMap
      (stakedNormalizer w).scored
    ++ (processedEvents (harvestedNormalizer w) (harvestedReached w r) w.harvested r).filterMap
      (harvestedNormalizer w).scored
    ++ (processedEvents (listingSoldNormalizer w) w.TRADEHUB_ADDRESS w.listingSold r).filterMap
      (listingSoldNormalizer w).scored

/-- The `(actor, contribution)` pairs of ALL events of the scanned window that are not dropped,
whether or not the cycle got to them. -/
def allContributions (w : World) (blockNow : Nat) : List (String × JSNumber) :=
  let r := scanRange blockNow
  (scannedEvents w.LOOTBOX_ADDRESS w.boxOpened r).reverse.filterMap (boxOpenedNormalizer w).scored
    ++ (scannedEvents w.STAKE_BADGE_ADDRESS w.staked r).reverse.filterMap
      (stakedNormalizer w).scored
    ++ (scannedEvents w.STAKE_BADGE_ADDRESS w.harvested r).reverse.filterMap
      (harvestedNormalizer w).scored
    ++ (scannedEvents w.TRADEHUB_ADDRESS w.listingSold r).reverse.filterMap
      (listingSoldNormalizer w).scored

/-- Every read made for a feed is answered: the log read, and the timestamp read of each of its
events. -/
def feedAnswered {ε : Type} (N : Normalizer ε) (configured : Bool) (feed : Feed ε)
    (r : BlockRange) : Prop :=
  configured = true → feed.hasFilter = true →
    ∃ evs, feed.queryFilter r.fromBlock r.toBlock = some evs ∧ ∀ e ∈ evs, N.readOk e = true

/-- Every read of the cycle is answered. -/
def everyReadAnswered (w : World) (blockNow : Nat) : Prop :=
  feedAnswered (boxOpenedNormalizer w) w.LOOTBOX_ADDRESS w.boxOpened (scanRange blockNow) ∧
  feedAnswered (stakedNormalizer w) w.STAKE_BADGE_ADDRESS w.staked (scanRange blockNow) ∧
  feedAnswered (harvestedNormalizer w) w.STAKE_BADGE_ADDRESS w.harvested (scanRange blockNow) ∧
  feedAnswered (listingSoldNormalizer w) w.TRADEHUB_ADDRESS w.listingSold (scanRange blockNow)

/-- A world with no wallet, no configured contract and no answer to any read. -/
def emptyWorld : World :=
  { provider := true
    account := none
    nowSec := 0
    LOOTBOX_ADDRESS := false
    STAKE_BADGE_ADDRESS := false
    TRADEHUB_ADDRESS := false
    ARCADE_COUNCIL_ADDRESS := false
    getBlockNumber := none
    getBlock := fun _ => none
    boxOpened := { hasFilter := false, queryFilter := fun _ _ => none }
    staked := { hasFilter := false, queryFilter := fun _ _ => none }
    harvested := { hasFilter := false, queryFilter := fun _ _ => none }
    listingSold := { hasFilter := false, queryFilter := fun _ _ => none }
    getProposalCount := none
    getProposal := fun _ => none
    numberToString := fun _ => ""
    toLocaleString := fun _ => "" }

/-- The scoring scenario: one `Staked` event of 50 ARC and one `Harvested` event of 5 ARC of
the same actor, every read answered. -/
def stakeHarvestScenario : World :=
  { emptyWorld with
    nowSec := 2000
    STAKE_BADGE_ADDRESS := true
    getBlockNumber := some 7000
    getBlock := fun b => b.map (fun n => n * 10)
    staked :=
      { hasFilter := true
        queryFilter := fun _ _ => some
          [{ user := some "0xBB01", amount := some (50 * 10 ^ 18), blockNumber := some 6998,
             transactionHash := "0xs1" }] }
    harvested :=
      { hasFilter := true
        queryFilter := fun _ _ => some
          [{ user := some "0xBB01", amount := some (5 * 10 ^ 18), blockNumber := some 6999,
             transactionHash := "0xh1" }] } }

/-- The same logs with one more `Staked` event of 20 ARC, but the timestamp read of the block of
the first `Staked` event is rejected. -/
def rejectedReadScenario : World :=
  { stakeHarvestScenario with
    getBlock := fun b => if b = some 6998 then none else b.map (fun n => n * 10)
    staked :=
      { hasFilter := true
        queryFilter := fun _ _ => some
          [{ user := some "0xBB01", amount := some (50 * 10 ^ 18), blockNumber := some 6998,
             transactionHash := "0xs1" },
           { user := some "0xBB01", amount := some (20 * 10 ^ 18), blockNumber := some 6999,
             transactionHash := "0xs2" }] } }

/-- A busy window: 25 `BoxOpened` events of 12 different actors, event `i` stamped `1000 + i`
and opening `i + 1` boxes. -/
def busyScenario : World :=
  { emptyWorld with
    nowSec := 5000
    LOOTBOX_ADDRESS := true
    getBlockNumber := some 7000
    boxOpened :=
      { hasFilter := true
        queryFilter := fun _ _ => some ((List.range 25).map (fun i =>
          { user := some (String.mk [Char.ofNat (65 + i % 12)])
            trophyId := some i
            timestamp := some (1000 + i)
            boxCount := some (i + 1)
            blockNumber := some (6000 + i)
            transactionHash := "" })) } }

/-- Records whose contributions are whole numbers (such as box counts). -/
def wholeRecords (ks : List (String × Nat)) : List (String × JSNumber) :=
  ks.map (fun r => (r.1, numberOfNat r.2))

/-- Three records of one actor with the contributions 0.1, 0.2 and 0.3 (amounts of
`10^17`, `2 * 10^17` and `3 * 10^17` wei). -/
def fractionalRecords : List (String × JSNumber) :=
  [("0xaa", formatUnitsNumber (10 ^ 17) 18), ("0xaa", formatUnitsNumber (2 * 10 ^ 17) 18),
   ("0xaa", formatUnitsNumber (3 * 10 ^ 17) 18)]

/-- The records of `fractionalRecords` in the opposite order. -/
def fractionalRecordsReversed : List (String × JSNumber) :=
  [("0xaa", formatUnitsNumber (3 * 10 ^ 17) 18), ("0xaa", formatUnitsNumber (2 * 10 ^ 17) 18),
   ("0xaa", formatUnitsNumber (10 ^ 17) 18)]

/-- A window whose only events are `Harvested` events of one actor, with the given amounts in
wei, in emission order; every read is answered. -/
def harvestLogScenario (amounts : List Nat) : World :=
  { emptyWorld with
    nowSec := 5000
    STAKE_BADGE_ADDRESS := true
    getBlockNumber := some 7000
    getBlock := fun _ => some 4000
    harvested :=
      { hasFilter := true
        queryFilter := fun _ _ => some (amounts.map (fun a =>
          { user := some "0xAA01", amount := some a, blockNumber := some 6990,
            transactionHash := "0xh" })) } }

/-- The four event feeds. -/
inductive Source where
  | boxOpened
  | staked
  | harvested
  | listingSold
deriving DecidableEq

/-- A normalized record together with its origin: the feed, and the position of its event in
the log of that feed (logs are in emission order, so a later event has a higher position). -/
structure Traced where
  source : Source
  index : Nat
  record : ActivityRecord
deriving DecidableEq

/-- The records pushed for one feed, in push order, each with its origin. -/
def tracedOf {ε : Type} (src : Source) (N : Normalizer ε) (configured : Bool) (feed : Feed ε)
    (r : BlockRange) : List Traced :=
  (((scannedEvents configured feed r).enum.reverse.takeWhile (fun q => N.readOk q.2)).filterMap
    (fun q => (N.normalize q.2).map (fun rec => { source := src, index := q.1, record := rec })))

/-- The records of a cycle in push order, each with its origin. -/
def tracedRecords (w : World) (blockNow : Nat) : List Traced :=
  let r := scanRange blockNow
  tracedOf Source.boxOpened (boxOpenedNormalizer w) w.LOOTBOX_ADDRESS w.boxOpened r
    ++ tracedOf Source.staked (stakedNormalizer w) w.STAKE_BADGE_ADDRESS w.staked r
    ++ tracedOf Source.harvested (harvestedNormalizer w) (harvestedReached w r) w.harvested r
    ++ tracedOf Source.listingSold (listingSoldNormalizer w) w.TRADEHUB_ADDRESS w.listingSold r

/-- The record that the event at a position of a feed's log normalizes to. -/
def logRecord (w : World) (blockNow : Nat) (src : Source) (i : Nat) : Option ActivityRecord :=
  let r := scanRange blockNow
  match src with
  | Source.boxOpened =>
    ((scannedEvents w.LOOTBOX_ADDRESS w.boxOpened r)[i]?).bind (boxOpenedNormalizer w).normalize
  | Source.staked =>
    ((scannedEvents w.STAKE_BADGE_ADDRESS w.staked r)[i]?).bind (stakedNormalizer w).normalize
  | Source.harvested =>
    ((scannedEvents w.STAKE_BADGE_ADDRESS w.harvested r)[i]?).bind
      (harvestedNormalizer w).normalize
  | Source.listingSold =>
    ((scannedEvents w.TRADEHUB_ADDRESS w.listingSold r)[i]?).bind
      (listingSoldNormalizer w).normalize

/-- The displayed records with their origins: the traced records sorted with the comparator of
the activity list and cut to 20. -/
def tracedRecent (w : World) (blockNow : Nat) : List Traced :=
  (sortBy (fun a b => byTime a.record b.record) (tracedRecords w blockNow)).take 20

/-- Three `BoxOpened` events of one block, hence with one timestamp, emitted in the order of
their trophy ids 1, 2, 3, and a `Staked` event of the same timestamp. -/
def tieScenario : World :=
  { emptyWorld with
    nowSec := 5000
    LOOTBOX_ADDRESS := true
    STAKE_BADGE_ADDRESS := true
    getBlockNumber := some 7000
    getBlock := fun _ => some 500
    boxOpened :=
      { hasFilter := true
        queryFilter := fun _ _ => some
          [{ user := some "0xAA01", trophyId := some 1, timestamp := some 500,
             boxCount := some 1, blockNumber := some 6990, transactionHash := "0xt1" },
           { user := some "0xAA01", trophyId := some 2, timestamp := some 500,
             boxCount := some 1, blockNumber := some 6990, transactionHash := "0xt2" },
           { user := some "0xAA01", trophyId := some 3, timestamp := some 500,
             boxCount := some 1, blockNumber := some 6990, transactionHash := "0xt3" }] }
    staked :=
      { hasFilter := true
        queryFilter := fun _ _ => some
          [{ user := some "0xAA01", amount := some (10 ^ 18), blockNumber := some 6990,
             transactionHash := "0xs1" }] } }

/-! ## Vocabulary of the failure, frame and display properties -/

/-- The range of the mint scan of `refreshTVL`:
`fromBlock = typeof DEPLOY_BLOCK === "number" ? DEPLOY_BLOCK : Math.max(0, currentBlock - 100000)`
up to `currentBlock`.  `DEPLOY_BLOCK` comes from the configuration module and is a parameter
here: `some d` when it is a number, `none` otherwise. -/
def mintScanRange (DEPLOY_BLOCK : Option Int) (currentBlock : Nat) : BlockRange :=
  { fromBlock :=
      match DEPLOY_BLOCK with
      | some d => d
      | none => max 0 ((currentBlock : Int) - 100000)
    toBlock := currentBlock }

/-- The range as the specification words it, for a factor `K`: the deployment block when it is
provided and not more than `lookback * K` behind, else `max(0, currentBlock - lookback)`. -/
def computeRangeAsWorded (K : Nat) (currentBlock lookback : Nat) (deployBlock : Option Int) :
    BlockRange :=
  { fromBlock :=
      match deployBlock with
      | some d =>
        if (currentBlock : Int) - d ≤ (lookback : Int) * (K : Int) then d
        else max 0 ((currentBlock : Int) - (lookback : Int))
      | none => max 0 ((currentBlock : Int) - (lookback : Int))
    toBlock := currentBlock }

/-- A source fails before its loop: its address is missing, its filter is unsupported, or the
log read is rejected. -/
def failsBeforeLoop {ε : Type} (configured : Bool) (feed : Feed ε) (r : BlockRange) : Prop :=
  configured = false ∨ feed.hasFilter = false ∨ feed.queryFilter r.fromBlock r.toBlock = none

/-- A window in which every source fails: no LootBox address, no `Staked` and `Harvested`
filter, and a rejected `ListingSold` log read. -/
def allSourcesFailScenario : World :=
  { emptyWorld with
    nowSec := 5000
    STAKE_BADGE_ADDRESS := true
    TRADEHUB_ADDRESS := true
    getBlockNumber := some 7000
    boxOpened :=
      { hasFilter := true
        queryFilter := fun _ _ => some
          [{ user := some "0xAA01", trophyId := some 1, timestamp := some 500,
             boxCount := some 1, blockNumber := some 6990, transactionHash := "0xt1" }] }
    listingSold := { hasFilter := true, queryFilter := fun _ _ => none } }

/-- The type of the events of a feed. -/
def EventOf : Source → Type
  | Source.boxOpened => BoxOpenedEvent
  | Source.staked => StakeEvent
  | Source.harvested => StakeEvent
  | Source.listingSold => ListingSoldEvent

/-- The loop body of a feed. -/
def bodyOf (w : World) : (src : Source) → EventOf src → Outcome
  | Source.boxOpened => boxOpenedBody w
  | Source.staked => stakedBody w
  | Source.harvested => harvestedBody w
  | Source.listingSold => listingSoldBody w

/-- The normalizer of a feed. -/
def normalizerOf (w : World) : (src : Source) → Normalizer (EventOf src)
  | Source.boxOpened => boxOpenedNormalizer w
  | Source.staked => stakedNormalizer w
  | Source.harvested => harvestedNormalizer w
  | Source.listingSold => listingSoldNormalizer w

/-- The feed of a source. -/
def feedOf (w : World) : (src : Source) → Feed (EventOf src)
  | Source.boxOpened => w.boxOpened
  | Source.staked => w.staked
  | Source.harvested => w.harvested
  | Source.listingSold => w.listingSold

/-- The contract address of a feed is configured. -/
def addressOf (w : World) : Source → Bool
  | Source.boxOpened => w.LOOTBOX_ADDRESS
  | Source.staked => w.STAKE_BADGE_ADDRESS
  | Source.harvested => w.STAKE_BADGE_ADDRESS
  | Source.listingSold => w.TRADEHUB_ADDRESS

/-- The cycle gets to the scan of a feed: its address is configured and, for the `Harvested`
feed, the `Staked` scan before it in the same `try` did not throw. -/
def reachedOf (w : World) (r : BlockRange) : Source → Bool
  | Source.boxOpened => w.LOOTBOX_ADDRESS
  | Source.staked => w.STAKE_BADGE_ADDRESS
  | Source.harvested => harvestedReached w r
  | Source.listingSold => w.TRADEHUB_ADDRESS

/-- The records a cycle pushes for one feed, in push order. -/
def recordsOf (w : World) (blockNow : Nat) (src : Source) : List ActivityRecord :=
  (processedEvents (normalizerOf w src) (reachedOf w (scanRange blockNow) src) (feedOf w src)
    (scanRange blockNow)).filterMap (normalizerOf w src).normalize

/-- The `(actor, contribution)` pairs a cycle adds to the scores for one feed, in order. -/
def contributionsOf (w : World) (blockNow : Nat) (src : Source) : List (String × JSNumber) :=
  (processedEvents (normalizerOf w src) (reachedOf w (scanRange blockNow) src) (feedOf w src)
    (scanRange blockNow)).filterMap (normalizerOf w src).scored

/-- The same world, except that the log read of one feed answers with the given events. -/
def withLog (w : World) : (src : Source) → List (EventOf src) → World
  | Source.boxOpened, evs =>
    { w with boxOpened := { w.boxOpened with queryFilter := fun _ _ => some evs } }
  | Source.staked, evs =>
    { w with staked := { w.staked with queryFilter := fun _ _ => some evs } }
  | Source.harvested, evs =>
    { w with harvested := { w.harvested with queryFilter := fun _ _ => some evs } }
  | Source.listingSold, evs =>
    { w with listingSold := { w.listingSold with queryFilter := fun _ _ => some evs } }

/-- The scoring scenario, but the `Staked` log read is rejected. -/
def stakedLogRejectedScenario : World :=
  { stakeHarvestScenario with
    staked := { hasFilter := true, queryFilter := fun _ _ => none } }

/-- Two `Staked` events of one actor; the timestamp read of the block of the later one is
rejected. -/
def rejectedLatestScenario : World :=
  { stakeHarvestScenario with
    getBlock := fun b => if b = some 6999 then none else b.map (fun n => n * 10)
    staked :=
      { hasFilter := true
        queryFilter := fun _ _ => some
          [{ user := some "0xBB01", amount := some (50 * 10 ^ 18), blockNumber := some 6998,
             transactionHash := "0xs1" },
           { user := some "0xBB01", amount := some (20 * 10 ^ 18), blockNumber := some 6999,
             transactionHash := "0xs2" }] }
    harvested := { hasFilter := true, queryFilter := fun _ _ => some [] } }

/-- The primary actor field of an event: `args[0]`, the user or the buyer. -/
def primaryActorField : (src : Source) → EventOf src → Option String
  | Source.boxOpened => fun e => e.user
  | Source.staked => fun e => e.user
  | Source.harvested => fun e => e.user
  | Source.listingSold => fun e => e.buyer

/-- A `BoxOpened` log with an event that carries no user between two events that do. -/
def droppedEventLog : List BoxOpenedEvent :=
  [{ user := some "0xAA01", trophyId := some 1, timestamp := some 100, boxCount := some 1,
     blockNumber := some 6990, transactionHash := "0xt1" },
   { user := none, trophyId := some 2, timestamp := some 300, boxCount := some 2,
     blockNumber := some 6991, transactionHash := "0xt2" },
   { user := some "0xAA01", trophyId := some 3, timestamp := some 200, boxCount := some 3,
     blockNumber := some 6992, transactionHash := "0xt3" }]

/-- Two addresses are equal under case-insensitive comparison. -/
def sameAddress (a b : String) : Prop := toLowerCase a = toLowerCase b

/-- The truncated display of an address: its first 6 characters, three dots, and its last 4
characters. -/
def truncatedAddress (a : String) : String :=
  ⟨a.data.take 6⟩ ++ "..." ++ ⟨a.data.drop (a.data.length - 4)⟩

/-- The tie scenario seen by the wallet of its actor, the address written in another case. -/
def ownWalletScenario : World :=
  { tieScenario with account := some "0xaa01" }

/-- A crowded window: 25 `BoxOpened` events of 25 different actors, event `i` stamped
`1000 + i`. -/
def crowdScenario : World :=
  { emptyWorld with
    nowSec := 5000
    LOOTBOX_ADDRESS := true
    getBlockNumber := some 7000
    boxOpened :=
      { hasFilter := true
        queryFilter := fun _ _ => some ((List.range 25).map (fun i =>
          { user := some (String.mk [Char.ofNat (65 + i)])
            trophyId := some i
            timestamp := some (1000 + i)
            boxCount := some 1
            blockNumber := some (6000 + i)
            transactionHash := "" })) } }

/-- The scenario of three `BoxOpened` events of the actor `0xAA01`, with box counts 1, 2, 3 at
the timestamps 100, 300, 200, and no other events. -/
def threeBoxesScenario : World :=
  { emptyWorld with
    nowSec := 5000
    LOOTBOX_ADDRESS := true
    STAKE_BADGE_ADDRESS := true
    TRADEHUB_ADDRESS := true
    getBlockNumber := some 7000
    getBlock := fun b => b.map (fun n => n * 10)
    boxOpened :=
      { hasFilter := true
        queryFilter := fun _ _ => some
          [{ user := some "0xAA01", trophyId := some 11, timestamp := some 100,
             boxCount := some 1, blockNumber := some 6990, transactionHash := "0xt1" },
           { user := some "0xAA01", trophyId := some 12, timestamp := some 300,
             boxCount := some 2, blockNumber := some 6995, transactionHash := "0xt2" },
           { user := some "0xAA01", trophyId := some 13, timestamp := some 200,
             boxCount := some 3, blockNumber := some 6993, transactionHash := "0xt3" }] }
    staked := { hasFilter := true, queryFilter := fun _ _ => some [] }
    harvested := { hasFilter := true, queryFilter := fun _ _ => some [] }
    listingSold := { hasFilter := true, queryFilter := fun _ _ => some [] } }

/-- The values held by the `useState` hooks of `Home`. -/
structure HomeState where
  tvl : String
  moduleTvls : List (String × String)
  totalMinted : String
  activePlayers : String
  leaderboard : List BoardEntry
  recentActivity : List RecentEntry
  govNext : String
deriving DecidableEq

/-- The initial values of the hooks. -/
def initialHomeState : HomeState :=
  { tvl := "—"
    moduleTvls := []
    totalMinted := "—"
    activePlayers := "—"
    leaderboard := []
    recentActivity := []
    govNext := "No active proposals" }

/-- The effect of one run of `refreshActivity` on the state of `Home`: the three setters are
called with the values of the cycle, or none of them when the cycle publishes nothing. -/
def runRefreshActivity (w : World) (st : HomeState) : HomeState :=
  match refreshActivity w with
  | none => st
  | some p =>
    { st with
      leaderboard := p.leaderboard
      recentActivity := p.recentActivity
      activePlayers := toString p.activePlayers }

/-- Two worlds give a cycle the same inputs: provider, connected account, clock, configured
addresses, chain height, block timestamps, the filters and the logs of the scanned range, and
the two renderers of the runtime. -/
def sameActivityInputs (w₁ w₂ : World) : Prop :=
  w₁.provider = w₂.provider ∧ w₁.account = w₂.account ∧ w₁.nowSec = w₂.nowSec ∧
  w₁.LOOTBOX_ADDRESS = w₂.LOOTBOX_ADDRESS ∧ w₁.STAKE_BADGE_ADDRESS = w₂.STAKE_BADGE_ADDRESS ∧
  w₁.TRADEHUB_ADDRESS = w₂.TRADEHUB_ADDRESS ∧ w₁.getBlockNumber = w₂.getBlockNumber ∧
  w₁.getBlock = w₂.getBlock ∧
  w₁.numberToString = w₂.numberToString ∧ w₁.toLocaleString = w₂.toLocaleString ∧
  (∀ blockNow, w₁.getBlockNumber = some blockNow →
    w₁.boxOpened.hasFilter = w₂.boxOpened.hasFilter ∧
    w₁.staked.hasFilter = w₂.staked.hasFilter ∧
    w₁.harvested.hasFilter = w₂.harvested.hasFilter ∧
    w₁.listingSold.hasFilter = w₂.listingSold.hasFilter ∧
    w₁.boxOpened.queryFilter (scanRange blockNow).fromBlock (scanRange blockNow).toBlock
      = w₂.boxOpened.queryFilter (scanRange blockNow).fromBlock (scanRange blockNow).toBlock ∧
    w₁.staked.queryFilter (scanRange blockNow).fromBlock (scanRange blockNow).toBlock
      = w₂.staked.queryFilter (scanRange blockNow).fromBlock (scanRange blockNow).toBlock ∧
    w₁.harvested.queryFilter (scanRange blockNow).fromBlock (scanRange blockNow).toBlock
      = w₂.harvested.queryFilter (scanRange blockNow).fromBlock (scanRange blockNow).toBlock ∧
    w₁.listingSold.queryFilter (scanRange blockNow).fromBlock (scanRange blockNow).toBlock
      = w₂.listingSold.queryFilter (scanRange blockNow).fromBlock (scanRange blockNow).toBlock)

/-- The scoring scenario with another council behind it and logs that differ outside the
scanned range. -/
def sameInputsScenario : World :=
  { stakeHarvestScenario with
    ARCADE_COUNCIL_ADDRESS := true
    getProposalCount := some 5
    harvested :=
      { hasFilter := true
        queryFilter := fun fromBlock _ =>
          if fromBlock = 2000 then some
            [{ user := some "0xBB01", amount := some (5 * 10 ^ 18), blockNumber := some 6999,
               transactionHash := "0xh1" }]
          else some [] } }

/-- A record is made for a lower-cased, non-empty actor. -/
def LowerCasedActor (r : ActivityRecord) : Prop := ∃ u, u ≠ "" ∧ r.actor = toLowerCase u

/-! ## `refreshTVL` -/

/-- The constant `ZERO`, the zero address in lower case. -/
def ZERO : String := "0x0000000000000000000000000000000000000000"

/-- The table `MODULES`: the key of each module and whether its address is configured. -/
def MODULES (w : World) : List (String × Bool) :=
  [("stake", w.STAKE_BADGE_ADDRESS), ("loot", w.LOOTBOX_ADDRESS),
   ("market", w.TRADEHUB_ADDRESS), ("dao", w.ARCADE_COUNCIL_ADDRESS)]

/-- The decoded arguments of a `TransferSingle` log, by position: `args[0]` operator, `args[1]`
from, `args[2]` to, `args[3]` id, `args[4]` value. -/
structure TransferSingleArgs where
  operator : String
  fromAddress : String
  toAddress : String
  id : Nat
  value : Nat
deriving DecidableEq

/-- One entry of the answer of `queryFilter` for `TransferSingle`: a decoded log carries all
five arguments, a log that could not be decoded has no `args` at all. -/
structure TransferSingleEvent where
  args : Option TransferSingleArgs
deriving DecidableEq

/-- What `refreshTVL` reads besides the provider: the configured deployment block, the reads
of the token contract, and the renderer of the runtime.  `ARCADE_COIN` is `none` when the
contract cannot be built or the read is rejected; `balanceOf key id` is the balance of the
module with that key, `none` when the read is rejected; `toLocaleString x` stands for
`x.toLocaleString(undefined, { maximumFractionDigits: 4 })`. -/
structure ArcadeToken where
  DEPLOY_BLOCK : Option Int
  ARCADE_COIN : Option Nat
  balanceOf : String → Nat → Option Nat
  transferSingle : Feed TransferSingleEvent
  toLocaleString : JSNumber → String

/-- The loop variables `sum` and `perModule` (the keys of the object in insertion order). -/
structure TvlAcc where
  sum : Nat
  perModule : List (String × Nat)
deriving DecidableEq

/-- One pass of the loop `for (const m of MODULES)`: a module without address is entered with
balance 0; a rejected `balanceOf` is caught inside the loop and entered with balance 0. -/
def balanceStep (token : ArcadeToken) (arcId : Nat) (acc : TvlAcc) (m : String × Bool) : TvlAcc :=
  if m.2 then
    match token.balanceOf m.1 arcId with
    | some bal => { sum := acc.sum + bal, perModule := acc.perModule ++ [(m.1, bal)] }
    | none => { acc with perModule := acc.perModule ++ [(m.1, 0)] }
  else { acc with perModule := acc.perModule ++ [(m.1, 0)] }

/-- The whole loop over `MODULES`. -/
def moduleBalances (w : World) (token : ArcadeToken) (arcId : Nat) : TvlAcc :=
  (MODULES w).foldl (balanceStep token arcId) { sum := 0, perModule := [] }

/-- The rendering `Number(ethers.formatUnits(x.toString(), 18)).toLocaleString(...)` of an
amount of token units. -/
def renderUnits (token : ArcadeToken) (x : Nat) : String :=
  token.toLocaleString (formatUnitsNumber x 18)

/-- One pass of the loop `for (const ev of events)` of the mint scan. -/
def mintedStep (arcId : Nat) (minted : Nat) (ev : TransferSingleEvent) : Nat :=
  match ev.args with
  | none => minted
  | some a =>
    if a.fromAddress = "" then minted
    else if toLowerCase a.fromAddress = ZERO ∧ a.id = arcId then minted + a.value
    else minted

/-- The variable `minted` after the loop. -/
def mintedOf (arcId : Nat) (events : List TransferSingleEvent) : Nat :=
  events.foldl (mintedStep arcId) 0

/-- The effect of one run of `refreshTVL` on the state of `Home`.  Nothing is set without a
provider or when `ARCADE_COIN` fails; `setTvl` and `setModuleTvls` come before the mint scan,
so a rejected chain height or log read (the outer `catch`) leaves only `totalMinted` as it
was. -/
def runRefreshTVL (w : World) (token : ArcadeToken) (st : HomeState) : HomeState :=
  if w.provider then
    match token.ARCADE_COIN with
    | none => st
    | some arcId =>
      let acc := moduleBalances w token arcId
      let st₁ : HomeState :=
        { st with
          tvl := renderUnits token acc.sum
          moduleTvls := acc.perModule.map (fun kv => (kv.1, renderUnits token kv.2)) }
      match w.getBlockNumber with
      | none => st₁
      | some currentBlock =>
        let r := mintScanRange token.DEPLOY_BLOCK currentBlock
        if token.transferSingle.hasFilter then
          match token.transferSingle.queryFilter r.fromBlock r.toBlock with
          | none => st₁
          | some events => { st₁ with totalMinted := renderUnits token (mintedOf arcId events) }
        else { st₁ with totalMinted := "—" }
  else st

/-- The effect of one run of `refreshGovernanceSummary` on the state of `Home`: every path
ends in a call of `setGovNext`. -/
def runRefreshGovernanceSummary (w : World) (st : HomeState) : HomeState :=
  { st with govNext := refreshGovernanceSummary w }

/-! ## The polling effect of `Home` -/

/-- The three refresh tasks. -/
inductive RefreshTask where
  | refreshTVL
  | refreshActivity
  | refreshGovernanceSummary
deriving DecidableEq

/-- What happens to the polling effect: the effect body runs (mount, or a dependency changed)
and calls the three tasks; an interval timer fires and calls its task; the promise of a run
settles. -/
inductive PollEvent where
  | effect
  | tick (task : RefreshTask)
  | settle (task : RefreshTask)
deriving DecidableEq

/-- The number of runs of each task that were started and have not settled. -/
abbrev InFlight := RefreshTask → Nat

/-- No run in flight. -/
def idle : InFlight := fun _ => 0

/-- One step of the polling effect.  The callback of `setInterval` is the task itself and the
effect body calls the tasks directly: a call always starts a run. -/
def pollStep (s : InFlight) : PollEvent → InFlight
  | PollEvent.effect => fun t => s t + 1
  | PollEvent.tick task => fun t => if t = task then s t + 1 else s t
  | PollEvent.settle task => fun t => if t = task then s t - 1 else s t

/-- The runs in flight after a sequence of events. -/
def pollRun (s : InFlight) (evs : List PollEvent) : InFlight := evs.foldl pollStep s

/-! ## `GovernancePanel.timeLeft` -/

/-- The function `timeLeft(end)` at the clock reading `now = Math.floor(Date.now() / 1000)`. -/
def timeLeft (now endSec : Nat) : String :=
  if now ≥ endSec then "Ended"
  else
    let diff := endSec - now
    let mins := diff / 60
    let secs := diff % 60
    toString mins ++ "m " ++ toString secs ++ "s"

/-! ## The recent wins of `LootBoxPanel` -/

/-- The arguments of a `BoxOpened` notification. -/
structure BoxOpenedNotification where
  user : String
  trophyId : Nat
  timestamp : Nat
  boxCount : Nat
deriving DecidableEq

/-- An entry of `recentWins`. -/
structure RecentWin where
  user : String
  trophyId : String
  timestamp : JSNumber
  boxCount : JSNumber
deriving DecidableEq

/-- The entry built by `onOpened` from the arguments of a notification. -/
def winOf (n : BoxOpenedNotification) : RecentWin :=
  { user := n.user
    trophyId := toString n.trophyId
    timestamp := numberOfNat n.timestamp
    boxCount := numberOfNat n.boxCount }

/-- The state update of the listener `onOpened`: `[entry, ...s].slice(0, 20)`. -/
def onOpened (s : List RecentWin) (n : BoxOpenedNotification) : List RecentWin :=
  (winOf n :: s).take 20

/-- The list `recentWins` after the notifications, from the initial `[]`. -/
def recentWinsAfter (ns : List BoxOpenedNotification) : List RecentWin :=
  ns.foldl onOpened []

/-! ## Vocabulary of the publication, rendering and panel properties -/

/-- The balance a module adds to the total: the answer of `balanceOf` when its address is
configured and the read is answered, else 0. -/
def moduleContribution (token : ArcadeToken) (arcId : Nat) (m : String × Bool) : Nat :=
  if m.2 then (token.balanceOf m.1 arcId).getD 0 else 0

/-- The minted amount as the sum of `value` over exactly the decoded events whose `from` is the
zero address, compared in lower case, and whose `id` is the id of the coin. -/
def mintedAsWorded (arcId : Nat) (events : List TransferSingleEvent) : Nat :=
  (((events.filterMap (fun ev => ev.args)).filter
    (fun a => decide (toLowerCase a.fromAddress = ZERO ∧ a.id = arcId))).map
      (fun a => a.value)).sum

/-- An event that the mint scan must not count: no `from`, a `from` other than the zero
address, or another token id. -/
def notAMint (arcId : Nat) (ev : TransferSingleEvent) : Prop :=
  ev.args = none ∨ ∃ a, ev.args = some a ∧ (toLowerCase a.fromAddress ≠ ZERO ∨ a.id ≠ arcId)

/-- The quantity of an event that its description shows. -/
def quantityOf : (src : Source) → EventOf src → JSNumber
  | Source.boxOpened, e => boxOpenedContribution e
  | Source.staked, e => amountOf e.amount
  | Source.harvested, e => amountOf e.amount
  | Source.listingSold, e => amountOf e.price

/-- The trophy id shown by the description of a `BoxOpened` event. -/
def trophyOf : (src : Source) → EventOf src → String
  | Source.boxOpened, e => optNatToString e.trophyId
  | Source.staked, _ => ""
  | Source.harvested, _ => ""
  | Source.listingSold, _ => ""

/-- The description templates of the four loops, filled with the display name, the rendered
quantity and the trophy id. -/
def descriptionOf : Source → String → String → String → String
  | Source.boxOpened, who, n, id => who ++ " opened " ++ n ++ " LootBox(es) and won trophy #" ++ id
  | Source.staked, who, amt, _ => who ++ " staked " ++ amt ++ " ARC"
  | Source.harvested, who, amt, _ => who ++ " harvested " ++ amt ++ " ARC"
  | Source.listingSold, who, price, _ => who ++ " bought item for " ++ price ++ " ARC"

/-- The description templates as the specification words them. -/
def descriptionAsWorded : Source → String → String → String → String
  | Source.boxOpened, who, n, id => who ++ " opened " ++ n ++ " box(es) and won trophy #" ++ id
  | Source.staked, who, amt, _ => who ++ " staked " ++ amt ++ " ARC"
  | Source.harvested, who, amt, _ => who ++ " harvested " ++ amt ++ " ARC"
  | Source.listingSold, who, price, _ => who ++ " bought item for " ++ price ++ " ARC"

/-- The rendering of a whole number below `10^21` in a template: its decimal digits. -/
def wholeNumberToString (x : JSNumber) : String := toString (x / (ONE : Int)).toNat

/-- The scenario of three `BoxOpened` events, with whole numbers rendered by their digits. -/
def renderedScenario : World :=
  { threeBoxesScenario with numberToString := wholeNumberToString }

/-- A `BoxOpened` event of 2 boxes that won trophy 12. -/
def twoBoxesEvent : BoxOpenedEvent :=
  { user := some "0xAA01", trophyId := some 12, timestamp := some 300,
    boxCount := some 2, blockNumber := some 6995, transactionHash := "0xt2" }

/-- The same event without its box count. -/
def noCountEvent : BoxOpenedEvent := { twoBoxesEvent with boxCount := none }

/-- The deadline scenario after the provider went away. -/
def disconnectedScenario : World := { deadlineScenario with provider := false }

/-- The state of `Home` after one governance run in the deadline scenario. -/
def publishedDeadlineState : HomeState :=
  runRefreshGovernanceSummary deadlineScenario initialHomeState

/-- A token whose coin has id 1: the stake module holds 5 ARC, the market 2 ARC, the read of
the loot module is rejected; three transfers, of which the first is a mint of 7 ARC of
the coin, the second a mint of another token and the third a transfer between wallets. -/
def tokenScenario : ArcadeToken :=
  { DEPLOY_BLOCK := none
    ARCADE_COIN := some 1
    balanceOf := fun key _ =>
      if key = "stake" then some (5 * 10 ^ 18)
      else if key = "market" then some (2 * 10 ^ 18)
      else if key = "loot" then none
      else some (10 ^ 18)
    transferSingle :=
      { hasFilter := true
        queryFilter := fun _ _ => some
          [{ args := some { operator := "0xop", fromAddress := ZERO, toAddress := "0xAA01",
                            id := 1, value := 7 * 10 ^ 18 } },
           { args := some { operator := "0xop", fromAddress := ZERO, toAddress := "0xAA01",
                            id := 2, value := 3 * 10 ^ 18 } },
           { args := some { operator := "0xop", fromAddress := "0xAA01", toAddress := "0xBB02",
                            id := 1, value := 10 ^ 18 } },
           { args := none }] }
    toLocaleString := wholeNumberToString }

/-- A connected dashboard with the stake, loot and market modules configured. -/
def dashboardScenario : World := { threeBoxesScenario with ARCADE_COUNCIL_ADDRESS := false }

/-! # Properties -/

/-! ## Rounding -/

theorem shiftFor_le (fuel n b t : Nat) (h : n / (b * 2 ^ t) < 2 ^ 53) : shiftFor fuel n b ≤ t := by
  induction fuel generalizing b t with
  | zero => simp [shiftFor]
  | succ fuel ih =>
    simp only [shiftFor]
    split
    · exact Nat.zero_le _
    · rename_i hnb
      cases t with
      | zero => simp at h; exact absurd h hnb
      | succ t =>
        have := ih (2 * b) t (by rw [show 2 * b * 2 ^ t = b * 2 ^ (t + 1) by ring]; exact h)
        omega

theorem shiftFor_mul_le (fuel n b : Nat) (hb : 0 < b) (h : b ≤ n) :
    b * 2 ^ shiftFor fuel n b ≤ n := by
  induction fuel generalizing b with
  | zero => simpa [shiftFor] using h
  | succ fuel ih =>
    simp only [shiftFor]
    split
    · simpa using h
    · rename_i hnb
      have h2 : 2 ≤ n / b := by
        have : (2:Nat) ^ 53 ≤ n / b := Nat.le_of_not_lt hnb
        exact le_trans (by norm_num) this
      have h2b : 2 * b ≤ n := by
        have := (Nat.le_div_iff_mul_le hb).1 h2
        omega
      have := ih (2 * b) (by omega) h2b
      rw [show b * 2 ^ (shiftFor fuel n (2 * b) + 1) = 2 * b * 2 ^ shiftFor fuel n (2 * b) by ring]
      exact this

theorem le_roundHalfEven (a b : Nat) : a / b ≤ roundHalfEven a b := by
  unfold roundHalfEven
  simp only
  split
  · exact le_refl _
  · split
    · exact Nat.le_succ _
    · split
      · exact le_refl _
      · exact Nat.le_succ _

theorem roundHalfEven_mul (q d : Nat) (hd : 0 < d) : roundHalfEven (q * d) d = q := by
  unfold roundHalfEven
  simp [Nat.mul_div_cancel _ hd, hd]

/-- The rounded magnitude of a non-zero value is positive. -/
theorem roundToDouble_magnitude_pos (n : Nat) (hn : 0 < n) :
    0 < roundHalfEven n (1 * 2 ^ shiftFor n n 1) * 2 ^ shiftFor n n 1 := by
  have h1 := shiftFor_mul_le n n 1 Nat.one_pos hn
  have hpos : 0 < 1 * 2 ^ shiftFor n n 1 := by positivity
  have h2 : 1 ≤ n / (1 * 2 ^ shiftFor n n 1) := (Nat.le_div_iff_mul_le hpos).2 (by simpa using h1)
  have h3 := le_roundHalfEven n (1 * 2 ^ shiftFor n n 1)
  have : 0 < roundHalfEven n (1 * 2 ^ shiftFor n n 1) := by omega
  positivity

/-- Rounding keeps the sign: the rounded value is at most zero exactly when the exact one is. -/
theorem roundToDouble_nonpos_iff (a : Int) : roundToDouble a 1 ≤ 0 ↔ a ≤ 0 := by
  unfold roundToDouble
  simp only
  rcases lt_trichotomy a 0 with h | h | h
  · have hs : Int.sign a = -1 := Int.sign_eq_neg_one_of_neg h
    rw [hs]
    have hm := roundToDouble_magnitude_pos a.natAbs (by omega)
    generalize roundHalfEven a.natAbs (1 * 2 ^ shiftFor a.natAbs a.natAbs 1) *
      2 ^ shiftFor a.natAbs a.natAbs 1 = m at hm
    constructor
    · intro _; omega
    · intro _; omega
  · subst h
    simp
  · have hs : Int.sign a = 1 := Int.sign_eq_one_of_pos h
    rw [hs]
    have hm := roundToDouble_magnitude_pos a.natAbs (by omega)
    generalize roundHalfEven a.natAbs (1 * 2 ^ shiftFor a.natAbs a.natAbs 1) *
      2 ^ shiftFor a.natAbs a.natAbs 1 = m at hm
    constructor
    · intro h'; omega
    · intro h'; omega

/-- The sign of the comparator `b - a` is the sign of the exact difference. -/
theorem fsub_nonpos_iff (b a : JSNumber) : fsub b a ≤ 0 ↔ b ≤ a := by
  unfold fsub
  rw [roundToDouble_nonpos_iff]
  exact sub_nonpos

/-- A whole multiple `k * U` of a power of two `U` with `k` below `2^53` is left as it is by
the rounding. -/
theorem roundToDouble_scaled (k U E : Nat) (hU : U = 2 ^ E) (hk : k < 2 ^ 53) :
    roundToDouble ((k : Int) * (U : Int)) 1 = (k : Int) * (U : Int) := by
  unfold roundToDouble
  simp only
  have hnat : ((k : Int) * (U : Int)).natAbs = k * U := by
    rw [Int.natAbs_mul, Int.natAbs_ofNat, Int.natAbs_ofNat]
  rw [hnat]
  generalize hs : shiftFor (k * U) (k * U) 1 = s
  have hle : s ≤ E := by
    rw [← hs]
    apply shiftFor_le
    rw [Nat.one_mul, hU, Nat.mul_div_cancel _ (by positivity)]
    exact hk
  have hpow : U = 2 ^ (E - s) * 2 ^ s := by
    rw [hU, ← pow_add]; congr 1; omega
  have hsplit : k * U = (k * 2 ^ (E - s)) * (1 * 2 ^ s) := by
    rw [hpow]; ring
  have hr : roundHalfEven (k * U) (1 * 2 ^ s) = k * 2 ^ (E - s) := by
    rw [hsplit]
    exact roundHalfEven_mul _ _ (by positivity)
  rw [hr]
  have hback : k * 2 ^ (E - s) * 2 ^ s = k * U := by
    rw [hsplit]; ring
  rw [hback]
  rcases Nat.eq_zero_or_pos k with h0 | hpos
  · subst h0; simp
  · have hUpos : 0 < U := by rw [hU]; positivity
    have hsign : Int.sign ((k : Int) * (U : Int)) = 1 := by
      apply Int.sign_eq_one_of_pos
      positivity
    rw [hsign]
    push_cast
    ring

theorem ONE_eq : ONE = 2 ^ 1074 := rfl

/-- Whole numbers below `2^53` are binary64 values: rounding leaves them as they are. -/
theorem roundToDouble_whole (k : Nat) (hk : k < 2 ^ 53) :
    roundToDouble ((k : Int) * (ONE : Int)) 1 = (k : Int) * (ONE : Int) :=
  roundToDouble_scaled k ONE 1074 ONE_eq hk

/-- The literal `0.1` is the binary64 value `3602879701896397 * 2^(-55)`. -/
theorem TENTH_value : TENTH = ((3602879701896397 * 2 ^ 1019 : Nat) : Int) := by
  decide!

/-- In binary64 arithmetic `50 * 0.1` is `5` and `0.1 + 0.2` is `0.30000000000000004`. -/
theorem binary64_examples :
    fmul (numberOfNat 50) TENTH = numberOfNat 5 ∧
    fadd (formatUnitsNumber 1 1) (formatUnitsNumber 2 1)
      = ((1351079888211149 * 2 ^ 1022 : Nat) : Int) ∧
    formatUnitsNumber 3 1 = ((5404319552844595 * 2 ^ 1020 : Nat) : Int) := by
  decide!

theorem numberOfNat_whole (k : Nat) (hk : k < 2 ^ 53) :
    numberOfNat k = (k : Int) * (ONE : Int) := by
  unfold numberOfNat formatUnitsNumber
  rw [pow_zero]
  exact roundToDouble_whole k hk

theorem fadd_whole (i j : Nat) (h : i + j < 2 ^ 53) :
    fadd ((i : Int) * (ONE : Int)) ((j : Int) * (ONE : Int)) = ((i + j : Nat) : Int) * (ONE : Int) := by
  have hsum : (i : Int) * (ONE : Int) + (j : Int) * (ONE : Int)
      = ((i + j : Nat) : Int) * (ONE : Int) := by
    push_cast
    ring
  unfold fadd
  rw [hsum]
  exact roundToDouble_whole (i + j) h

/-! ## The score mapping -/

theorem lookup_scoreAdd (s : Scores) (a : String) (c : JSNumber) (b : String) :
    (scoreAdd s a c).lookup b
      = if b = a then some (fadd ((s.lookup a).getD 0) c) else s.lookup b := by
  induction s with
  | nil =>
    by_cases h : b = a
    · subst h; simp [scoreAdd, List.lookup]
    · have : (b == a) = false := by simpa using h
      simp [scoreAdd, List.lookup, h, this]
  | cons p s ih =>
    obtain ⟨k, v⟩ := p
    by_cases hk : k = a
    · subst hk
      by_cases h : b = k
      · subst h; simp [scoreAdd, List.lookup]
      · have : (b == k) = false := by simpa using h
        simp [scoreAdd, List.lookup, h, this]
    · have hak : (a == k) = false := by simpa using fun h => hk h.symm
      by_cases h : b = a
      · subst h
        simp [scoreAdd, List.lookup, hk, hak, ih]
      · by_cases hbk : b = k
        · subst hbk; simp [scoreAdd, List.lookup, hk, h]
        · have : (b == k) = false := by simpa using hbk
          simp [scoreAdd, List.lookup, hk, h, this, ih]

theorem lookup_foldl_scoreAdd (l : List (String × JSNumber)) (s : Scores) (a : String) :
    (l.foldl (fun scores r => scoreAdd scores r.1 r.2) s).lookup a
      = scoreAfter (s.lookup a) (contributionsFor a l) := by
  induction l generalizing s with
  | nil => rfl
  | cons r l ih =>
    rw [List.foldl_cons, ih, lookup_scoreAdd]
    by_cases h : r.1 = a
    · simp [contributionsFor, scoreAfter, h]
    · have h' : ¬ a = r.1 := fun e => h e.symm
      simp [contributionsFor, scoreAfter, h, h']

theorem scoreAfter_some (v : JSNumber) (cs : List JSNumber) :
    scoreAfter (some v) cs = some (cs.foldl fadd v) := by
  induction cs generalizing v with
  | nil => rfl
  | cons c cs ih => simp only [scoreAfter, List.foldl_cons, Option.getD_some] at ih ⊢; exact ih _

theorem scoreAfter_none (cs : List JSNumber) :
    scoreAfter none cs = match cs with
      | [] => none
      | c :: cs => some (floatSum (c :: cs)) := by
  cases cs with
  | nil => rfl
  | cons c cs =>
    have := scoreAfter_some (fadd 0 c) cs
    simp only [scoreAfter, List.foldl_cons, Option.getD_none, floatSum] at this ⊢
    exact this

/-- The score mapping built by the accumulator gives each actor the left-to-right sum of the
actor's contributions. -/
theorem lookup_accumulate (l : List (String × JSNumber)) (a : String) :
    (accumulate l).lookup a = sumFor a l := by
  unfold accumulate sumFor
  rw [lookup_foldl_scoreAdd]
  simp only [List.lookup]
  exact scoreAfter_none _

/-! ## The loops and the normalizers -/

theorem boxOpenedBody_eq (w : World) : boxOpenedBody w = (boxOpenedNormalizer w).outcome := by
  funext e
  simp only [boxOpenedBody, Normalizer.outcome, boxOpenedNormalizer, actorOf,
    boxOpenedContribution]
  cases truthyString e.user <;> simp only [Option.map]

theorem stakedBody_eq (w : World) : stakedBody w = (stakedNormalizer w).outcome := by
  funext e
  simp only [stakedBody, Normalizer.outcome, stakedNormalizer, actorOf]
  cases truthyString e.user <;> simp only [Option.map]

theorem harvestedBody_eq (w : World) : harvestedBody w = (harvestedNormalizer w).outcome := by
  funext e
  simp only [harvestedBody, Normalizer.outcome, harvestedNormalizer, actorOf]
  cases truthyString e.user <;> simp only [Option.map]

theorem listingSoldBody_eq (w : World) :
    listingSoldBody w = (listingSoldNormalizer w).outcome := by
  funext e
  simp only [listingSoldBody, Normalizer.outcome, listingSoldNormalizer, actorOf]
  cases truthyString e.buyer <;> simp only [Option.map]

/-- The accumulators extended by pushed records and scored contributions. -/
theorem forEach_outcome {ε : Type} (N : Normalizer ε) (l : List ε) (acc : Acc) :
    forEach N.outcome l acc =
      ({ activities := acc.activities ++ (l.takeWhile N.readOk).filterMap N.normalize
         scores := ((l.takeWhile N.readOk).filterMap N.scored).foldl
           (fun scores r => scoreAdd scores r.1 r.2) acc.scores },
        l.all N.readOk) := by
  induction l generalizing acc with
  | nil => simp [forEach]
  | cons e l ih =>
    simp only [forEach, Normalizer.outcome]
    cases ha : N.actor e with
    | none =>
      simp only [ih]
      simp [List.takeWhile, Normalizer.readOk, Normalizer.normalize, Normalizer.scored, ha]
    | some a =>
      cases ht : N.time e with
      | none =>
        simp [List.takeWhile, Normalizer.readOk, ha, ht]
      | some t =>
        simp only [ih]
        simp [List.takeWhile, Normalizer.readOk, Normalizer.normalize, Normalizer.scored, ha, ht]


theorem scanFeed_outcome {ε : Type} (N : Normalizer ε) (feed : Feed ε) (r : BlockRange)
    (acc : Acc) :
    scanFeed feed N.outcome r.fromBlock r.toBlock acc =
      ({ activities := acc.activities ++ (processedEvents N true feed r).filterMap N.normalize
         scores := ((processedEvents N true feed r).filterMap N.scored).foldl
           (fun scores r => scoreAdd scores r.1 r.2) acc.scores },
        scanCompletes N feed r) := by
  unfold scanFeed processedEvents scannedEvents scanCompletes
  cases hf : feed.hasFilter with
  | false => simp
  | true =>
    cases hq : feed.queryFilter r.fromBlock r.toBlock with
    | none => simp
    | some evs => simp [forEach_outcome, List.all_reverse]

theorem processedEvents_false {ε : Type} (N : Normalizer ε) (feed : Feed ε) (r : BlockRange) :
    processedEvents N false feed r = [] := by
  simp [processedEvents, scannedEvents]

/-- The accumulators of a cycle are the normalized records and the accumulated contributions
of the handled events. -/
theorem collect_eq (w : World) (blockNow : Nat) :
    collect w blockNow =
      { activities := normalizedRecords w blockNow
        scores := accumulate (countedContributions w blockNow) } := by
  unfold collect tradeHubSection stakeBadgeSection lootBoxSection normalizedRecords
    countedContributions accumulate harvestedReached
  simp only [boxOpenedBody_eq, stakedBody_eq, harvestedBody_eq, listingSoldBody_eq,
    scanFeed_outcome]
  cases w.LOOTBOX_ADDRESS <;> cases w.STAKE_BADGE_ADDRESS <;> cases w.TRADEHUB_ADDRESS <;>
    cases scanCompletes (stakedNormalizer w) w.staked (scanRange blockNow) <;>
    simp [processedEvents_false, List.foldl_append]

/-! ## Sorting -/

theorem sortBy_perm {α : Type} (cmp : α → α → Int) (l : List α) : (sortBy cmp l).Perm l :=
  List.perm_insertionSort _ l

theorem sortBy_sorted {α : Type} (cmp : α → α → Int) (key : α → Int)
    (hcmp : ∀ a b, cmp a b ≤ 0 ↔ key b ≤ key a) (l : List α) :
    (sortBy cmp l).Pairwise (fun a b => key b ≤ key a) := by
  haveI : IsTotal α (fun a b => cmp a b ≤ 0) :=
    ⟨fun a b => by
      rcases le_total (key a) (key b) with h | h
      · exact Or.inr ((hcmp b a).2 h)
      · exact Or.inl ((hcmp a b).2 h)⟩
  haveI : IsTrans α (fun a b => cmp a b ≤ 0) :=
    ⟨fun a b c hab hbc => (hcmp a c).2 (le_trans ((hcmp b c).1 hbc) ((hcmp a b).1 hab))⟩
  have h := List.sorted_insertionSort (fun a b => cmp a b ≤ 0) l
  exact List.Pairwise.imp (fun {a b} hab => (hcmp a b).1 hab) h

theorem byScore_iff (a b : BoardEntry) : byScore a b ≤ 0 ↔ b.score ≤ a.score :=
  fsub_nonpos_iff _ _

theorem byTime_iff (a b : ActivityRecord) : byTime a b ≤ 0 ↔ (b.time : Int) ≤ (a.time : Int) :=
  sub_nonpos

/-- In a sorted list cut at `k`, what is kept is not below what is cut off. -/
theorem take_ge_drop {α : Type} (key : α → Int) (l : List α) (k : Nat)
    (h : l.Pairwise (fun a b => key b ≤ key a)) :
    ∀ x ∈ l.take k, ∀ y ∈ l.drop k, key y ≤ key x := by
  intro x hx y hy
  exact List.Sorted.rel_of_mem_take_of_mem_drop h hx hy

/-! ## The keys of the score mapping -/

theorem keys_scoreAdd (s : Scores) (a : String) (c : JSNumber) :
    (scoreAdd s a c).map Prod.fst
      = if a ∈ s.map Prod.fst then s.map Prod.fst else s.map Prod.fst ++ [a] := by
  induction s with
  | nil => simp [scoreAdd]
  | cons p s ih =>
    obtain ⟨k, v⟩ := p
    by_cases hk : k = a
    · subst hk; simp [scoreAdd]
    · have hak : ¬ a = k := fun h => hk h.symm
      simp only [scoreAdd, hk, if_false, List.map_cons, ih, List.mem_cons, hak, false_or]
      split <;> simp

theorem nodup_keys_scoreAdd (s : Scores) (a : String) (c : JSNumber)
    (h : (s.map Prod.fst).Nodup) : ((scoreAdd s a c).map Prod.fst).Nodup := by
  rw [keys_scoreAdd]
  split
  · exact h
  · rename_i hmem
    rw [List.nodup_append]
    exact ⟨h, List.nodup_singleton a, by
      intro x hx hx'
      rw [List.mem_singleton] at hx'
      subst hx'
      exact hmem hx⟩

theorem mem_keys_scoreAdd (s : Scores) (a : String) (c : JSNumber) (b : String) :
    b ∈ (scoreAdd s a c).map Prod.fst ↔ b ∈ s.map Prod.fst ∨ b = a := by
  rw [keys_scoreAdd]
  split
  · rename_i hmem
    constructor
    · exact Or.inl
    · rintro (h | rfl)
      · exact h
      · exact hmem
  · simp

theorem nodup_keys_accumulate (l : List (String × JSNumber)) :
    ((accumulate l).map Prod.fst).Nodup := by
  unfold accumulate
  suffices h : ∀ s : Scores, (s.map Prod.fst).Nodup →
      ((l.foldl (fun scores r => scoreAdd scores r.1 r.2) s).map Prod.fst).Nodup from
    h [] List.nodup_nil
  induction l with
  | nil => exact fun s h => h
  | cons r l ih => exact fun s h => ih _ (nodup_keys_scoreAdd s r.1 r.2 h)

theorem mem_keys_accumulate (l : List (String × JSNumber)) (a : String) :
    a ∈ (accumulate l).map Prod.fst ↔ a ∈ l.map Prod.fst := by
  unfold accumulate
  suffices h : ∀ s : Scores,
      (a ∈ (l.foldl (fun scores r => scoreAdd scores r.1 r.2) s).map Prod.fst
        ↔ a ∈ s.map Prod.fst ∨ a ∈ l.map Prod.fst) by
    simpa using h []
  induction l with
  | nil => intro s; simp
  | cons r l ih =>
    intro s
    rw [List.foldl_cons, ih, mem_keys_scoreAdd]
    simp only [List.map_cons, List.mem_cons]
    constructor
    · rintro ((h | h) | h)
      · exact Or.inl h
      · exact Or.inr (Or.inl h)
      · exact Or.inr (Or.inr h)
    · rintro (h | h | h)
      · exact Or.inl (Or.inl h)
      · exact Or.inl (Or.inr h)
      · exact Or.inr h

/-- The score mapping has one key per distinct actor of the records. -/
theorem length_accumulate (l : List (String × JSNumber)) :
    (accumulate l).length = (l.map Prod.fst).dedup.length := by
  have hperm : ((accumulate l).map Prod.fst).Perm (l.map Prod.fst).dedup :=
    (List.perm_ext_iff_of_nodup (nodup_keys_accumulate l) (List.nodup_dedup _)).2
      (fun a => by rw [mem_keys_accumulate, List.mem_dedup])
  simpa using hperm.length_eq

theorem lookup_eq_some_of_mem (s : Scores) (h : (s.map Prod.fst).Nodup) (a : String)
    (v : JSNumber) : s.lookup a = some v ↔ (a, v) ∈ s := by
  induction s with
  | nil => simp [List.lookup]
  | cons p s ih =>
    obtain ⟨k, u⟩ := p
    rw [List.map_cons, List.nodup_cons] at h
    by_cases hk : a = k
    · subst hk
      simp only [List.lookup, beq_self_eq_true, Option.some.injEq, List.mem_cons, Prod.mk.injEq,
        true_and]
      constructor
      · intro e; exact Or.inl e.symm
      · rintro (e | hmem)
        · exact e.symm
        · exact absurd (List.mem_map_of_mem Prod.fst hmem) h.1
    · have : (a == k) = false := by simpa using hk
      simp only [List.lookup, this, List.mem_cons, Prod.mk.injEq, hk, false_and, false_or]
      exact ih h.2

/-! ## Actors of the normalized records -/

theorem actors_filterMap {ε : Type} (N : Normalizer ε)
    (hrec : ∀ e a t, (N.record e a t).actor = a) (l : List ε)
    (hok : ∀ e ∈ l, N.readOk e = true) :
    (l.filterMap N.scored).map Prod.fst = (l.filterMap N.normalize).map (fun r => r.actor) := by
  induction l with
  | nil => rfl
  | cons e l ih =>
    have ih' := ih (fun x hx => hok x (List.mem_cons_of_mem _ hx))
    have he := hok e (List.mem_cons_self _ _)
    cases ha : N.actor e with
    | none =>
      simp [List.filterMap_cons, Normalizer.scored, Normalizer.normalize, ha, ih']
    | some a =>
      cases ht : N.time e with
      | none => simp [Normalizer.readOk, ha, ht] at he
      | some t =>
        simp [List.filterMap_cons, Normalizer.scored, Normalizer.normalize, ha, ht, ih', hrec]

theorem actors_processed {ε : Type} (N : Normalizer ε)
    (hrec : ∀ e a t, (N.record e a t).actor = a) (c : Bool) (feed : Feed ε) (r : BlockRange) :
    ((processedEvents N c feed r).filterMap N.scored).map Prod.fst
      = ((processedEvents N c feed r).filterMap N.normalize).map (fun r => r.actor) :=
  actors_filterMap N hrec _ (fun _ he => List.mem_takeWhile_imp he)

/-- The actors of the counted contributions are the actors of the normalized records. -/
theorem actors_counted (w : World) (blockNow : Nat) :
    (countedContributions w blockNow).map Prod.fst
      = (normalizedRecords w blockNow).map (fun r => r.actor) := by
  unfold countedContributions normalizedRecords
  simp only [List.map_append]
  rw [actors_processed (boxOpenedNormalizer w) (fun _ _ _ => rfl),
    actors_processed (stakedNormalizer w) (fun _ _ _ => rfl),
    actors_processed (harvestedNormalizer w) (fun _ _ _ => rfl),
    actors_processed (listingSoldNormalizer w) (fun _ _ _ => rfl)]

/-! ## `refreshActivity` -/

theorem refreshActivity_eq_some (w : World) (p : Published) (h : refreshActivity w = some p) :
    ∃ blockNow, w.getBlockNumber = some blockNow ∧
      p = { leaderboard := boardOf (collect w blockNow).scores
            recentActivity := recentOf w (collect w blockNow).activities
            activePlayers := uniqActorsOf (recentOf w (collect w blockNow).activities) } := by
  unfold refreshActivity at h
  split at h
  · split at h
    · cases h
    · rename_i blockNow hb
      simp only [Option.some.injEq] at h
      exact ⟨blockNow, hb, h.symm⟩
  · cases h

theorem mem_boardOf (s : Scores) (e : BoardEntry) (h : e ∈ boardOf s) : (e.addr, e.score) ∈ s := by
  unfold boardOf at h
  have h1 := List.mem_of_mem_take h
  have h2 := (sortBy_perm byScore _).mem_iff.1 h1
  rw [List.mem_map] at h2
  obtain ⟨q, hq, rfl⟩ := h2
  exact hq

theorem processedEvents_answered {ε : Type} (N : Normalizer ε) (c : Bool) (feed : Feed ε)
    (r : BlockRange) (h : feedAnswered N c feed r) :
    processedEvents N c feed r = (scannedEvents c feed r).reverse := by
  unfold processedEvents
  rw [List.takeWhile_eq_self_iff]
  intro e he
  rw [List.mem_reverse] at he
  unfold scannedEvents at he
  split at he
  · rename_i hc
    obtain ⟨evs, hq, hall⟩ := h hc.1 hc.2
    rw [hq] at he
    exact hall e he
  · simp at he

theorem scanCompletes_answered {ε : Type} (N : Normalizer ε) (feed : Feed ε)
    (r : BlockRange) (h : feedAnswered N true feed r) : scanCompletes N feed r = true := by
  unfold scanCompletes
  cases hf : feed.hasFilter with
  | false => rfl
  | true =>
    obtain ⟨evs, hq, hall⟩ := h rfl hf
    simp only [hq, Bool.not_true, Bool.false_or, List.all_eq_true]
    exact hall

theorem counted_eq_all (w : World) (blockNow : Nat) (h : everyReadAnswered w blockNow) :
    countedContributions w blockNow = allContributions w blockNow := by
  obtain ⟨h1, h2, h3, h4⟩ := h
  have hr : harvestedReached w (scanRange blockNow) = w.STAKE_BADGE_ADDRESS := by
    unfold harvestedReached
    cases hs : w.STAKE_BADGE_ADDRESS with
    | false => rfl
    | true =>
      rw [hs] at h2
      simp [scanCompletes_answered _ _ _ h2]
  unfold countedContributions allContributions
  simp only [hr]
  rw [processedEvents_answered _ _ _ _ h1, processedEvents_answered _ _ _ _ h2,
    processedEvents_answered _ _ _ _ h3, processedEvents_answered _ _ _ _ h4]

/-! ## Scores and leaderboard -/

/-- C1 (amended). In a cycle at chain height `blockNow`, the score of every actor is the sum, in
binary64 arithmetic and in handling order, of the contributions (box count, amount * 0.1,
amount, price) of all events of that actor that the cycle handled and did not drop: the events
of each log, latest first, up to the first one whose timestamp read is rejected, the
`Harvested` log only when the `Staked` scan did not throw.  Every published leaderboard entry
carries that score, whether or not the actor's events are among the 20 displayed, and when
every read of the cycle is answered the handled events are all events of the scanned window. -/
theorem score_is_sum_of_handled_events (w : World) (blockNow : Nat) (p : Published)
    (hb : w.getBlockNumber = some blockNow) (hp : refreshActivity w = some p) :
    (∀ actor, (collect w blockNow).scores.lookup actor
      = sumFor actor (countedContributions w blockNow)) ∧
    (∀ e ∈ p.leaderboard, sumFor e.addr (countedContributions w blockNow) = some e.score) ∧
    (everyReadAnswered w blockNow →
      countedContributions w blockNow = allContributions w blockNow) := by
  have hlook : ∀ actor, (collect w blockNow).scores.lookup actor
      = sumFor actor (countedContributions w blockNow) := by
    intro actor
    rw [collect_eq]
    exact lookup_accumulate _ _
  refine ⟨hlook, ?_, counted_eq_all w blockNow⟩
  intro e he
  obtain ⟨b, hb', rfl⟩ := refreshActivity_eq_some w p hp
  rw [hb] at hb'
  cases hb'
  rw [← hlook]
  have hmem := mem_boardOf _ e he
  have hnd : ((collect w blockNow).scores.map Prod.fst).Nodup := by
    rw [collect_eq]
    exact nodup_keys_accumulate _
  exact (lookup_eq_some_of_mem _ hnd _ _).2 hmem

/-- The scoring scenario: a `Staked` event of 50 and a `Harvested` event of 5 of one actor give
that actor the score `50 * 0.1 + 5 = 10`, the sum over the events handled. -/
theorem score_is_sum_of_handled_events_witness :
    ∃ p, refreshActivity stakeHarvestScenario = some p ∧
      p.leaderboard = [{ addr := "0xbb01", score := numberOfNat 10 }] ∧
      ((∀ actor, (collect stakeHarvestScenario 7000).scores.lookup actor
        = sumFor actor (countedContributions stakeHarvestScenario 7000)) ∧
      (∀ e ∈ p.leaderboard,
        sumFor e.addr (countedContributions stakeHarvestScenario 7000) = some e.score) ∧
      (everyReadAnswered stakeHarvestScenario 7000 →
        countedContributions stakeHarvestScenario 7000
          = allContributions stakeHarvestScenario 7000)) :=
  ⟨_, rfl, by decide!, score_is_sum_of_handled_events stakeHarvestScenario 7000 _ rfl rfl⟩

/-- C1 (as stated) fails: with two `Staked` events of 50 and 20 ARC and one `Harvested` event of
5 ARC of one actor, all inside the scanned window, a rejected timestamp read for the older
`Staked` event leaves the actor with the score 2, while the contributions of the actor's events
sum to 12. -/
theorem score_misses_unhandled_events :
    (collect rejectedReadScenario 7000).scores.lookup "0xbb01" = some (numberOfNat 2) ∧
    (refreshActivity rejectedReadScenario).map (fun p => p.leaderboard)
      = some [{ addr := "0xbb01", score := numberOfNat 2 }] ∧
    sumFor "0xbb01" (allContributions rejectedReadScenario 7000) = some (numberOfNat 12) ∧
    (collect rejectedReadScenario 7000).scores.lookup "0xbb01"
      ≠ sumFor "0xbb01" (allContributions rejectedReadScenario 7000) := by
  decide!

/-- C3. The published leaderboard is sorted by score, highest first, and holds no actor address
twice. -/
theorem leaderboard_sorted_nodup (w : World) (p : Published) (hp : refreshActivity w = some p) :
    p.leaderboard.Pairwise (fun a b => b.score ≤ a.score) ∧
    (p.leaderboard.map (fun e => e.addr)).Nodup := by
  obtain ⟨b, _, rfl⟩ := refreshActivity_eq_some w p hp
  simp only [boardOf]
  constructor
  · exact (sortBy_sorted byScore (fun e => e.score) byScore_iff _).sublist (List.take_sublist _ _)
  · refine List.Nodup.sublist ((List.take_sublist _ _).map _) ?_
    rw [((sortBy_perm byScore _).map _).nodup_iff, List.map_map, collect_eq]
    exact nodup_keys_accumulate _

/-- The leaderboard of the busy window, 25 events of 12 actors: ten entries with the scores
39, 36, 34, 32, 30, 28, 26, 24, 22, 20 in this order, each of another actor; it is sorted and
free of repeated addresses. -/
theorem leaderboard_sorted_nodup_witness :
    ∃ p, refreshActivity busyScenario = some p ∧
      p.leaderboard =
        [{ addr := "a", score := numberOfNat 39 }, { addr := "l", score := numberOfNat 36 },
         { addr := "k", score := numberOfNat 34 }, { addr := "j", score := numberOfNat 32 },
         { addr := "i", score := numberOfNat 30 }, { addr := "h", score := numberOfNat 28 },
         { addr := "g", score := numberOfNat 26 }, { addr := "f", score := numberOfNat 24 },
         { addr := "e", score := numberOfNat 22 }, { addr := "d", score := numberOfNat 20 }] ∧
      p.leaderboard.Pairwise (fun a b => b.score ≤ a.score) ∧
      (p.leaderboard.map (fun e => e.addr)).Nodup :=
  ⟨_, rfl, by decide!, leaderboard_sorted_nodup busyScenario _ rfl⟩

/-- C4. The published leaderboard is the top 10 of the score mapping: it has
`min(10, number of distinct actors of the normalized records)` entries, each entry is an
(actor, score) pair of the mapping, and no actor left out has a higher score than an actor
included. -/
theorem leaderboard_is_top_ten (w : World) (blockNow : Nat) (p : Published)
    (hb : w.getBlockNumber = some blockNow) (hp : refreshActivity w = some p) :
    p.leaderboard.length
      = min 10 (((collect w blockNow).activities.map (fun r => r.actor)).dedup.length) ∧
    (∀ e ∈ p.leaderboard, (collect w blockNow).scores.lookup e.addr = some e.score) ∧
    (∀ a s, (collect w blockNow).scores.lookup a = some s →
      a ∉ p.leaderboard.map (fun e => e.addr) → ∀ e ∈ p.leaderboard, s ≤ e.score) := by
  obtain ⟨b, hb', rfl⟩ := refreshActivity_eq_some w p hp
  rw [hb] at hb'
  cases hb'
  have hnd : ((collect w blockNow).scores.map Prod.fst).Nodup := by
    rw [collect_eq]
    exact nodup_keys_accumulate _
  refine ⟨?_, ?_, ?_⟩
  · simp only [boardOf, List.length_take, (sortBy_perm byScore _).length_eq, List.length_map]
    rw [collect_eq]
    simp only [length_accumulate, actors_counted]
  · intro e he
    exact (lookup_eq_some_of_mem _ hnd _ _).2 (mem_boardOf _ e he)
  · intro a s hlook hout e he
    have hmem := (lookup_eq_some_of_mem _ hnd _ _).1 hlook
    simp only [boardOf] at hout he
    have hsorted := sortBy_sorted byScore (fun e => e.score) byScore_iff
      ((collect w blockNow).scores.map (fun q => ({ addr := q.1, score := q.2 } : BoardEntry)))
    have hin : ({ addr := a, score := s } : BoardEntry) ∈ sortBy byScore
        ((collect w blockNow).scores.map (fun q => ({ addr := q.1, score := q.2 } : BoardEntry))) :=
      (sortBy_perm byScore _).mem_iff.2 (List.mem_map.2 ⟨(a, s), hmem, rfl⟩)
    rw [← List.take_append_drop 10 (sortBy byScore _), List.mem_append] at hin
    rcases hin with hin | hin
    · exact absurd (List.mem_map.2 ⟨_, hin, rfl⟩) hout
    · exact take_ge_drop (fun e => e.score) _ 10 hsorted e he _ hin

/-- The leaderboard of the busy window: the score mapping has the 12 actors `a` to `l`, the
leaderboard holds 10 of them, and the two actors left out, `b` with the score 16 and `c` with
the score 18, are below the lowest score shown, 20. -/
theorem leaderboard_is_top_ten_witness :
    ∃ p, refreshActivity busyScenario = some p ∧
      (collect busyScenario 7000).scores =
        [("a", numberOfNat 39), ("l", numberOfNat 36), ("k", numberOfNat 34),
         ("j", numberOfNat 32), ("i", numberOfNat 30), ("h", numberOfNat 28),
         ("g", numberOfNat 26), ("f", numberOfNat 24), ("e", numberOfNat 22),
         ("d", numberOfNat 20), ("c", numberOfNat 18), ("b", numberOfNat 16)] ∧
      p.leaderboard =
        [{ addr := "a", score := numberOfNat 39 }, { addr := "l", score := numberOfNat 36 },
         { addr := "k", score := numberOfNat 34 }, { addr := "j", score := numberOfNat 32 },
         { addr := "i", score := numberOfNat 30 }, { addr := "h", score := numberOfNat 28 },
         { addr := "g", score := numberOfNat 26 }, { addr := "f", score := numberOfNat 24 },
         { addr := "e", score := numberOfNat 22 }, { addr := "d", score := numberOfNat 20 }] ∧
      (p.leaderboard.length
        = min 10 (((collect busyScenario 7000).activities.map
            (fun r => r.actor)).dedup.length) ∧
      (∀ e ∈ p.leaderboard,
        (collect busyScenario 7000).scores.lookup e.addr = some e.score) ∧
      (∀ a s, (collect busyScenario 7000).scores.lookup a = some s →
        a ∉ p.leaderboard.map (fun e => e.addr) → ∀ e ∈ p.leaderboard, s ≤ e.score)) :=
  ⟨_, rfl, by decide!, by decide!, leaderboard_is_top_ten busyScenario 7000 _ rfl rfl⟩

/-! ## Order of accumulation -/

theorem foldl_fadd_whole (ns : List Nat) (k : Nat) (h : k + ns.sum < 2 ^ 53) :
    (ns.map numberOfNat).foldl fadd ((k : Int) * (ONE : Int))
      = ((k + ns.sum : Nat) : Int) * (ONE : Int) := by
  induction ns generalizing k with
  | nil => simp
  | cons n ns ih =>
    rw [List.sum_cons] at h
    rw [List.map_cons, List.foldl_cons, numberOfNat_whole n (by omega),
      fadd_whole k n (by omega), ih (k + n) (by omega), List.sum_cons, Nat.add_assoc]

theorem floatSum_whole (ns : List Nat) (h : ns.sum < 2 ^ 53) :
    floatSum (ns.map numberOfNat) = ((ns.sum : Nat) : Int) * (ONE : Int) := by
  have := foldl_fadd_whole ns 0 (by omega)
  simpa [floatSum] using this

theorem contributionsFor_whole (a : String) (ks : List (String × Nat)) :
    contributionsFor a (wholeRecords ks)
      = ((ks.filter (fun r => r.1 = a)).map Prod.snd).map numberOfNat := by
  unfold contributionsFor wholeRecords
  induction ks with
  | nil => rfl
  | cons r ks ih =>
    by_cases h : r.1 = a
    · simp only [List.map_cons, List.filter_cons, h, decide_True, if_true, ih]
    · simp only [List.map_cons, List.filter_cons, h, decide_False, Bool.false_eq_true,
        if_false, ih]

theorem sumFor_whole (a : String) (ks : List (String × Nat)) (h : (ks.map Prod.snd).sum < 2 ^ 53) :
    sumFor a (wholeRecords ks)
      = if (ks.filter (fun r => r.1 = a)).map Prod.snd = [] then none
        else some ((((ks.filter (fun r => r.1 = a)).map Prod.snd).sum : Nat) * (ONE : Int)) := by
  have hle : ((ks.filter (fun r => r.1 = a)).map Prod.snd).sum ≤ (ks.map Prod.snd).sum :=
    List.Sublist.sum_le_sum ((List.filter_sublist _).map _) (fun _ _ => Nat.zero_le _)
  have hfs := floatSum_whole ((ks.filter (fun r => r.1 = a)).map Prod.snd) (by omega)
  unfold sumFor
  rw [contributionsFor_whole]
  generalize (ks.filter (fun r => r.1 = a)).map Prod.snd = ns at hfs
  cases ns with
  | nil => rfl
  | cons n ns => simpa using hfs


/-- C2 (amended). Accumulating a permutation of a record sequence yields a mapping with the same
actors; and when the contributions are whole numbers (box counts) whose total is below `2^53`,
it yields the same score for every actor.  (Fractional contributions are added in binary64
arithmetic, where the order of the additions can change the last bit of a score.) -/
theorem accumulate_order_independence (l l' : List (String × JSNumber)) (hl : l.Perm l')
    (ks ks' : List (String × Nat)) (hks : ks.Perm ks') (hsum : (ks.map Prod.snd).sum < 2 ^ 53) :
    (∀ a, ((accumulate l).lookup a).isSome = ((accumulate l').lookup a).isSome) ∧
    (∀ a, (accumulate (wholeRecords ks)).lookup a = (accumulate (wholeRecords ks')).lookup a) := by
  constructor
  · intro a
    have hlen : (contributionsFor a l).length = (contributionsFor a l').length :=
      ((hl.filter _).map _).length_eq
    rw [lookup_accumulate, lookup_accumulate]
    unfold sumFor
    cases h : contributionsFor a l with
    | nil =>
      rw [h] at hlen
      have h' : contributionsFor a l' = [] := List.length_eq_zero.1 hlen.symm
      rw [h']
    | cons c cs =>
      rw [h] at hlen
      cases h' : contributionsFor a l' with
      | nil => rw [h'] at hlen; simp at hlen
      | cons c' cs' => rfl
  · intro a
    have hsum' : (ks'.map Prod.snd).sum < 2 ^ 53 := by
      rw [← (hks.map Prod.snd).sum_eq]
      exact hsum
    have hp : ((ks.filter (fun r => r.1 = a)).map Prod.snd).Perm
        ((ks'.filter (fun r => r.1 = a)).map Prod.snd) := (hks.filter _).map _
    rw [lookup_accumulate, lookup_accumulate, sumFor_whole a ks hsum, sumFor_whole a ks' hsum',
      hp.sum_eq]
    have hnil : ((ks.filter (fun r => r.1 = a)).map Prod.snd = [])
        ↔ ((ks'.filter (fun r => r.1 = a)).map Prod.snd = []) := by
      rw [← List.length_eq_zero, ← List.length_eq_zero, hp.length_eq]
    simp only [hnil]

/-- Box counts 1, 2 and 3 of two actors accumulated in two orders give the scores 4 and 2 both
times, and the two orders of the fractional records yield the same actors. -/
theorem accumulate_order_independence_witness :
    (accumulate (wholeRecords [("0xaa", 1), ("0xbb", 2), ("0xaa", 3)])).lookup "0xaa"
      = some (numberOfNat 4) ∧
    ((∀ a, ((accumulate fractionalRecords).lookup a).isSome
      = ((accumulate fractionalRecordsReversed).lookup a).isSome) ∧
    (∀ a, (accumulate (wholeRecords [("0xaa", 1), ("0xbb", 2), ("0xaa", 3)])).lookup a
      = (accumulate (wholeRecords [("0xaa", 3), ("0xbb", 2), ("0xaa", 1)])).lookup a)) :=
  ⟨by decide!,
    accumulate_order_independence fractionalRecords fractionalRecordsReversed (by decide!)
      [("0xaa", 1), ("0xbb", 2), ("0xaa", 3)] [("0xaa", 3), ("0xbb", 2), ("0xaa", 1)]
      (by decide!) (by decide!)⟩

/-- C2 (as stated) fails: the contributions 0.1, 0.2 and 0.3 of one actor accumulate to
`0.6000000000000001` in this order and to `0.6` in the opposite order; a cycle over three
`Harvested` events of 0.1, 0.2 and 0.3 ARC publishes the one score or the other, depending on
the order of the events in the log. -/
theorem accumulate_depends_on_order :
    fractionalRecords.Perm fractionalRecordsReversed ∧
    (accumulate fractionalRecords).lookup "0xaa" = some (1351079888211149 * 2 ^ 1023) ∧
    (accumulate fractionalRecordsReversed).lookup "0xaa" = some (5404319552844595 * 2 ^ 1021) ∧
    (accumulate fractionalRecords).lookup "0xaa"
      ≠ (accumulate fractionalRecordsReversed).lookup "0xaa" ∧
    (refreshActivity (harvestLogScenario [3 * 10 ^ 17, 2 * 10 ^ 17, 10 ^ 17])).map
        (fun p => p.leaderboard)
      = some [{ addr := "0xaa01", score := 1351079888211149 * 2 ^ 1023 }] ∧
    (refreshActivity (harvestLogScenario [10 ^ 17, 2 * 10 ^ 17, 3 * 10 ^ 17])).map
        (fun p => p.leaderboard)
      = some [{ addr := "0xaa01", score := 5404319552844595 * 2 ^ 1021 }] := by
  decide!

/-! ## The recent-activity list -/

/-- C5. The published recent-activity list is sorted by timestamp, latest first, and has at most
20 entries. -/
theorem recent_sorted_bounded (w : World) (p : Published) (hp : refreshActivity w = some p) :
    p.recentActivity.Pairwise (fun a b => b.record.time ≤ a.record.time) ∧
    p.recentActivity.length ≤ 20 := by
  obtain ⟨b, _, rfl⟩ := refreshActivity_eq_some w p hp
  simp only [recentOf]
  constructor
  · rw [List.pairwise_map]
    have hs := sortBy_sorted byTime (fun r => (r.time : Int)) byTime_iff (collect w b).activities
    exact (hs.imp (fun {a b} h => Int.ofNat_le.1 h)).sublist (List.take_sublist _ _)
  · simp only [List.length_map, List.length_take]
    exact Nat.min_le_left _ _

/-- The busy window publishes 20 of its 25 records, latest first. -/
theorem recent_sorted_bounded_witness :
    ∃ p, refreshActivity busyScenario = some p ∧
      p.recentActivity.map (fun a => a.record.time)
        = [1024, 1023, 1022, 1021, 1020, 1019, 1018, 1017, 1016, 1015,
           1014, 1013, 1012, 1011, 1010, 1009, 1008, 1007, 1006, 1005] ∧
      (p.recentActivity.Pairwise (fun a b => b.record.time ≤ a.record.time) ∧
      p.recentActivity.length ≤ 20) :=
  ⟨_, rfl, by decide!, recent_sorted_bounded busyScenario _ rfl⟩

/-- C6. The published recent-activity list is the latest 20 of the normalized records: it has
`min(20, number of normalized records)` entries, its records together with some remaining
records are exactly the normalized records (each as often as it was pushed), and no remaining
record is later than a displayed one. -/
theorem recent_is_latest_twenty (w : World) (blockNow : Nat) (p : Published)
    (hb : w.getBlockNumber = some blockNow) (hp : refreshActivity w = some p) :
    p.recentActivity.length = min 20 (collect w blockNow).activities.length ∧
    ∃ rest, (p.recentActivity.map (fun a => a.record) ++ rest).Perm
        (collect w blockNow).activities ∧
      ∀ r ∈ rest, ∀ d ∈ p.recentActivity, r.time ≤ d.record.time := by
  obtain ⟨b, hb', rfl⟩ := refreshActivity_eq_some w p hp
  rw [hb] at hb'
  cases hb'
  have hs := sortBy_sorted byTime (fun r => (r.time : Int)) byTime_iff
    (collect w blockNow).activities
  have hmap : (recentOf w (collect w blockNow).activities).map (fun a => a.record)
      = (sortBy byTime (collect w blockNow).activities).take 20 := by
    simp [recentOf, Function.comp_def]
  refine ⟨?_, (sortBy byTime (collect w blockNow).activities).drop 20, ?_, ?_⟩
  · simp only [recentOf, List.length_map, List.length_take,
      (sortBy_perm byTime _).length_eq]
  · rw [hmap, List.take_append_drop]
    exact sortBy_perm byTime _
  · intro r hr d hd
    have hd' : d.record ∈ (sortBy byTime (collect w blockNow).activities).take 20 := by
      rw [← hmap]
      exact List.mem_map_of_mem _ hd
    exact Int.ofNat_le.1 (take_ge_drop (fun r => (r.time : Int)) _ 20 hs _ hd' _ hr)

/-- The busy window: 25 normalized records, 20 displayed, 10 actors on the board;
the 5 records left out are the oldest. -/
theorem recent_is_latest_twenty_witness :
    ∃ p, refreshActivity busyScenario = some p ∧
      (collect busyScenario 7000).activities.length = 25 ∧ p.recentActivity.length = 20 ∧
      (p.recentActivity.length = min 20 (collect busyScenario 7000).activities.length ∧
      ∃ rest, (p.recentActivity.map (fun a => a.record) ++ rest).Perm
          (collect busyScenario 7000).activities ∧
        ∀ r ∈ rest, ∀ d ∈ p.recentActivity, r.time ≤ d.record.time) :=
  ⟨_, rfl, by decide!, by decide!, recent_is_latest_twenty busyScenario 7000 _ rfl rfl⟩

/-! ## Ties in the activity list -/

/-- A stable sort keeps the elements of one key in their original order. -/
theorem filter_orderedInsert {α : Type} (cmp : α → α → Int) (key : α → Int)
    (hcmp : ∀ a b, cmp a b ≤ 0 ↔ key b ≤ key a) (t : Int) (a : α) (l : List α) :
    (l.orderedInsert (fun a b => cmp a b ≤ 0) a).filter (fun x => key x = t)
      = if key a = t then a :: l.filter (fun x => key x = t)
        else l.filter (fun x => key x = t) := by
  induction l with
  | nil => by_cases h : key a = t <;> simp [h]
  | cons b l ih =>
    by_cases hab : cmp a b ≤ 0
    · simp only [List.orderedInsert, hab, if_true]
      by_cases h : key a = t <;> simp [List.filter_cons, h]
    · have hlt : key a < key b := lt_of_not_le (fun h => hab ((hcmp a b).2 h))
      simp only [List.orderedInsert, hab, if_false, List.filter_cons, ih]
      by_cases h : key a = t
      · have hb : ¬ key b = t := by omega
        simp [h, hb]
      · simp [h]

theorem filter_sortBy {α : Type} (cmp : α → α → Int) (key : α → Int)
    (hcmp : ∀ a b, cmp a b ≤ 0 ↔ key b ≤ key a) (t : Int) (l : List α) :
    (sortBy cmp l).filter (fun x => key x = t) = l.filter (fun x => key x = t) := by
  unfold sortBy
  induction l with
  | nil => rfl
  | cons a l ih =>
    rw [List.insertionSort, filter_orderedInsert cmp key hcmp, ih]
    by_cases h : key a = t <;> simp [List.filter_cons, h]

/-- A stable sort keeps every relation that holds between earlier and later elements of the
original list, for the pairs it leaves tied. -/
theorem sortBy_pairwise_of_tied {α : Type} (cmp : α → α → Int) (key : α → Int)
    (hcmp : ∀ a b, cmp a b ≤ 0 ↔ key b ≤ key a) (R : α → α → Prop) (l : List α)
    (h : l.Pairwise R) : (sortBy cmp l).Pairwise (fun x y => key x = key y → R x y) := by
  rw [List.pairwise_iff_forall_sublist]
  intro x y hxy hkey
  have hf := hxy.filter (fun z => key z = key y)
  rw [filter_sortBy cmp key hcmp] at hf
  have hpair : [x, y].filter (fun z => decide (key z = key y)) = [x, y] := by
    simp [List.filter_cons, hkey]
  rw [hpair] at hf
  exact List.pairwise_iff_forall_sublist.1 h (hf.trans (List.filter_sublist _))

theorem enumFrom_pairwise {α : Type} (l : List α) (n : Nat) :
    (l.enumFrom n).Pairwise (fun p q => p.1 < q.1) ∧ ∀ p ∈ l.enumFrom n, n ≤ p.1 := by
  induction l generalizing n with
  | nil => simp
  | cons a l ih =>
    obtain ⟨h1, h2⟩ := ih (n + 1)
    simp only [List.enumFrom_cons, List.pairwise_cons, List.mem_cons]
    refine ⟨⟨fun q hq => ?_, h1⟩, ?_⟩
    · have := h2 q hq
      show n < q.1
      omega
    · rintro p (rfl | hp)
      · exact le_refl _
      · have := h2 p hp
        omega

theorem tracedOf_records {ε : Type} (src : Source) (N : Normalizer ε) (c : Bool)
    (feed : Feed ε) (r : BlockRange) :
    (tracedOf src N c feed r).map (fun t => t.record)
      = (processedEvents N c feed r).filterMap N.normalize := by
  unfold tracedOf processedEvents
  rw [List.map_filterMap]
  have h1 : ∀ q : Nat × ε,
      Option.map (fun t : Traced => t.record)
        ((N.normalize q.2).map (fun rec => { source := src, index := q.1, record := rec }))
      = N.normalize q.2 := by
    intro q
    cases N.normalize q.2 <;> rfl
  simp only [h1]
  have h2 : (scannedEvents c feed r).reverse
      = (scannedEvents c feed r).enum.reverse.map Prod.snd := by
    rw [List.map_reverse, List.enum_map_snd]
  rw [h2, List.takeWhile_map, List.filterMap_map]
  rfl

theorem tracedOf_source {ε : Type} (src : Source) (N : Normalizer ε) (c : Bool)
    (feed : Feed ε) (r : BlockRange) : ∀ t ∈ tracedOf src N c feed r, t.source = src := by
  intro t ht
  unfold tracedOf at ht
  rw [List.mem_filterMap] at ht
  obtain ⟨q, _, hq⟩ := ht
  cases hn : N.normalize q.2 with
  | none => rw [hn] at hq; cases hq
  | some rec =>
    rw [hn] at hq
    simp only [Option.map_some', Option.some.injEq] at hq
    rw [← hq]

theorem tracedOf_decreasing {ε : Type} (src : Source) (N : Normalizer ε) (c : Bool)
    (feed : Feed ε) (r : BlockRange) :
    (tracedOf src N c feed r).Pairwise (fun x y => y.index < x.index) := by
  unfold tracedOf
  have h1 : ((scannedEvents c feed r).enum.reverse).Pairwise (fun p q => q.1 < p.1) := by
    rw [List.pairwise_reverse]
    exact (enumFrom_pairwise _ 0).1
  have h2 := h1.sublist (List.takeWhile_sublist (fun q => N.readOk q.2))
  refine List.Pairwise.filterMap _ ?_ h2
  intro p q hpq x hx y hy
  cases hp : N.normalize p.2 with
  | none => rw [hp] at hx; cases hx
  | some rp =>
    cases hq : N.normalize q.2 with
    | none => rw [hq] at hy; cases hy
    | some rq =>
      rw [hp] at hx
      rw [hq] at hy
      simp only [Option.map_some', Option.mem_def, Option.some.injEq] at hx hy
      rw [← hx, ← hy]
      exact hpq

theorem tracedOf_log {ε : Type} (src : Source) (N : Normalizer ε) (c : Bool)
    (feed : Feed ε) (r : BlockRange) :
    ∀ t ∈ tracedOf src N c feed r,
      ((scannedEvents c feed r)[t.index]?).bind N.normalize = some t.record := by
  intro t ht
  unfold tracedOf at ht
  rw [List.mem_filterMap] at ht
  obtain ⟨q, hq, hqt⟩ := ht
  have hmem : q ∈ (scannedEvents c feed r).enum :=
    List.mem_reverse.1 ((List.takeWhile_sublist _).subset hq)
  have hget := List.mem_enum_iff_getElem?.1 hmem
  cases hn : N.normalize q.2 with
  | none => rw [hn] at hqt; cases hqt
  | some rec =>
    rw [hn] at hqt
    simp only [Option.map_some', Option.some.injEq] at hqt
    rw [← hqt]
    simp only [hget, Option.some_bind, hn]

theorem tracedRecords_records (w : World) (blockNow : Nat) :
    (tracedRecords w blockNow).map (fun t => t.record) = normalizedRecords w blockNow := by
  unfold tracedRecords normalizedRecords
  simp only [List.map_append, tracedOf_records]

/-- In push order, a record of a feed comes before the records of earlier events of that
feed. -/
theorem tracedRecords_pairwise (w : World) (blockNow : Nat) :
    (tracedRecords w blockNow).Pairwise (fun x y => x.source = y.source → y.index < x.index) := by
  unfold tracedRecords
  have hsame : ∀ {ε : Type} (src : Source) (N : Normalizer ε) (c : Bool) (feed : Feed ε)
      (r : BlockRange), (tracedOf src N c feed r).Pairwise
        (fun x y => x.source = y.source → y.index < x.index) :=
    fun src N c feed r => (tracedOf_decreasing src N c feed r).imp (fun {a b} (h : b.index < a.index) _ => h)
  have hcross : ∀ {ε ε' : Type} (s s' : Source) (N : Normalizer ε) (N' : Normalizer ε')
      (c c' : Bool) (feed : Feed ε) (feed' : Feed ε') (r : BlockRange), s ≠ s' →
      ∀ x ∈ tracedOf s N c feed r, ∀ y ∈ tracedOf s' N' c' feed' r,
        x.source = y.source → y.index < x.index := by
    intro ε ε' s s' N N' c c' feed feed' r hne x hx y hy hxy
    rw [tracedOf_source s N c feed r x hx, tracedOf_source s' N' c' feed' r y hy] at hxy
    exact absurd hxy hne
  simp only [List.pairwise_append, List.mem_append]
  refine ⟨⟨⟨hsame _ _ _ _ _, hsame _ _ _ _ _, ?_⟩, hsame _ _ _ _ _, ?_⟩, hsame _ _ _ _ _, ?_⟩
  · exact hcross _ _ _ _ _ _ _ _ _ (by decide)
  · rintro x (hx | hx) y hy
    · exact hcross _ _ _ _ _ _ _ _ _ (by decide) x hx y hy
    · exact hcross _ _ _ _ _ _ _ _ _ (by decide) x hx y hy
  · rintro x ((hx | hx) | hx) y hy
    · exact hcross _ _ _ _ _ _ _ _ _ (by decide) x hx y hy
    · exact hcross _ _ _ _ _ _ _ _ _ (by decide) x hx y hy
    · exact hcross _ _ _ _ _ _ _ _ _ (by decide) x hx y hy

theorem tracedRecords_log (w : World) (blockNow : Nat) :
    ∀ t ∈ tracedRecords w blockNow, logRecord w blockNow t.source t.index = some t.record := by
  intro t ht
  unfold tracedRecords at ht
  simp only [List.mem_append] at ht
  rcases ht with ((ht | ht) | ht) | ht
  · rw [tracedOf_source _ _ _ _ _ t ht]
    exact tracedOf_log _ _ _ _ _ t ht
  · rw [tracedOf_source _ _ _ _ _ t ht]
    exact tracedOf_log _ _ _ _ _ t ht
  · rw [tracedOf_source _ _ _ _ _ t ht]
    have hreach : harvestedReached w (scanRange blockNow) = true := by
      cases h : harvestedReached w (scanRange blockNow) with
      | true => rfl
      | false =>
        rw [h] at ht
        simp [tracedOf, scannedEvents] at ht
    have hs : w.STAKE_BADGE_ADDRESS = true := by
      unfold harvestedReached at hreach
      simp only [Bool.and_eq_true] at hreach
      exact hreach.1
    have := tracedOf_log _ _ _ _ _ t ht
    rw [hreach] at this
    simp only [logRecord, hs]
    exact this
  · rw [tracedOf_source _ _ _ _ _ t ht]
    exact tracedOf_log _ _ _ _ _ t ht

/-- C7. Among the displayed records, two records of one feed with equal timestamps appear in
reverse emission order: the record of the event at the higher position of the feed's log comes
first.  The displayed records are here taken with their origin, which the published list does
not carry: `tracedRecent` is the published list record for record, and every origin names the
log entry that normalizes to the record. -/
theorem ties_in_reverse_emission_order (w : World) (blockNow : Nat) (p : Published)
    (hb : w.getBlockNumber = some blockNow) (hp : refreshActivity w = some p) :
    (tracedRecent w blockNow).map (fun t => t.record)
      = p.recentActivity.map (fun a => a.record) ∧
    (∀ t ∈ tracedRecent w blockNow, logRecord w blockNow t.source t.index = some t.record) ∧
    (tracedRecent w blockNow).Pairwise
      (fun x y => x.source = y.source → x.record.time = y.record.time → y.index < x.index) := by
  obtain ⟨b, hb', rfl⟩ := refreshActivity_eq_some w p hp
  rw [hb] at hb'
  cases hb'
  have hcmp : ∀ a b : Traced, byTime a.record b.record ≤ 0
      ↔ (b.record.time : Int) ≤ (a.record.time : Int) := fun a b => byTime_iff _ _
  refine ⟨?_, ?_, ?_⟩
  · have hsort : (sortBy (fun a b => byTime a.record b.record) (tracedRecords w blockNow)).map
        (fun t => t.record) = sortBy byTime (normalizedRecords w blockNow) := by
      rw [← tracedRecords_records]
      exact List.map_insertionSort (fun a b : Traced => byTime a.record b.record ≤ 0)
        (fun a b : ActivityRecord => byTime a b ≤ 0) (fun t : Traced => t.record) _
        (fun _ _ _ _ => Iff.rfl)
    simp only [tracedRecent, recentOf, List.map_take, hsort, List.map_map, collect_eq]
    simp [Function.comp_def]
  · intro t ht
    have h1 := List.mem_of_mem_take ht
    exact tracedRecords_log w blockNow t ((sortBy_perm _ _).mem_iff.1 h1)
  · have h := sortBy_pairwise_of_tied (fun a b : Traced => byTime a.record b.record)
      (fun t => (t.record.time : Int)) hcmp _ _ (tracedRecords_pairwise w blockNow)
    refine (h.imp ?_).sublist (List.take_sublist _ _)
    intro x y hxy hsrc htime
    exact hxy (by show (x.record.time : Int) = (y.record.time : Int); rw [htime]) hsrc

/-- Three `BoxOpened` events of one timestamp emitted with the transaction hashes t1, t2, t3 are
displayed as t3, t2, t1, before the `Staked` record of the same timestamp. -/
theorem ties_in_reverse_emission_order_witness :
    ∃ p, refreshActivity tieScenario = some p ∧
      p.recentActivity.map (fun a => (a.record.txHash, a.record.time))
        = [("0xt3", 500), ("0xt2", 500), ("0xt1", 500), ("0xs1", 500)] ∧
      ((tracedRecent tieScenario 7000).map (fun t => t.record)
        = p.recentActivity.map (fun a => a.record) ∧
      (∀ t ∈ tracedRecent tieScenario 7000,
        logRecord tieScenario 7000 t.source t.index = some t.record) ∧
      (tracedRecent tieScenario 7000).Pairwise
        (fun x y => x.source = y.source → x.record.time = y.record.time → y.index < x.index)) :=
  ⟨_, rfl, by decide!, ties_in_reverse_emission_order tieScenario 7000 _ rfl rfl⟩

/-! ## The deadline scan and the block range -/

theorem scanStep_inv (w : World) (now : Nat) (P : Nat → Proposal) (k : Nat) (st : Nearest)
    (hread : w.getProposal (k + 1) = some (P (k + 1))) (hinv : ScanInv now P k st) :
    ∃ st', scanStep w now st (k + 1) = some st' ∧ ScanInv now P (k + 1) st' := by
  unfold scanStep
  rw [hread]
  simp only
  rcases hinv with ⟨rfl, hnone⟩ | ⟨id, e, rfl, h1, h2, h3, h4, h5⟩
  · by_cases hq : now < (P (k + 1)).closesAt ∧ (P (k + 1)).tallied = false
    · refine ⟨_, by simp [belowNextEnd, hq.1, hq.2], Or.inr ⟨k + 1, _, rfl, by omega, le_refl _, rfl, hq, ?_⟩⟩
      intro j hj1 hj2 hj
      rcases Nat.lt_or_ge j (k + 1) with hlt | hge
      · exact absurd hj (hnone j hj1 (by omega))
      · have : j = k + 1 := by omega
        subst this
        exact ⟨le_refl _, fun _ => le_refl _⟩
    · refine ⟨_, by rw [if_neg]; simpa [belowNextEnd] using hq, Or.inl ⟨rfl, ?_⟩⟩
      intro j hj1 hj2
      rcases Nat.lt_or_ge j (k + 1) with hlt | hge
      · exact hnone j hj1 (by omega)
      · have : j = k + 1 := by omega
        subst this
        exact hq
  · by_cases hq : now < (P (k + 1)).closesAt ∧ (P (k + 1)).closesAt < e ∧
        (P (k + 1)).tallied = false
    · refine ⟨_, by simp [belowNextEnd, hq.1, hq.2.1, hq.2.2],
        Or.inr ⟨k + 1, _, rfl, by omega, le_refl _, rfl, ⟨hq.1, hq.2.2⟩, ?_⟩⟩
      intro j hj1 hj2 hj
      rcases Nat.lt_or_ge j (k + 1) with hlt | hge
      · have := h5 j hj1 (by omega) hj
        omega
      · have : j = k + 1 := by omega
        subst this
        exact ⟨le_refl _, fun _ => le_refl _⟩
    · refine ⟨_, by rw [if_neg]; simpa [belowNextEnd] using hq,
        Or.inr ⟨id, e, rfl, h1, by omega, h3, h4, ?_⟩⟩
      intro j hj1 hj2 hj
      rcases Nat.lt_or_ge j (k + 1) with hlt | hge
      · exact h5 j hj1 (by omega) hj
      · have : j = k + 1 := by omega
        subst this
        have hnot : ¬ (P (k + 1)).closesAt < e := fun hlt => hq ⟨hj.1, hlt, hj.2⟩
        exact ⟨by omega, fun _ => by omega⟩

theorem scanProposals_inv (w : World) (now : Nat) (P : Nat → Proposal) (count : Nat)
    (hread : ∀ i, 1 ≤ i → i ≤ count → w.getProposal i = some (P i)) :
    ∃ st, scanProposals w now count = some st ∧ ScanInv now P count st := by
  unfold scanProposals
  induction count with
  | zero => exact ⟨_, rfl, Or.inl ⟨rfl, fun j h1 h2 => by omega⟩⟩
  | succ k ih =>
    obtain ⟨st, hst, hinv⟩ := ih (fun i h1 h2 => hread i h1 (by omega))
    obtain ⟨st', hst', hinv'⟩ :=
      scanStep_inv w now P k st (hread (k + 1) (by omega) (le_refl _)) hinv
    refine ⟨st', ?_, hinv'⟩
    rw [List.range'_1_concat, List.foldlM_append, hst]
    simpa [Nat.add_comm] using hst'


theorem scanProposals_none_of_failed_read (w : World) (now : Nat) (i : Nat)
    (hi : w.getProposal i = none) :
    ∀ (l : List Nat) (st : Nearest), i ∈ l → l.foldlM (scanStep w now) st = none := by
  intro l
  induction l with
  | nil => intro st h; simp at h
  | cons a l ih =>
    intro st h
    rw [List.foldlM_cons]
    by_cases ha : a = i
    · subst ha
      simp [scanStep, hi]
    · have hmem : i ∈ l := by
        rcases List.mem_cons.1 h with h | h
        · exact absurd h.symm ha
        · exact h
      cases hs : scanStep w now st a with
      | none => rfl
      | some st' => simpa using ih st' hmem

/-- C8. With a provider, a council address and every read answered, the scan of the proposals
`1..count` selects an open, untallied proposal whose end of voting is the least among all such
proposals and whose id is the lowest among those sharing that end; it selects nothing exactly
when no proposal is open and untallied. -/
theorem selectNearestDeadline_spec (w : World) (count : Nat) (P : Nat → Proposal)
    (hp : w.provider = true) (hc : w.ARCADE_COUNCIL_ADDRESS = true)
    (hcount : w.getProposalCount = some count)
    (hread : ∀ i, 1 ≤ i → i ≤ count → w.getProposal i = some (P i)) :
    (∀ d, selectNearestDeadline w = some d →
      1 ≤ d.proposalId ∧ d.proposalId ≤ count ∧ (P d.proposalId).closesAt = d.closesAt ∧
      isOpenAt w.nowSec (P d.proposalId) ∧
      ∀ j, 1 ≤ j → j ≤ count → isOpenAt w.nowSec (P j) →
        d.closesAt ≤ (P j).closesAt ∧ ((P j).closesAt = d.closesAt → d.proposalId ≤ j)) ∧
    (selectNearestDeadline w = none ↔
      ∀ j, 1 ≤ j → j ≤ count → ¬ isOpenAt w.nowSec (P j)) := by
  obtain ⟨st, hst, hinv⟩ := scanProposals_inv w w.nowSec P count hread
  have hsel : selectNearestDeadline w =
      match truthyNat st.nextId, st.nextEnd with
      | some nextId, some nextEnd => some { proposalId := nextId, closesAt := nextEnd }
      | _, _ => none := by
    simp [selectNearestDeadline, hp, hc, hcount, hst]
  rcases hinv with ⟨rfl, hnone⟩ | ⟨id, e, rfl, h1, h2, h3, h4, h5⟩
  · have hn : selectNearestDeadline w = none := by rw [hsel]; rfl
    exact ⟨fun d hd => (by rw [hn] at hd; cases hd), ⟨fun _ => hnone, fun _ => hn⟩⟩
  · have hid : truthyNat (some id) = some id := by
      simp only [truthyNat]
      rw [if_neg (by omega)]
    have hs : selectNearestDeadline w = some { proposalId := id, closesAt := e } := by
      rw [hsel]
      simp only [hid]
    refine ⟨fun d hd => ?_, ⟨fun hn => ?_, fun hall => ?_⟩⟩
    · rw [hs] at hd
      cases hd
      exact ⟨h1, h2, h3, h4, h5⟩
    · rw [hs] at hn
      cases hn
    · exact absurd h4 (hall id h1 h2)

/-- With the three proposals of the scenario read at `now = 1000`, proposal 2 is selected, and
it is the open proposal with the least end of voting. -/
theorem selectNearestDeadline_spec_witness :
    selectNearestDeadline deadlineScenario = some { proposalId := 2, closesAt := 1500 } ∧
    ((∀ d, selectNearestDeadline deadlineScenario = some d →
      1 ≤ d.proposalId ∧ d.proposalId ≤ 3 ∧
      (deadlineScenarioProposals d.proposalId).closesAt = d.closesAt ∧
      isOpenAt deadlineScenario.nowSec (deadlineScenarioProposals d.proposalId) ∧
      ∀ j, 1 ≤ j → j ≤ 3 → isOpenAt deadlineScenario.nowSec (deadlineScenarioProposals j) →
        d.closesAt ≤ (deadlineScenarioProposals j).closesAt ∧
        ((deadlineScenarioProposals j).closesAt = d.closesAt → d.proposalId ≤ j)) ∧
    (selectNearestDeadline deadlineScenario = none ↔
      ∀ j, 1 ≤ j → j ≤ 3 → ¬ isOpenAt deadlineScenario.nowSec (deadlineScenarioProposals j))) :=
  ⟨by decide,
    selectNearestDeadline_spec deadlineScenario 3 deadlineScenarioProposals rfl rfl rfl
      (by
        intro i h1 h3
        have : i = 1 ∨ i = 2 ∨ i = 3 := by omega
        rcases this with rfl | rfl | rfl <;> rfl)⟩

/-- C9. When the proposal-count read is rejected, or the read of one proposal id among
`1..count` is rejected, the cycle selects nothing and publishes "No active proposals", whatever
the other reads answered. -/
theorem selectNearestDeadline_read_failure (w : World)
    (h : w.getProposalCount = none ∨
      ∃ count i, w.getProposalCount = some count ∧ 1 ≤ i ∧ i ≤ count ∧ w.getProposal i = none) :
    selectNearestDeadline w = none ∧ refreshGovernanceSummary w = "No active proposals" := by
  have hsel : selectNearestDeadline w = none := by
    unfold selectNearestDeadline
    split
    · rcases h with h | ⟨count, i, hcount, h1, h2, hi⟩
      · rw [h]
      · rw [hcount]
        have hmem : i ∈ List.range' 1 count := by
          rw [List.mem_range'_1]
          omega
        have := scanProposals_none_of_failed_read w w.nowSec i hi (List.range' 1 count)
          { nextId := none, nextEnd := none } hmem
        simp only [scanProposals, this]
    · rfl
  exact ⟨hsel, by simp [refreshGovernanceSummary, hsel]⟩

/-- In the scenario whose third read is rejected nothing is selected, although proposal 2 was
read and is open. -/
theorem selectNearestDeadline_read_failure_witness :
    failingReadScenario.getProposal 2 = some { closesAt := 1500, tallied := false } ∧
    selectNearestDeadline failingReadScenario = none ∧
    refreshGovernanceSummary failingReadScenario = "No active proposals" :=
  ⟨rfl, selectNearestDeadline_read_failure failingReadScenario
    (Or.inr ⟨3, 3, rfl, by decide, by decide, rfl⟩)⟩

/-- C10. The range scanned by a cycle at chain height `blockNow` starts at
`max(0, blockNow - 5000)`, which is not negative and not above its end, and ends at
`blockNow`. -/
theorem scanRange_spec (blockNow : Nat) :
    (scanRange blockNow).fromBlock = max 0 ((blockNow : Int) - 5000) ∧
    0 ≤ (scanRange blockNow).fromBlock ∧
    (scanRange blockNow).fromBlock ≤ (scanRange blockNow).toBlock ∧
    (scanRange blockNow).toBlock = blockNow := by
  refine ⟨rfl, le_max_left _ _, ?_, rfl⟩
  exact max_le (Int.ofNat_nonneg _) (by simp only [scanRange]; omega)

/-! ## The range of the mint scan -/

/-- C11 (amended). The mint scan of `refreshTVL` starts at `DEPLOY_BLOCK` whenever that is
configured as a number, whatever its distance from the current block, and at
`max(0, currentBlock - 100000)` otherwise; it ends at `currentBlock`.  Its bounds are not
negative when no deployment block is configured, and, when one is, exactly when the configured
block is not negative. -/
theorem mintScanRange_spec (DEPLOY_BLOCK : Option Int) (currentBlock : Nat) :
    (mintScanRange DEPLOY_BLOCK currentBlock).toBlock = currentBlock ∧
    (∀ d, DEPLOY_BLOCK = some d → (mintScanRange DEPLOY_BLOCK currentBlock).fromBlock = d) ∧
    (DEPLOY_BLOCK = none →
      (mintScanRange DEPLOY_BLOCK currentBlock).fromBlock = max 0 ((currentBlock : Int) - 100000)
      ∧ 0 ≤ (mintScanRange DEPLOY_BLOCK currentBlock).fromBlock
      ∧ (mintScanRange DEPLOY_BLOCK currentBlock).fromBlock
          ≤ (mintScanRange DEPLOY_BLOCK currentBlock).toBlock) ∧
    (∀ d, DEPLOY_BLOCK = some d →
      (0 ≤ (mintScanRange DEPLOY_BLOCK currentBlock).fromBlock ↔ 0 ≤ d)) := by
  refine ⟨rfl, ?_, ?_, ?_⟩
  · rintro d rfl
    rfl
  · rintro rfl
    refine ⟨rfl, le_max_left _ _, ?_⟩
    exact max_le (Int.ofNat_nonneg _) (by simp only [mintScanRange]; omega)
  · rintro d rfl
    exact Iff.rfl

/-- A deployment block 5000000, far behind the height 9000000, is the start of the scan; with
none configured the scan starts 100000 blocks behind. -/
theorem mintScanRange_spec_witness :
    (mintScanRange (some 5000000) 9000000).fromBlock = 5000000 ∧
    (mintScanRange none 9000000).fromBlock = 8900000 ∧
    ((mintScanRange (some 5000000) 9000000).toBlock = (9000000 : Nat) ∧
    (∀ d, some (5000000 : Int) = some d →
      (mintScanRange (some 5000000) 9000000).fromBlock = d) ∧
    (some (5000000 : Int) = none →
      (mintScanRange (some 5000000) 9000000).fromBlock
        = max 0 (((9000000 : Nat) : Int) - 100000)
      ∧ 0 ≤ (mintScanRange (some 5000000) 9000000).fromBlock
      ∧ (mintScanRange (some 5000000) 9000000).fromBlock
          ≤ (mintScanRange (some 5000000) 9000000).toBlock) ∧
    (∀ d, some (5000000 : Int) = some d →
      (0 ≤ (mintScanRange (some 5000000) 9000000).fromBlock ↔ 0 ≤ d))) :=
  ⟨by decide, by decide, mintScanRange_spec (some 5000000) 9000000⟩

/-- C11 (as stated) fails: for no factor `K` does the start of the scan follow the worded rule
on every input, since a deployment block 0 is used however far behind it is; and a configured
deployment block of -5 is returned as a negative bound. -/
theorem mintScanRange_ignores_distance :
    (¬ ∃ K : Nat, ∀ (deployBlock : Option Int) (currentBlock : Nat),
      mintScanRange deployBlock currentBlock
        = computeRangeAsWorded K currentBlock 100000 deployBlock) ∧
    (mintScanRange (some 0) 9000000).fromBlock = 0 ∧
    (mintScanRange (some (-5)) 9000000).fromBlock < 0 := by
  refine ⟨?_, by decide, by decide⟩
  rintro ⟨K, hK⟩
  have h := congrArg BlockRange.fromBlock (hK (some 0) (100000 * (K + 2)))
  simp only [mintScanRange, computeRangeAsWorded] at h
  rw [if_neg (by push_cast; nlinarith)] at h
  have h2 : (0 : Int) < max 0 (((100000 * (K + 2) : Nat) : Int) - ((100000 : Nat) : Int)) := by
    apply lt_max_of_lt_right
    push_cast
    nlinarith
  omega

/-! ## Failing sources -/

theorem processedEvents_of_failsBeforeLoop {ε : Type} (N : Normalizer ε) (c : Bool)
    (feed : Feed ε) (r : BlockRange) (h : failsBeforeLoop c feed r) :
    processedEvents N c feed r = [] := by
  unfold processedEvents scannedEvents
  rcases h with h | h | h
  · simp [h]
  · simp [h]
  · simp [h]

theorem processedEvents_harvested_of_fails (w : World) (r : BlockRange)
    (h : failsBeforeLoop w.STAKE_BADGE_ADDRESS w.harvested r) :
    processedEvents (harvestedNormalizer w) (harvestedReached w r) w.harvested r = [] := by
  cases hr : harvestedReached w r with
  | false => exact processedEvents_false _ _ _
  | true =>
    have hs : w.STAKE_BADGE_ADDRESS = true := by
      unfold harvestedReached at hr
      simp only [Bool.and_eq_true] at hr
      exact hr.1
    rw [hs] at h
    exact processedEvents_of_failsBeforeLoop _ _ _ _ h

/-- C12. With a provider and an answered chain-height read, a cycle in which every source fails
(missing address, unsupported filter or rejected log read, for each of the four feeds)
publishes an empty activity list, an empty leaderboard and the active-player count 0. -/
theorem all_sources_fail_publishes_empty (w : World) (blockNow : Nat)
    (hp : w.provider = true) (hb : w.getBlockNumber = some blockNow)
    (hbox : failsBeforeLoop w.LOOTBOX_ADDRESS w.boxOpened (scanRange blockNow))
    (hst : failsBeforeLoop w.STAKE_BADGE_ADDRESS w.staked (scanRange blockNow))
    (hhv : failsBeforeLoop w.STAKE_BADGE_ADDRESS w.harvested (scanRange blockNow))
    (hsold : failsBeforeLoop w.TRADEHUB_ADDRESS w.listingSold (scanRange blockNow)) :
    refreshActivity w = some { leaderboard := [], recentActivity := [], activePlayers := 0 } := by
  have hc : collect w blockNow = { activities := [], scores := [] } := by
    rw [collect_eq]
    unfold normalizedRecords countedContributions
    simp only [processedEvents_of_failsBeforeLoop _ _ _ _ hbox,
      processedEvents_of_failsBeforeLoop _ _ _ _ hst,
      processedEvents_harvested_of_fails w _ hhv,
      processedEvents_of_failsBeforeLoop _ _ _ _ hsold]
    rfl
  simp only [refreshActivity, hp, hb, hc, if_true]
  rfl

/-- A window with a LootBox log but no LootBox address, no StakeBadge filters and a rejected
TradeHub log read publishes the empty lists and the count 0. -/
theorem all_sources_fail_publishes_empty_witness :
    refreshActivity allSourcesFailScenario
      = some { leaderboard := [], recentActivity := [], activePlayers := 0 } :=
  all_sources_fail_publishes_empty allSourcesFailScenario 7000 rfl rfl
    (Or.inl rfl) (Or.inr (Or.inl rfl)) (Or.inr (Or.inl rfl)) (Or.inr (Or.inr rfl))

theorem bodyOf_eq (w : World) (src : Source) : bodyOf w src = (normalizerOf w src).outcome := by
  cases src
  · exact boxOpenedBody_eq w
  · exact stakedBody_eq w
  · exact harvestedBody_eq w
  · exact listingSoldBody_eq w

/-- The accumulators of a cycle, feed by feed. -/
theorem collect_by_source (w : World) (blockNow : Nat) :
    (collect w blockNow).activities
      = recordsOf w blockNow Source.boxOpened ++ recordsOf w blockNow Source.staked
        ++ recordsOf w blockNow Source.harvested ++ recordsOf w blockNow Source.listingSold ∧
    (collect w blockNow).scores
      = accumulate (contributionsOf w blockNow Source.boxOpened
        ++ contributionsOf w blockNow Source.staked
        ++ contributionsOf w blockNow Source.harvested
        ++ contributionsOf w blockNow Source.listingSold) := by
  rw [collect_eq]
  exact ⟨rfl, rfl⟩

theorem reachedOf_imp_addressOf (w : World) (r : BlockRange) (src : Source)
    (h : reachedOf w r src = true) : addressOf w src = true := by
  cases src
  · exact h
  · exact h
  · simp only [reachedOf, harvestedReached, Bool.and_eq_true] at h
    exact h.1
  · exact h

theorem processedEvents_of_not_reached (w : World) (blockNow : Nat) (src : Source)
    (h : failsBeforeLoop (addressOf w src) (feedOf w src) (scanRange blockNow)) :
    processedEvents (normalizerOf w src) (reachedOf w (scanRange blockNow) src) (feedOf w src)
      (scanRange blockNow) = [] := by
  cases hr : reachedOf w (scanRange blockNow) src with
  | false => exact processedEvents_false _ _ _
  | true =>
    rw [reachedOf_imp_addressOf w _ src hr] at h
    exact processedEvents_of_failsBeforeLoop _ _ _ _ h

theorem processedEvents_after_rejected {ε : Type} (N : Normalizer ε) (c : Bool) (feed : Feed ε)
    (r : BlockRange) (pre post : List ε) (e : ε) (hlog : scannedEvents c feed r = pre ++ e :: post)
    (he : N.readOk e = false) (hpost : ∀ x ∈ post, N.readOk x = true) :
    processedEvents N c feed r = post.reverse := by
  unfold processedEvents
  rw [hlog, List.reverse_append, List.reverse_cons, List.append_assoc]
  rw [List.takeWhile_append_of_pos (by simpa using hpost)]
  simp [List.takeWhile, he]

theorem outcome_eq_throw_iff {ε : Type} (N : Normalizer ε) (e : ε) :
    N.outcome e = Outcome.throw ↔ N.readOk e = false := by
  unfold Normalizer.outcome Normalizer.readOk
  cases N.actor e with
  | none => simp
  | some a =>
    cases N.time e with
    | none => simp
    | some t => simp

/-- C13 (amended). A cycle's activities and scores are made of the contributions of the four
feeds.  A feed that fails before its loop (missing address, unsupported filter, rejected log
read) contributes no record and no score.  A feed whose loop throws while processing an event
contributes the records and scores of the events handled before the throw, which are the
events emitted after the throwing one, and nothing for the throwing event and the events
emitted before it.  In neither case is the cycle aborted: with a provider and an answered
chain-height read it publishes what the accumulators hold. -/
theorem source_failure_contribution (w : World) (blockNow : Nat) (src : Source) :
    ((collect w blockNow).activities
      = recordsOf w blockNow Source.boxOpened ++ recordsOf w blockNow Source.staked
        ++ recordsOf w blockNow Source.harvested ++ recordsOf w blockNow Source.listingSold ∧
    (collect w blockNow).scores
      = accumulate (contributionsOf w blockNow Source.boxOpened
        ++ contributionsOf w blockNow Source.staked
        ++ contributionsOf w blockNow Source.harvested
        ++ contributionsOf w blockNow Source.listingSold)) ∧
    (failsBeforeLoop (addressOf w src) (feedOf w src) (scanRange blockNow) →
      recordsOf w blockNow src = [] ∧ contributionsOf w blockNow src = []) ∧
    (∀ (pre post : List (EventOf src)) (e : EventOf src),
      scannedEvents (reachedOf w (scanRange blockNow) src) (feedOf w src) (scanRange blockNow)
        = pre ++ e :: post →
      bodyOf w src e = Outcome.throw →
      (∀ x ∈ post, bodyOf w src x ≠ Outcome.throw) →
      recordsOf w blockNow src = post.reverse.filterMap (normalizerOf w src).normalize ∧
      contributionsOf w blockNow src = post.reverse.filterMap (normalizerOf w src).scored) ∧
    (w.provider = true → w.getBlockNumber = some blockNow →
      refreshActivity w = some
        { leaderboard := boardOf (collect w blockNow).scores
          recentActivity := recentOf w (collect w blockNow).activities
          activePlayers := uniqActorsOf (recentOf w (collect w blockNow).activities) }) := by
  refine ⟨collect_by_source w blockNow, ?_, ?_, ?_⟩
  · intro h
    unfold recordsOf contributionsOf
    rw [processedEvents_of_not_reached w blockNow src h]
    exact ⟨rfl, rfl⟩
  · intro pre post e hlog he hpost
    rw [bodyOf_eq, outcome_eq_throw_iff] at he
    have hpost' : ∀ x ∈ post, (normalizerOf w src).readOk x = true := by
      intro x hx
      have := hpost x hx
      rw [bodyOf_eq, Ne, outcome_eq_throw_iff] at this
      simpa using this
    unfold recordsOf contributionsOf
    rw [processedEvents_after_rejected _ _ _ _ pre post e hlog he hpost']
    exact ⟨rfl, rfl⟩
  · intro hp hb
    simp only [refreshActivity, hp, hb, if_true]

/-- A feed without a configured address contributes nothing, and the `Staked` feed whose loop
throws at its older event contributes the record and score of its later event. -/
theorem source_failure_contribution_witness :
    (recordsOf allSourcesFailScenario 7000 Source.boxOpened = [] ∧
      contributionsOf allSourcesFailScenario 7000 Source.boxOpened = []) ∧
    (recordsOf rejectedReadScenario 7000 Source.staked).map (fun r => r.txHash) = ["0xs2"] ∧
    (recordsOf rejectedReadScenario 7000 Source.staked
        = [({ user := some "0xBB01", amount := some (20 * 10 ^ 18), blockNumber := some 6999,
              transactionHash := "0xs2" } : StakeEvent)].reverse.filterMap
            (normalizerOf rejectedReadScenario Source.staked).normalize ∧
      contributionsOf rejectedReadScenario 7000 Source.staked
        = [({ user := some "0xBB01", amount := some (20 * 10 ^ 18), blockNumber := some 6999,
              transactionHash := "0xs2" } : StakeEvent)].reverse.filterMap
            (normalizerOf rejectedReadScenario Source.staked).scored) :=
  ⟨(source_failure_contribution allSourcesFailScenario 7000 Source.boxOpened).2.1 (Or.inl rfl),
    by decide!,
    (source_failure_contribution rejectedReadScenario 7000 Source.staked).2.2.1 []
      [{ user := some "0xBB01", amount := some (20 * 10 ^ 18), blockNumber := some 6999,
         transactionHash := "0xs2" }]
      { user := some "0xBB01", amount := some (50 * 10 ^ 18), blockNumber := some 6998,
        transactionHash := "0xs1" }
      rfl (by decide!) (by decide!)⟩

/-- C13 (as stated) fails: in the window whose older `Staked` event has a rejected timestamp
read, the `Staked` loop throws while processing that event, and yet the record of the later
`Staked` event is published and its contribution 2 is on the leaderboard. -/
theorem failing_source_still_contributes :
    stakedBody rejectedReadScenario
      { user := some "0xBB01", amount := some (50 * 10 ^ 18), blockNumber := some 6998,
        transactionHash := "0xs1" } = Outcome.throw ∧
    (recordsOf rejectedReadScenario 7000 Source.staked).map (fun r => r.txHash) = ["0xs2"] ∧
    contributionsOf rejectedReadScenario 7000 Source.staked = [("0xbb01", numberOfNat 2)] ∧
    (refreshActivity rejectedReadScenario).map
        (fun p => (p.recentActivity.map (fun a => a.record.txHash), p.leaderboard))
      = some (["0xs2"], [{ addr := "0xbb01", score := numberOfNat 2 }]) := by
  decide!

/-- C14 (amended). The records and score contributions of a feed are what they would be had
another feed returned no events, for every pair of distinct feeds except the effect of
`Staked` on `Harvested`: these two scans share one `try`, so a `Staked` scan that throws
(rejected log read, or an error while processing an event) leaves the `Harvested` feed without
any record and score, while a `Staked` scan that does not throw leaves it unaffected. -/
theorem other_sources_unaffected (w : World) (blockNow : Nat) :
    (∀ src other : Source, src ≠ other →
      ¬ (src = Source.staked ∧ other = Source.harvested) →
      recordsOf (withLog w src []) blockNow other = recordsOf w blockNow other ∧
      contributionsOf (withLog w src []) blockNow other = contributionsOf w blockNow other) ∧
    (scanCompletes (stakedNormalizer w) w.staked (scanRange blockNow) = true →
      recordsOf (withLog w Source.staked []) blockNow Source.harvested
        = recordsOf w blockNow Source.harvested ∧
      contributionsOf (withLog w Source.staked []) blockNow Source.harvested
        = contributionsOf w blockNow Source.harvested) ∧
    (scanCompletes (stakedNormalizer w) w.staked (scanRange blockNow) = false →
      recordsOf w blockNow Source.harvested = [] ∧
      contributionsOf w blockNow Source.harvested = []) := by
  refine ⟨?_, ?_, ?_⟩
  · intro src other hne hpair
    cases src <;> cases other <;>
      first
        | (simp at hne; done)
        | (simp at hpair; done)
        | exact ⟨rfl, rfl⟩
  · intro hc
    have hr : reachedOf (withLog w Source.staked []) (scanRange blockNow) Source.harvested
        = reachedOf w (scanRange blockNow) Source.harvested := by
      show harvestedReached (withLog w Source.staked []) (scanRange blockNow)
        = harvestedReached w (scanRange blockNow)
      have h1 : scanCompletes (stakedNormalizer (withLog w Source.staked []))
          (withLog w Source.staked []).staked (scanRange blockNow) = true := by
        simp [scanCompletes, withLog]
      show ((withLog w Source.staked []).STAKE_BADGE_ADDRESS && _) = (w.STAKE_BADGE_ADDRESS && _)
      rw [h1, hc]
      rfl
    unfold recordsOf contributionsOf
    rw [hr]
    exact ⟨rfl, rfl⟩
  · intro hc
    have hr : reachedOf w (scanRange blockNow) Source.harvested = false := by
      show (w.STAKE_BADGE_ADDRESS && scanCompletes (stakedNormalizer w) w.staked
        (scanRange blockNow)) = false
      rw [hc, Bool.and_false]
    unfold recordsOf contributionsOf
    rw [hr, processedEvents_false]
    exact ⟨rfl, rfl⟩

/-- In the scoring scenario the `Harvested` record is the same whether the `Staked` feed
returns its event or none, and the `Staked` record does not depend on the `Harvested` log. -/
theorem other_sources_unaffected_witness :
    (recordsOf (withLog stakeHarvestScenario Source.harvested []) 7000 Source.staked).map
        (fun r => r.txHash) = ["0xs1"] ∧
    (recordsOf (withLog stakeHarvestScenario Source.harvested []) 7000 Source.staked
        = recordsOf stakeHarvestScenario 7000 Source.staked ∧
      contributionsOf (withLog stakeHarvestScenario Source.harvested []) 7000 Source.staked
        = contributionsOf stakeHarvestScenario 7000 Source.staked) ∧
    (recordsOf (withLog stakeHarvestScenario Source.staked []) 7000 Source.harvested
        = recordsOf stakeHarvestScenario 7000 Source.harvested ∧
      contributionsOf (withLog stakeHarvestScenario Source.staked []) 7000 Source.harvested
        = contributionsOf stakeHarvestScenario 7000 Source.harvested) :=
  ⟨by decide!,
    (other_sources_unaffected stakeHarvestScenario 7000).1 Source.harvested Source.staked
      (by decide) (by decide),
    (other_sources_unaffected stakeHarvestScenario 7000).2.1 (by decide!)⟩

/-- C14 (as stated) fails: when the `Staked` log read is rejected, the `Harvested` event of the
window yields no record and no score, although it would yield both had the `Staked` feed
returned no events. -/
theorem staked_failure_hides_harvested :
    stakedLogRejectedScenario.staked.queryFilter 2000 7000 = none ∧
    recordsOf stakedLogRejectedScenario 7000 Source.harvested = [] ∧
    contributionsOf stakedLogRejectedScenario 7000 Source.harvested = [] ∧
    (recordsOf (withLog stakedLogRejectedScenario Source.staked []) 7000 Source.harvested).map
        (fun r => r.txHash) = ["0xh1"] ∧
    contributionsOf (withLog stakedLogRejectedScenario Source.staked []) 7000 Source.harvested
      = [("0xbb01", numberOfNat 5)] ∧
    (refreshActivity stakedLogRejectedScenario).map
        (fun p => (p.recentActivity.map (fun a => a.record.txHash), p.leaderboard))
      = some ([], []) ∧
    (refreshActivity (withLog stakedLogRejectedScenario Source.staked [])).map
        (fun p => (p.recentActivity.map (fun a => a.record.txHash), p.leaderboard))
      = some (["0xh1"], [{ addr := "0xbb01", score := numberOfNat 5 }]) := by
  decide!

/-! ## Timestamps and dropped events -/

/-- C15 (amended). The timestamp of a `BoxOpened` record is the embedded timestamp field when
that is a non-zero number; otherwise the timestamp of the event's block when the event has a
non-zero block number, and the wall clock when it has none.  The timestamp of a `Staked`,
`Harvested` or `ListingSold` record is the timestamp of the event's block.  When the block read
of an event with an actor is rejected, the loop body throws: no record is made for the event,
and the loop ends there with what it had pushed, so the events after it in the batch are not
normalized. -/
theorem timestamp_resolution (w : World) :
    (∀ e actor r c, boxOpenedBody w e = Outcome.push actor r c →
      (∀ ts, truthyNat e.timestamp = some ts → r.time = ts) ∧
      (truthyNat e.timestamp = none → ∀ b, truthyNat e.blockNumber = some b →
        w.getBlock (some b) = some r.time) ∧
      (truthyNat e.timestamp = none → truthyNat e.blockNumber = none → r.time = w.nowSec)) ∧
    (∀ e actor r c, stakedBody w e = Outcome.push actor r c →
      w.getBlock e.blockNumber = some r.time) ∧
    (∀ e actor r c, harvestedBody w e = Outcome.push actor r c →
      w.getBlock e.blockNumber = some r.time) ∧
    (∀ e actor r c, listingSoldBody w e = Outcome.push actor r c →
      w.getBlock e.blockNumber = some r.time) ∧
    (∀ e user b, truthyString e.user = some user → truthyNat e.timestamp = none →
      truthyNat e.blockNumber = some b → w.getBlock (some b) = none →
      boxOpenedBody w e = Outcome.throw) ∧
    (∀ e user, truthyString e.user = some user → w.getBlock e.blockNumber = none →
      stakedBody w e = Outcome.throw) ∧
    (∀ e user, truthyString e.user = some user → w.getBlock e.blockNumber = none →
      harvestedBody w e = Outcome.throw) ∧
    (∀ e buyer, truthyString e.buyer = some buyer → w.getBlock e.blockNumber = none →
      listingSoldBody w e = Outcome.throw) ∧
    (∀ (src : Source) (e : EventOf src) (rest : List (EventOf src)) (acc : Acc),
      bodyOf w src e = Outcome.throw →
      forEach (bodyOf w src) (e :: rest) acc = (acc, false)) := by
  refine ⟨?_, ?_, ?_, ?_, ?_, ?_, ?_, ?_, ?_⟩
  · intro e actor r c h
    simp only [boxOpenedBody, boxOpenedTime] at h
    cases hu : truthyString e.user with
    | none => simp [hu] at h
    | some u =>
      cases hts : truthyNat e.timestamp with
      | some ts =>
        simp only [hu, hts, Outcome.push.injEq] at h
        obtain ⟨_, rfl, _⟩ := h
        refine ⟨?_, ?_, ?_⟩
        · intro ts' h'
          cases h'
          rfl
        · intro h'
          cases h'
        · intro h'
          cases h'
      | none =>
        cases hbn : truthyNat e.blockNumber with
        | some b =>
          cases hg : w.getBlock (some b) with
          | none => simp [hu, hts, hbn, hg] at h
          | some t =>
            simp only [hu, hts, hbn, hg, Outcome.push.injEq] at h
            obtain ⟨_, rfl, _⟩ := h
            refine ⟨?_, ?_, ?_⟩
            · intro ts' h'
              cases h'
            · intro _ b' hb'
              cases hb'
              exact hg
            · intro _ h'
              cases h'
        | none =>
          simp only [hu, hts, hbn, Outcome.push.injEq] at h
          obtain ⟨_, rfl, _⟩ := h
          refine ⟨?_, ?_, ?_⟩
          · intro ts' h'
            cases h'
          · intro _ b' hb'
            cases hb'
          · intro _ _
            rfl
  · intro e actor r c h
    simp only [stakedBody] at h
    cases hu : truthyString e.user with
    | none => simp [hu] at h
    | some u =>
      cases hg : w.getBlock e.blockNumber with
      | none => simp [hu, hg] at h
      | some t =>
        simp only [hu, hg, Outcome.push.injEq] at h
        obtain ⟨_, rfl, _⟩ := h
        rfl
  · intro e actor r c h
    simp only [harvestedBody] at h
    cases hu : truthyString e.user with
    | none => simp [hu] at h
    | some u =>
      cases hg : w.getBlock e.blockNumber with
      | none => simp [hu, hg] at h
      | some t =>
        simp only [hu, hg, Outcome.push.injEq] at h
        obtain ⟨_, rfl, _⟩ := h
        rfl
  · intro e actor r c h
    simp only [listingSoldBody] at h
    cases hu : truthyString e.buyer with
    | none => simp [hu] at h
    | some u =>
      cases hg : w.getBlock e.blockNumber with
      | none => simp [hu, hg] at h
      | some t =>
        simp only [hu, hg, Outcome.push.injEq] at h
        obtain ⟨_, rfl, _⟩ := h
        rfl
  · intro e user b hu hts hbn hg
    simp [boxOpenedBody, boxOpenedTime, hu, hts, hbn, hg]
  · intro e user hu hg
    simp [stakedBody, hu, hg]
  · intro e user hu hg
    simp [harvestedBody, hu, hg]
  · intro e buyer hu hg
    simp [listingSoldBody, hu, hg]
  · intro src e rest acc h
    simp [forEach, h]

/-- In the window whose later `Staked` event has a rejected block read, the body throws at that
event and the loop ends with nothing pushed, while the earlier event alone would get the
timestamp of its block. -/
theorem timestamp_resolution_witness :
    stakedBody rejectedLatestScenario
      { user := some "0xBB01", amount := some (20 * 10 ^ 18), blockNumber := some 6999,
        transactionHash := "0xs2" } = Outcome.throw ∧
    forEach (bodyOf rejectedLatestScenario Source.staked)
      [({ user := some "0xBB01", amount := some (20 * 10 ^ 18), blockNumber := some 6999,
          transactionHash := "0xs2" } : StakeEvent),
       { user := some "0xBB01", amount := some (50 * 10 ^ 18), blockNumber := some 6998,
         transactionHash := "0xs1" }]
      { activities := [], scores := [] } = ({ activities := [], scores := [] }, false) :=
  ⟨(timestamp_resolution rejectedLatestScenario).2.2.2.2.2.1 _ "0xBB01" rfl rfl,
    (timestamp_resolution rejectedLatestScenario).2.2.2.2.2.2.2.2 Source.staked _ _ _
      (by decide!)⟩

/-- C15 (as stated) fails: when the block read of the later of two `Staked` events is rejected,
no record with the wall-clock time is made for it, and the earlier event, although its own
block read is answered, is not normalized either: the cycle publishes no activity. -/
theorem rejected_block_read_aborts_batch :
    rejectedLatestScenario.getBlock (some 6999) = none ∧
    rejectedLatestScenario.getBlock (some 6998) = some 69980 ∧
    stakedBody rejectedLatestScenario
      { user := some "0xBB01", amount := some (20 * 10 ^ 18), blockNumber := some 6999,
        transactionHash := "0xs2" } = Outcome.throw ∧
    (refreshActivity rejectedLatestScenario).map (fun p => p.recentActivity) = some [] ∧
    (refreshActivity rejectedLatestScenario).map (fun p => p.leaderboard) = some [] := by
  decide!

theorem forEach_skip {ε : Type} (body : ε → Outcome) (e : ε) (h : body e = Outcome.skip)
    (l₁ l₂ : List ε) (acc : Acc) :
    forEach body (l₁ ++ e :: l₂) acc = forEach body (l₁ ++ l₂) acc := by
  induction l₁ generalizing acc with
  | nil => simp [forEach, h]
  | cons x l₁ ih =>
    simp only [List.cons_append, forEach]
    cases body x with
    | skip => exact ih acc
    | throw => rfl
    | push a r c => exact ih _

theorem scanFeed_skip {ε : Type} (body : ε → Outcome) (e : ε) (h : body e = Outcome.skip)
    (flag : Bool) (pre post : List ε) (fromBlock toBlock : Int) (acc : Acc) :
    scanFeed { hasFilter := flag, queryFilter := fun _ _ => some (pre ++ e :: post) } body
        fromBlock toBlock acc
      = scanFeed { hasFilter := flag, queryFilter := fun _ _ => some (pre ++ post) } body
        fromBlock toBlock acc := by
  unfold scanFeed
  cases flag with
  | false => rfl
  | true =>
    simp only [if_true, List.reverse_append, List.reverse_cons, List.append_assoc,
      List.singleton_append]
    exact forEach_skip body e h _ _ acc

theorem bodyOf_skip (w : World) (src : Source) (e : EventOf src)
    (h : truthyString (primaryActorField src e) = none) : bodyOf w src e = Outcome.skip := by
  cases src <;>
    simp only [bodyOf, boxOpenedBody, stakedBody, harvestedBody, listingSoldBody] <;>
    simp only [primaryActorField] at h <;>
    simp only [h]

theorem collect_congr (w₁ w₂ : World) (blockNow : Nat)
    (hL : w₁.LOOTBOX_ADDRESS = w₂.LOOTBOX_ADDRESS)
    (hS : w₁.STAKE_BADGE_ADDRESS = w₂.STAKE_BADGE_ADDRESS)
    (hT : w₁.TRADEHUB_ADDRESS = w₂.TRADEHUB_ADDRESS)
    (h1 : ∀ acc, scanFeed w₁.boxOpened (boxOpenedBody w₁) (scanRange blockNow).fromBlock
        (scanRange blockNow).toBlock acc
      = scanFeed w₂.boxOpened (boxOpenedBody w₂) (scanRange blockNow).fromBlock
        (scanRange blockNow).toBlock acc)
    (h2 : ∀ acc, scanFeed w₁.staked (stakedBody w₁) (scanRange blockNow).fromBlock
        (scanRange blockNow).toBlock acc
      = scanFeed w₂.staked (stakedBody w₂) (scanRange blockNow).fromBlock
        (scanRange blockNow).toBlock acc)
    (h3 : ∀ acc, scanFeed w₁.harvested (harvestedBody w₁) (scanRange blockNow).fromBlock
        (scanRange blockNow).toBlock acc
      = scanFeed w₂.harvested (harvestedBody w₂) (scanRange blockNow).fromBlock
        (scanRange blockNow).toBlock acc)
    (h4 : ∀ acc, scanFeed w₁.listingSold (listingSoldBody w₁) (scanRange blockNow).fromBlock
        (scanRange blockNow).toBlock acc
      = scanFeed w₂.listingSold (listingSoldBody w₂) (scanRange blockNow).fromBlock
        (scanRange blockNow).toBlock acc) :
    collect w₁ blockNow = collect w₂ blockNow := by
  simp only [collect, lootBoxSection, stakeBadgeSection, tradeHubSection, hL, hS, hT, h1, h2,
    h3, h4]

theorem collect_withLog_skip (w : World) (blockNow : Nat) (src : Source)
    (pre post : List (EventOf src)) (e : EventOf src)
    (h : truthyString (primaryActorField src e) = none) :
    collect (withLog w src (pre ++ e :: post)) blockNow
      = collect (withLog w src (pre ++ post)) blockNow := by
  have hb := bodyOf_skip w src e h
  cases src
  · exact collect_congr _ _ _ rfl rfl rfl
      (fun acc => scanFeed_skip (boxOpenedBody w) e hb _ pre post _ _ acc)
      (fun _ => rfl) (fun _ => rfl) (fun _ => rfl)
  · exact collect_congr _ _ _ rfl rfl rfl (fun _ => rfl)
      (fun acc => scanFeed_skip (stakedBody w) e hb _ pre post _ _ acc)
      (fun _ => rfl) (fun _ => rfl)
  · exact collect_congr _ _ _ rfl rfl rfl (fun _ => rfl) (fun _ => rfl)
      (fun acc => scanFeed_skip (harvestedBody w) e hb _ pre post _ _ acc)
      (fun _ => rfl)
  · exact collect_congr _ _ _ rfl rfl rfl (fun _ => rfl) (fun _ => rfl) (fun _ => rfl)
      (fun acc => scanFeed_skip (listingSoldBody w) e hb _ pre post _ _ acc)

/-- C16. An event whose primary actor field is absent (or empty) is skipped by the loop body
without a throw, and a cycle over a log that holds such an event publishes exactly what it
publishes over the log without it: no record, no score change, and the other events are handled
as if the event were not there. -/
theorem dropped_event_changes_nothing (w : World) (src : Source)
    (pre post : List (EventOf src)) (e : EventOf src)
    (h : truthyString (primaryActorField src e) = none) :
    bodyOf w src e = Outcome.skip ∧
    refreshActivity (withLog w src (pre ++ e :: post))
      = refreshActivity (withLog w src (pre ++ post)) := by
  refine ⟨bodyOf_skip w src e h, ?_⟩
  have hc := fun b => collect_withLog_skip w b src pre post e h
  have hp : (withLog w src (pre ++ e :: post)).provider
      = (withLog w src (pre ++ post)).provider := by cases src <;> rfl
  have hn : (withLog w src (pre ++ e :: post)).getBlockNumber
      = (withLog w src (pre ++ post)).getBlockNumber := by cases src <;> rfl
  have ht : (withLog w src (pre ++ e :: post)).toLocaleString
      = (withLog w src (pre ++ post)).toLocaleString := by cases src <;> rfl
  simp only [refreshActivity, hp, hn, hc, recentOf, ht]

/-- A `BoxOpened` log whose middle event has no user publishes what the log of the two other
events publishes. -/
theorem dropped_event_changes_nothing_witness :
    (refreshActivity (withLog tieScenario Source.boxOpened droppedEventLog)).map
        (fun p => p.recentActivity.map (fun a => a.record.txHash))
      = some ["0xs1", "0xt3", "0xt1"] ∧
    (boxOpenedBody tieScenario
        { user := none, trophyId := some 2, timestamp := some 300, boxCount := some 2,
          blockNumber := some 6991, transactionHash := "0xt2" } = Outcome.skip ∧
      refreshActivity (withLog tieScenario Source.boxOpened droppedEventLog)
        = refreshActivity (withLog tieScenario Source.boxOpened
            [{ user := some "0xAA01", trophyId := some 1, timestamp := some 100,
               boxCount := some 1, blockNumber := some 6990, transactionHash := "0xt1" },
             { user := some "0xAA01", trophyId := some 3, timestamp := some 200,
               boxCount := some 3, blockNumber := some 6992, transactionHash := "0xt3" }])) :=
  ⟨by decide!,
    dropped_event_changes_nothing tieScenario Source.boxOpened
      [{ user := some "0xAA01", trophyId := some 1, timestamp := some 100,
         boxCount := some 1, blockNumber := some 6990, transactionHash := "0xt1" }]
      [{ user := some "0xAA01", trophyId := some 3, timestamp := some 200,
         boxCount := some 3, blockNumber := some 6992, transactionHash := "0xt3" }]
      { user := none, trophyId := some 2, timestamp := some 300, boxCount := some 2,
        blockNumber := some 6991, transactionHash := "0xt2" } rfl⟩

/-! ## Display names and active players -/

theorem toLowerCase_ne_empty (u : String) (h : u ≠ "") : toLowerCase u ≠ "" := by
  intro he
  apply h
  have hd : (toLowerCase u).data = [] := by rw [he]
  simp only [toLowerCase, List.map_eq_nil_iff] at hd
  exact String.ext hd

theorem truncatedAddress_ne_you (a : String) : truncatedAddress a ≠ "You" := by
  intro he
  have hd : (truncatedAddress a).data = ['Y', 'o', 'u'] := by rw [he]
  have hmem : '.' ∈ (truncatedAddress a).data := by
    simp only [truncatedAddress, String.data_append]
    apply List.mem_append_left
    apply List.mem_append_right
    decide
  rw [hd] at hmem
  revert hmem
  decide

theorem truthyString_some (o : Option String) (s : String) (h : truthyString o = some s) :
    o = some s ∧ s ≠ "" := by
  cases o with
  | none => simp [truthyString] at h
  | some t =>
    simp only [truthyString] at h
    split at h
    · cases h
    · rename_i hne
      cases h
      exact ⟨rfl, hne⟩

/-- The display name computed for a lower-cased, non-empty actor. -/
theorem displayOf_spec (w : World) (user : String) (hu : user ≠ "") :
    (displayOf w (toLowerCase user) = "You"
      ↔ ∃ account, truthyString w.account = some account ∧ sameAddress user account) ∧
    (displayOf w (toLowerCase user) ≠ "You"
      → displayOf w (toLowerCase user) = truncatedAddress (toLowerCase user)) := by
  have hshort : shortAddr (toLowerCase user) = truncatedAddress (toLowerCase user) := by
    simp only [shortAddr, truncatedAddress]
    rw [if_neg (toLowerCase_ne_empty user hu)]
  unfold displayOf
  cases hacc : truthyString w.account with
  | none =>
    show (shortAddr (toLowerCase user) = "You" ↔ _)
      ∧ (shortAddr (toLowerCase user) ≠ "You" → shortAddr (toLowerCase user) = _)
    rw [hshort]
    refine ⟨⟨fun h => absurd h (truncatedAddress_ne_you _), ?_⟩, fun _ => rfl⟩
    rintro ⟨account, h, _⟩
    cases h
  | some account =>
    show ((if toLowerCase user = toLowerCase account then "You"
        else shortAddr (toLowerCase user)) = "You" ↔ _)
      ∧ ((if toLowerCase user = toLowerCase account then "You"
        else shortAddr (toLowerCase user)) ≠ "You" →
        (if toLowerCase user = toLowerCase account then "You"
        else shortAddr (toLowerCase user)) = _)
    by_cases heq : toLowerCase user = toLowerCase account
    · rw [if_pos heq]
      exact ⟨⟨fun _ => ⟨account, rfl, heq⟩, fun _ => rfl⟩, fun h => absurd rfl h⟩
    · rw [if_neg heq, hshort]
      refine ⟨⟨fun h => absurd h (truncatedAddress_ne_you _), ?_⟩, fun _ => rfl⟩
      rintro ⟨account', h, hs⟩
      cases h
      exact absurd hs heq

theorem push_of_bodyOf (w : World) (src : Source) (e : EventOf src) (actor : String)
    (r : ActivityRecord) (c : JSNumber) (h : bodyOf w src e = Outcome.push actor r c) :
    ∃ user, truthyString (primaryActorField src e) = some user ∧ actor = toLowerCase user ∧
      r.actor = actor ∧ r.display = displayOf w actor := by
  cases src
  · simp only [bodyOf, boxOpenedBody] at h
    cases hu : truthyString e.user with
    | none => simp [hu] at h
    | some u =>
      cases ht : boxOpenedTime w e with
      | none => simp [hu, ht] at h
      | some t =>
        simp only [hu, ht, Outcome.push.injEq] at h
        obtain ⟨rfl, rfl, _⟩ := h
        exact ⟨u, hu, rfl, rfl, rfl⟩
  · simp only [bodyOf, stakedBody] at h
    cases hu : truthyString e.user with
    | none => simp [hu] at h
    | some u =>
      cases ht : w.getBlock e.blockNumber with
      | none => simp [hu, ht] at h
      | some t =>
        simp only [hu, ht, Outcome.push.injEq] at h
        obtain ⟨rfl, rfl, _⟩ := h
        exact ⟨u, hu, rfl, rfl, rfl⟩
  · simp only [bodyOf, harvestedBody] at h
    cases hu : truthyString e.user with
    | none => simp [hu] at h
    | some u =>
      cases ht : w.getBlock e.blockNumber with
      | none => simp [hu, ht] at h
      | some t =>
        simp only [hu, ht, Outcome.push.injEq] at h
        obtain ⟨rfl, rfl, _⟩ := h
        exact ⟨u, hu, rfl, rfl, rfl⟩
  · simp only [bodyOf, listingSoldBody] at h
    cases hu : truthyString e.buyer with
    | none => simp [hu] at h
    | some u =>
      cases ht : w.getBlock e.blockNumber with
      | none => simp [hu, ht] at h
      | some t =>
        simp only [hu, ht, Outcome.push.injEq] at h
        obtain ⟨rfl, rfl, _⟩ := h
        exact ⟨u, hu, rfl, rfl, rfl⟩

/-- C17. For an event of any feed that yields a record, the actor is the lower-cased primary
actor field, and the display name of the record is "You" exactly when a connected account exists
and equals that field under case-insensitive comparison; otherwise it is the truncated address:
the first 6 characters of the actor, three dots, and its last 4 characters. -/
theorem display_name_spec (w : World) (src : Source) (e : EventOf src) (actor : String)
    (r : ActivityRecord) (c : JSNumber) (h : bodyOf w src e = Outcome.push actor r c) :
    ∃ user, truthyString (primaryActorField src e) = some user ∧ actor = toLowerCase user ∧
      r.actor = actor ∧
      (r.display = "You"
        ↔ ∃ account, truthyString w.account = some account ∧ sameAddress user account) ∧
      (r.display ≠ "You" → r.display = truncatedAddress actor) := by
  obtain ⟨user, hu, ha, hra, hd⟩ := push_of_bodyOf w src e actor r c h
  have hne := (truthyString_some _ _ hu).2
  have hspec := displayOf_spec w user hne
  rw [hd, ha]
  exact ⟨user, hu, rfl, by rw [hra, ha], hspec⟩

/-- A `BoxOpened` event of `0xAA01` is shown as "You" to the wallet `0xaa01` and as the
truncated address `0xaa01...aa01` when no wallet is connected. -/
theorem display_name_spec_witness :
    (∃ r c, boxOpenedBody ownWalletScenario
        { user := some "0xAA01", trophyId := some 1, timestamp := some 500,
          boxCount := some 1, blockNumber := some 6990, transactionHash := "0xt1" }
        = Outcome.push "0xaa01" r c ∧ r.display = "You") ∧
    (∃ r c, boxOpenedBody tieScenario
        { user := some "0xAA01", trophyId := some 1, timestamp := some 500,
          boxCount := some 1, blockNumber := some 6990, transactionHash := "0xt1" }
        = Outcome.push "0xaa01" r c ∧ r.display = "0xaa01...aa01") ∧
    (∃ user, truthyString (primaryActorField Source.boxOpened
          { user := some "0xAA01", trophyId := some 1, timestamp := some 500,
            boxCount := some 1, blockNumber := some 6990, transactionHash := "0xt1" })
        = some user ∧ "0xaa01" = toLowerCase user) :=
  ⟨⟨_, _, rfl, by decide!⟩, ⟨_, _, rfl, by decide!⟩,
    (display_name_spec ownWalletScenario Source.boxOpened
      { user := some "0xAA01", trophyId := some 1, timestamp := some 500,
        boxCount := some 1, blockNumber := some 6990, transactionHash := "0xt1" }
      "0xaa01" _ _ rfl).imp (fun _ h => ⟨h.1, h.2.1⟩)⟩

theorem toLower_toLower (c : Char) : c.toLower.toLower = c.toLower := by
  by_cases h : c.toNat ≥ 65 ∧ c.toNat ≤ 90
  · have hc : c.toLower = Char.ofNat (c.toNat + 32) := by simp [Char.toLower, h]
    rw [hc]
    have hall : ∀ k, k < 26 →
        (Char.ofNat (65 + k + 32)).toLower = Char.ofNat (65 + k + 32) := by decide
    obtain ⟨k, hk⟩ : ∃ k, c.toNat = 65 + k := ⟨c.toNat - 65, by omega⟩
    rw [hk]
    exact hall k (by omega)
  · have hc : c.toLower = c := by simp [Char.toLower, h]
    rw [hc, hc]

theorem toLowerCase_toLowerCase (u : String) : toLowerCase (toLowerCase u) = toLowerCase u := by
  simp only [toLowerCase, List.map_map]
  congr 1
  apply List.map_congr_left
  intro c _
  exact toLower_toLower c

theorem normalize_eq_some {ε : Type} (N : Normalizer ε) (e : ε) (r : ActivityRecord)
    (h : N.normalize e = some r) : ∃ a, N.outcome e = Outcome.push a r (N.contribution e) := by
  unfold Normalizer.normalize at h
  unfold Normalizer.outcome
  cases ha : N.actor e with
  | none => simp [ha] at h
  | some a =>
    cases ht : N.time e with
    | none => simp [ha, ht] at h
    | some t =>
      simp only [ha, ht, Option.some_bind, Option.map_some', Option.some.injEq] at h
      exact ⟨a, by subst h; rfl⟩

theorem lowerCased_recordsOf (w : World) (blockNow : Nat) (src : Source) :
    ∀ r ∈ recordsOf w blockNow src, LowerCasedActor r := by
  intro r hr
  unfold recordsOf at hr
  rw [List.mem_filterMap] at hr
  obtain ⟨e, _, he⟩ := hr
  obtain ⟨a, ha⟩ := normalize_eq_some _ e r he
  rw [← bodyOf_eq] at ha
  obtain ⟨user, hu, hau, hra, _⟩ := push_of_bodyOf w src e a r _ ha
  exact ⟨user, (truthyString_some _ _ hu).2, by rw [hra, hau]⟩

theorem lowerCased_activities (w : World) (blockNow : Nat) :
    ∀ r ∈ (collect w blockNow).activities, LowerCasedActor r := by
  intro r hr
  rw [(collect_by_source w blockNow).1] at hr
  simp only [List.mem_append] at hr
  rcases hr with ((hr | hr) | hr) | hr
  · exact lowerCased_recordsOf w blockNow _ r hr
  · exact lowerCased_recordsOf w blockNow _ r hr
  · exact lowerCased_recordsOf w blockNow _ r hr
  · exact lowerCased_recordsOf w blockNow _ r hr

theorem lowerCased_recentOf (w : World) (blockNow : Nat) :
    ∀ a ∈ recentOf w (collect w blockNow).activities, LowerCasedActor a.record := by
  intro a ha
  unfold recentOf at ha
  rw [List.mem_map] at ha
  obtain ⟨r, hr, rfl⟩ := ha
  exact lowerCased_activities w blockNow r
    ((sortBy_perm byTime _).mem_iff.1 (List.mem_of_mem_take hr))

theorem uniqActorsOf_eq (recent : List RecentEntry)
    (h : ∀ a ∈ recent, LowerCasedActor a.record) :
    uniqActorsOf recent
      = (((recent.map (fun a => a.record.actor)).filter (fun x => x ≠ "unknown")).dedup).length := by
  unfold uniqActorsOf
  have hmap : recent.map (fun a => toLowerCase a.record.actor)
      = recent.map (fun a => a.record.actor) := by
    apply List.map_congr_left
    intro a ha
    obtain ⟨u, _, hu⟩ := h a ha
    show toLowerCase a.record.actor = a.record.actor
    rw [hu, toLowerCase_toLowerCase]
  rw [hmap]
  congr 2
  apply List.filter_congr
  intro x hx
  rw [List.mem_map] at hx
  obtain ⟨a, ha, rfl⟩ := hx
  obtain ⟨u, hne, hu⟩ := h a ha
  have hx : a.record.actor ≠ "" := by
    rw [hu]
    exact toLowerCase_ne_empty u hne
  simp [hx]

theorem filter_ne_unknown (l : List String) (h : ∀ x ∈ l, x ≠ "unknown") :
    l.filter (fun x => x ≠ "unknown") = l := by
  rw [List.filter_eq_self]
  intro x hx
  simpa using h x hx

/-- C18. The published active-player count is the number of distinct actor addresses among the
records of the displayed (at most 20) recent-activity list, the literal "unknown" not being
counted as an address; hence it is at most 20 and at most the length of the displayed list. -/
theorem active_players_of_displayed (w : World) (p : Published)
    (hp : refreshActivity w = some p) :
    p.activePlayers
      = (((p.recentActivity.map (fun a => a.record.actor)).filter
          (fun x => x ≠ "unknown")).dedup).length ∧
    ((∀ a ∈ p.recentActivity, a.record.actor ≠ "unknown") →
      p.activePlayers = ((p.recentActivity.map (fun a => a.record.actor)).dedup).length) ∧
    p.activePlayers ≤ 20 ∧ p.activePlayers ≤ p.recentActivity.length := by
  obtain ⟨b, _, rfl⟩ := refreshActivity_eq_some w p hp
  have heq := uniqActorsOf_eq _ (lowerCased_recentOf w b)
  have hlen : (recentOf w (collect w b).activities).length ≤ 20 := by
    simp only [recentOf, List.length_map, List.length_take]
    exact Nat.min_le_left _ _
  have hle : uniqActorsOf (recentOf w (collect w b).activities)
      ≤ (recentOf w (collect w b).activities).length := by
    rw [heq]
    calc _ ≤ ((List.map (fun a => a.record.actor)
            (recentOf w (collect w b).activities)).filter (fun x => x ≠ "unknown")).length :=
          (List.dedup_sublist _).length_le
      _ ≤ (List.map (fun a => a.record.actor) (recentOf w (collect w b).activities)).length :=
          (List.filter_sublist _).length_le
      _ = _ := List.length_map _ _
  refine ⟨heq, ?_, le_trans hle hlen, hle⟩
  intro hno
  show uniqActorsOf _ = _
  rw [heq, filter_ne_unknown]
  intro x hx
  rw [List.mem_map] at hx
  obtain ⟨a, ha, rfl⟩ := hx
  exact hno a ha

/-- In the crowded window 25 actors have a record, 20 records are displayed, and the count
published is 20. -/
theorem active_players_of_displayed_witness :
    ∃ p, refreshActivity crowdScenario = some p ∧
      p.activePlayers = 20 ∧
      (((collect crowdScenario 7000).activities.map (fun r => r.actor)).dedup).length = 25 ∧
      (p.activePlayers
        = (((p.recentActivity.map (fun a => a.record.actor)).filter
            (fun x => x ≠ "unknown")).dedup).length ∧
      ((∀ a ∈ p.recentActivity, a.record.actor ≠ "unknown") →
        p.activePlayers = ((p.recentActivity.map (fun a => a.record.actor)).dedup).length) ∧
      p.activePlayers ≤ 20 ∧ p.activePlayers ≤ p.recentActivity.length) :=
  ⟨_, rfl, by decide!, by decide!, active_players_of_displayed crowdScenario _ rfl⟩

/-! ## Re-running a cycle -/

theorem scanFeed_congr {ε : Type} (f₁ f₂ : Feed ε) (body : ε → Outcome) (fromBlock toBlock : Int)
    (hf : f₁.hasFilter = f₂.hasFilter)
    (hq : f₁.queryFilter fromBlock toBlock = f₂.queryFilter fromBlock toBlock) (acc : Acc) :
    scanFeed f₁ body fromBlock toBlock acc = scanFeed f₂ body fromBlock toBlock acc := by
  simp only [scanFeed, hf, hq]

theorem refreshActivity_congr (w₁ w₂ : World) (h : sameActivityInputs w₁ w₂) :
    refreshActivity w₁ = refreshActivity w₂ := by
  obtain ⟨hprov, hacc, hnow, hL, hS, hT, hbn, hgb, hns, hls, hfeeds⟩ := h
  have hbox : boxOpenedBody w₁ = boxOpenedBody w₂ := by
    funext e
    simp only [boxOpenedBody, boxOpenedTime, displayOf, hacc, hnow, hgb, hns]
  have hst : stakedBody w₁ = stakedBody w₂ := by
    funext e
    simp only [stakedBody, displayOf, hacc, hgb, hns]
  have hhv : harvestedBody w₁ = harvestedBody w₂ := by
    funext e
    simp only [harvestedBody, displayOf, hacc, hgb, hns]
  have hsold : listingSoldBody w₁ = listingSoldBody w₂ := by
    funext e
    simp only [listingSoldBody, displayOf, hacc, hgb, hns]
  unfold refreshActivity
  rw [← hprov, ← hbn]
  cases w₁.provider with
  | false => rfl
  | true =>
    cases hb : w₁.getBlockNumber with
    | none => rfl
    | some blockNow =>
      obtain ⟨f1, f2, f3, f4, q1, q2, q3, q4⟩ := hfeeds blockNow hb
      have hc : collect w₁ blockNow = collect w₂ blockNow :=
        collect_congr w₁ w₂ blockNow hL hS hT
          (fun acc => by rw [hbox]; exact scanFeed_congr _ _ _ _ _ f1 q1 acc)
          (fun acc => by rw [hst]; exact scanFeed_congr _ _ _ _ _ f2 q2 acc)
          (fun acc => by rw [hhv]; exact scanFeed_congr _ _ _ _ _ f3 q3 acc)
          (fun acc => by rw [hsold]; exact scanFeed_congr _ _ _ _ _ f4 q4 acc)
      simp only [if_true, hc, recentOf, hls]

/-- C20. Two runs of `refreshActivity` on identical inputs (provider, connected account, clock,
configuration, chain height, block timestamps, logs of the scanned range) publish the same
activity list, leaderboard and active-player count; running the cycle again on a state it has
just written changes nothing; and what a cycle writes does not depend on the state it finds:
the three values are those of the cycle alone, never added to earlier ones. -/
theorem refreshActivity_idempotent (w₁ w₂ : World) (h : sameActivityInputs w₁ w₂) :
    refreshActivity w₁ = refreshActivity w₂ ∧
    (∀ st, runRefreshActivity w₂ (runRefreshActivity w₁ st) = runRefreshActivity w₁ st) ∧
    (∀ p, refreshActivity w₁ = some p → ∀ st,
      (runRefreshActivity w₁ st).leaderboard = p.leaderboard ∧
      (runRefreshActivity w₁ st).recentActivity = p.recentActivity ∧
      (runRefreshActivity w₁ st).activePlayers = toString p.activePlayers) := by
  have hc := refreshActivity_congr w₁ w₂ h
  refine ⟨hc, ?_, ?_⟩
  · intro st
    unfold runRefreshActivity
    rw [← hc]
    cases refreshActivity w₁ with
    | none => rfl
    | some p => rfl
  · intro p hp st
    unfold runRefreshActivity
    rw [hp]
    exact ⟨rfl, rfl, rfl⟩

/-- The scoring scenario and a world that differs from it in its council and in the logs
outside the scanned range publish the same, and a second run leaves the state as the first
run wrote it. -/
theorem refreshActivity_idempotent_witness :
    (runRefreshActivity stakeHarvestScenario initialHomeState).activePlayers = "1" ∧
    (refreshActivity stakeHarvestScenario = refreshActivity sameInputsScenario ∧
    (∀ st, runRefreshActivity sameInputsScenario (runRefreshActivity stakeHarvestScenario st)
      = runRefreshActivity stakeHarvestScenario st) ∧
    (∀ p, refreshActivity stakeHarvestScenario = some p → ∀ st,
      (runRefreshActivity stakeHarvestScenario st).leaderboard = p.leaderboard ∧
      (runRefreshActivity stakeHarvestScenario st).recentActivity = p.recentActivity ∧
      (runRefreshActivity stakeHarvestScenario st).activePlayers = toString p.activePlayers)) :=
  ⟨by decide!,
    refreshActivity_idempotent stakeHarvestScenario sameInputsScenario
      ⟨rfl, rfl, rfl, rfl, rfl, rfl, rfl, rfl, rfl, rfl, fun blockNow hb => by
        have hb' : blockNow = 7000 := by
          have : some (7000 : Nat) = some blockNow := hb
          exact (Option.some.inj this).symm
        subst hb'
        exact ⟨rfl, rfl, rfl, rfl, rfl, rfl, rfl, rfl⟩⟩⟩

/-! ## The scenario of three opened boxes -/

theorem processedEvents_of_no_events (w : World) (blockNow : Nat) (src : Source)
    (h : scannedEvents (addressOf w src) (feedOf w src) (scanRange blockNow) = []) :
    processedEvents (normalizerOf w src) (reachedOf w (scanRange blockNow) src) (feedOf w src)
      (scanRange blockNow) = [] := by
  cases hr : reachedOf w (scanRange blockNow) src with
  | false => exact processedEvents_false _ _ _
  | true =>
    rw [reachedOf_imp_addressOf w _ src hr] at h
    unfold processedEvents
    rw [h]
    rfl

theorem three_boxes_sum :
    fadd (fadd (fadd 0 (numberOfNat 3)) (numberOfNat 2)) (numberOfNat 1) = numberOfNat 6 := by
  decide!

/-- C19. With a provider and an answered chain-height read, a window that holds exactly three
`BoxOpened` events of one actor, with the box counts 1, 2, 3 and the embedded timestamps 100,
300, 200, and no event of any other feed, publishes an activity list with the timestamps 300,
200, 100 in that order, all of that actor, and a leaderboard with the single entry of that
actor (lower-cased) with the score 6. -/
theorem three_boxes_scenario (w : World) (blockNow : Nat) (u : String)
    (e₁ e₂ e₃ : BoxOpenedEvent)
    (hp : w.provider = true) (hb : w.getBlockNumber = some blockNow) (hu : u ≠ "")
    (hlog : scannedEvents w.LOOTBOX_ADDRESS w.boxOpened (scanRange blockNow) = [e₁, e₂, e₃])
    (h₁ : e₁.user = some u ∧ e₁.boxCount = some 1 ∧ e₁.timestamp = some 100)
    (h₂ : e₂.user = some u ∧ e₂.boxCount = some 2 ∧ e₂.timestamp = some 300)
    (h₃ : e₃.user = some u ∧ e₃.boxCount = some 3 ∧ e₃.timestamp = some 200)
    (hst : scannedEvents w.STAKE_BADGE_ADDRESS w.staked (scanRange blockNow) = [])
    (hhv : scannedEvents w.STAKE_BADGE_ADDRESS w.harvested (scanRange blockNow) = [])
    (hsold : scannedEvents w.TRADEHUB_ADDRESS w.listingSold (scanRange blockNow) = []) :
    ∃ p, refreshActivity w = some p ∧
      p.recentActivity.map (fun a => a.record.time) = [300, 200, 100] ∧
      (∀ a ∈ p.recentActivity, a.record.actor = toLowerCase u) ∧
      p.leaderboard = [{ addr := toLowerCase u, score := numberOfNat 6 }] := by
  have hact : actorOf (some u) = some (toLowerCase u) := by
    simp [actorOf, truthyString, hu]
  have hbox : processedEvents (boxOpenedNormalizer w) w.LOOTBOX_ADDRESS w.boxOpened
      (scanRange blockNow) = [e₃, e₂, e₁] := by
    unfold processedEvents
    rw [hlog]
    simp [List.takeWhile, Normalizer.readOk, boxOpenedNormalizer, boxOpenedTime, truthyNat,
      h₁.2.2, h₂.2.2, h₃.2.2]
  have hrec : recordsOf w blockNow Source.boxOpened
      = [(boxOpenedNormalizer w).record e₃ (toLowerCase u) 200,
         (boxOpenedNormalizer w).record e₂ (toLowerCase u) 300,
         (boxOpenedNormalizer w).record e₁ (toLowerCase u) 100] := by
    show (processedEvents (boxOpenedNormalizer w) w.LOOTBOX_ADDRESS w.boxOpened
      (scanRange blockNow)).filterMap (boxOpenedNormalizer w).normalize = _
    rw [hbox]
    simp [Normalizer.normalize, boxOpenedNormalizer, boxOpenedTime, truthyNat, hact,
      h₁.1, h₂.1, h₃.1, h₁.2.2, h₂.2.2, h₃.2.2]
  have hcon : contributionsOf w blockNow Source.boxOpened
      = [(toLowerCase u, numberOfNat 3), (toLowerCase u, numberOfNat 2),
         (toLowerCase u, numberOfNat 1)] := by
    show (processedEvents (boxOpenedNormalizer w) w.LOOTBOX_ADDRESS w.boxOpened
      (scanRange blockNow)).filterMap (boxOpenedNormalizer w).scored = _
    rw [hbox]
    simp [Normalizer.scored, boxOpenedNormalizer, boxOpenedContribution, hact,
      h₁.1, h₂.1, h₃.1, h₁.2.1, h₂.2.1, h₃.2.1]
  have hnone : ∀ src, src ≠ Source.boxOpened →
      recordsOf w blockNow src = [] ∧ contributionsOf w blockNow src = [] := by
    intro src hne
    have hs : scannedEvents (addressOf w src) (feedOf w src) (scanRange blockNow) = [] := by
      cases src
      · exact absurd rfl hne
      · exact hst
      · exact hhv
      · exact hsold
    unfold recordsOf contributionsOf
    rw [processedEvents_of_no_events w blockNow src hs]
    exact ⟨rfl, rfl⟩
  obtain ⟨hA, hS⟩ := collect_by_source w blockNow
  rw [hrec, (hnone Source.staked (by decide)).1, (hnone Source.harvested (by decide)).1,
    (hnone Source.listingSold (by decide)).1] at hA
  rw [hcon, (hnone Source.staked (by decide)).2, (hnone Source.harvested (by decide)).2,
    (hnone Source.listingSold (by decide)).2] at hS
  have hscores : (collect w blockNow).scores = [(toLowerCase u, numberOfNat 6)] := by
    rw [hS]
    simp only [List.append_nil, accumulate, List.foldl_cons, List.foldl_nil, scoreAdd, if_true]
    rw [three_boxes_sum]
  refine ⟨{ leaderboard := boardOf (collect w blockNow).scores
            recentActivity := recentOf w (collect w blockNow).activities
            activePlayers := uniqActorsOf (recentOf w (collect w blockNow).activities) },
    by simp only [refreshActivity, hp, hb, if_true], ?_, ?_, ?_⟩
  · simp only [hA, recentOf, List.append_nil]
    simp [sortBy, List.insertionSort, List.orderedInsert, byTime, boxOpenedNormalizer]
  · intro a ha
    simp only [hA, recentOf, List.append_nil, List.mem_map] at ha
    obtain ⟨r, hr, rfl⟩ := ha
    have hr' := (sortBy_perm byTime _).mem_iff.1 (List.mem_of_mem_take hr)
    simp only [List.mem_cons, List.mem_singleton, List.not_mem_nil, or_false] at hr'
    rcases hr' with rfl | rfl | rfl <;> rfl
  · simp only [hscores, boardOf, sortBy, List.map_cons, List.map_nil, List.insertionSort,
      List.orderedInsert, List.take_succ_cons, List.take_nil]

/-- The scenario with the actor `0xAA01`: timestamps 300, 200, 100 and the single score 6. -/
theorem three_boxes_scenario_witness :
    ∃ p, refreshActivity threeBoxesScenario = some p ∧
      p.recentActivity.map (fun a => a.record.time) = [300, 200, 100] ∧
      (∀ a ∈ p.recentActivity, a.record.actor = toLowerCase "0xAA01") ∧
      p.leaderboard = [{ addr := toLowerCase "0xAA01", score := numberOfNat 6 }] :=
  three_boxes_scenario threeBoxesScenario 7000 "0xAA01" _ _ _ rfl rfl (by decide) rfl
    ⟨rfl, rfl, rfl⟩ ⟨rfl, rfl, rfl⟩ ⟨rfl, rfl, rfl⟩ rfl rfl rfl

/-! ## Atomic publication -/

/-- Claim C21.  One run of `refreshActivity` either replaces the leaderboard, the activity
list and the active-player count together, all three computed from the records collected in
that run, or (no provider, or the chain height read is rejected) leaves the whole state as it
was; the other published values are untouched in both cases. -/
theorem refreshActivity_publishes_atomically (w : World) (st : HomeState) :
    (∃ blockNow, w.provider = true ∧ w.getBlockNumber = some blockNow ∧
      runRefreshActivity w st =
        { st with
          leaderboard := boardOf (collect w blockNow).scores
          recentActivity := recentOf w (collect w blockNow).activities
          activePlayers :=
            toString (uniqActorsOf (recentOf w (collect w blockNow).activities)) }) ∨
    ((w.provider = false ∨ w.getBlockNumber = none) ∧ runRefreshActivity w st = st) := by
  cases hp : w.provider with
  | false =>
    right
    refine ⟨Or.inl rfl, ?_⟩
    simp [runRefreshActivity, refreshActivity, hp]
  | true =>
    cases hb : w.getBlockNumber with
    | none =>
      right
      refine ⟨Or.inr rfl, ?_⟩
      simp [runRefreshActivity, refreshActivity, hp, hb]
    | some blockNow =>
      left
      refine ⟨blockNow, rfl, rfl, ?_⟩
      simp [runRefreshActivity, refreshActivity, hp, hb]

/-! ## The box count of a `BoxOpened` event -/

/-- Claim C29.  A `BoxOpened` event without box count is normalized as exactly 1 box, in its
score contribution and in its description; an event with a box count `n`, 0 included, is
normalized with `n` in both. -/
theorem absent_box_count_is_one (w : World) (e : BoxOpenedEvent) (actor : String)
    (r : ActivityRecord) (c : JSNumber) (h : boxOpenedBody w e = Outcome.push actor r c) :
    (e.boxCount = none →
      c = numberOfNat 1 ∧
      r.text = r.display ++ " opened " ++ w.numberToString (numberOfNat 1)
        ++ " LootBox(es) and won trophy #" ++ optNatToString e.trophyId) ∧
    (∀ n, e.boxCount = some n →
      c = numberOfNat n ∧
      r.text = r.display ++ " opened " ++ w.numberToString (numberOfNat n)
        ++ " LootBox(es) and won trophy #" ++ optNatToString e.trophyId) ∧
    numberOfNat 1 = (ONE : Int) ∧ numberOfNat 0 = 0 := by
  have hone : numberOfNat 1 = (ONE : Int) := by
    have := numberOfNat_whole 1 (by norm_num)
    simpa using this
  have hzero : numberOfNat 0 = 0 := by
    have := numberOfNat_whole 0 (by norm_num)
    simpa using this
  unfold boxOpenedBody at h
  cases hu : truthyString e.user with
  | none => rw [hu] at h; simp at h
  | some user =>
    rw [hu] at h
    simp only at h
    cases ht : boxOpenedTime w e with
    | none => rw [ht] at h; simp at h
    | some ts =>
      rw [ht] at h
      simp only [Outcome.push.injEq] at h
      obtain ⟨-, hr, hc⟩ := h
      subst hr
      subst hc
      refine ⟨?_, ?_, hone, hzero⟩
      · intro hn
        rw [hn]
        exact ⟨rfl, rfl⟩
      · intro n hn
        rw [hn]
        exact ⟨rfl, rfl⟩

/-- The event without box count contributes the number 1 and is described with the rendering
of 1; the same event with box count 2 contributes 2. -/
theorem absent_box_count_is_one_witness :
    boxOpenedBody renderedScenario noCountEvent =
      Outcome.push "0xaa01"
        { actor := "0xaa01", display := "0xaa01...aa01",
          text := "0xaa01...aa01 opened 1 LootBox(es) and won trophy #12",
          txHash := "0xt2", time := 300 }
        (ONE : Int) ∧
    (ONE : Int) = numberOfNat 1 :=
  ⟨by decide!,
    ((absent_box_count_is_one renderedScenario noCountEvent "0xaa01"
      { actor := "0xaa01", display := "0xaa01...aa01",
        text := "0xaa01...aa01 opened 1 LootBox(es) and won trophy #12",
        txHash := "0xt2", time := 300 }
      (ONE : Int) (by decide!)).1 rfl).1⟩

/-! ## The recent wins of `LootBoxPanel` -/

/-- The listener keeps the first 20 entries of the arrivals in reverse order, whatever the
list it starts from. -/
theorem foldl_onOpened (ns : List BoxOpenedNotification) :
    ∀ l : List RecentWin,
      ns.foldl onOpened (l.take 20) = ((ns.reverse.map winOf) ++ l).take 20 := by
  induction ns with
  | nil => intro l; simp
  | cons n ns ih =>
    intro l
    have hstep : onOpened (l.take 20) n = (winOf n :: l).take 20 := by
      simp [onOpened, List.take_succ_cons, List.take_take]
    rw [List.foldl_cons, hstep, ih (winOf n :: l)]
    simp

/-- Claim C30.  After any sequence of `BoxOpened` notifications the recent-wins list is the
first 20 entries of the arrivals in reverse order: its length is `min 20 n` for `n`
notifications, and the latest notification is at index 0. -/
theorem recentWins_bounded_newest_first (ns : List BoxOpenedNotification) :
    recentWinsAfter ns = (ns.reverse.map winOf).take 20 ∧
    (recentWinsAfter ns).length = min 20 ns.length ∧
    ∀ (earlier : List BoxOpenedNotification) (n : BoxOpenedNotification),
      (recentWinsAfter (earlier ++ [n])).head? = some (winOf n) := by
  have key : ∀ ms : List BoxOpenedNotification,
      recentWinsAfter ms = (ms.reverse.map winOf).take 20 := by
    intro ms
    have := foldl_onOpened ms []
    simpa [recentWinsAfter] using this
  refine ⟨key ns, ?_, ?_⟩
  · rw [key ns]
    simp
  · intro earlier n
    rw [key]
    simp

/-! ## Descriptions -/

/-- For the `BoxOpened` event of 2 boxes the loop writes `LootBox(es)`, so the description is
not the template `{who} opened {n} box(es) and won trophy #{id}` filled with the display name,
the count and the trophy id. -/
theorem boxOpened_description_not_as_worded :
    ∃ actor r c, bodyOf renderedScenario Source.boxOpened twoBoxesEvent = Outcome.push actor r c ∧
      r.text = "0xaa01...aa01 opened 2 LootBox(es) and won trophy #12" ∧
      descriptionAsWorded Source.boxOpened r.display "2" "12" =
        "0xaa01...aa01 opened 2 box(es) and won trophy #12" ∧
      r.text ≠ descriptionAsWorded Source.boxOpened r.display
        (renderedScenario.numberToString (quantityOf Source.boxOpened twoBoxesEvent))
        (trophyOf Source.boxOpened twoBoxesEvent) :=
  ⟨"0xaa01",
    { actor := "0xaa01", display := "0xaa01...aa01",
      text := "0xaa01...aa01 opened 2 LootBox(es) and won trophy #12",
      txHash := "0xt2", time := 300 },
    numberOfNat 2, by decide!, rfl, by decide!, by decide!⟩

/-- Claim C24, amended.  For every normalized event the description is the template of its
kind filled with the display name of the actor and the rendered quantity: `BoxOpened`
`{who} opened {n} LootBox(es) and won trophy #{id}`, `Staked` `{who} staked {amt} ARC`,
`Harvested` `{who} harvested {amt} ARC`, `Sold` `{who} bought item for {price} ARC`; the last
three are the templates as worded. -/
theorem description_is_template (w : World) (src : Source) (e : EventOf src) (actor : String)
    (r : ActivityRecord) (c : JSNumber) (h : bodyOf w src e = Outcome.push actor r c) :
    r.display = displayOf w actor ∧
    r.text = descriptionOf src r.display (w.numberToString (quantityOf src e)) (trophyOf src e) ∧
    (src ≠ Source.boxOpened → ∀ who qty id,
      descriptionOf src who qty id = descriptionAsWorded src who qty id) := by
  cases src with
  | boxOpened =>
    simp only [bodyOf] at h
    unfold boxOpenedBody at h
    cases hu : truthyString e.user with
    | none => rw [hu] at h; simp at h
    | some user =>
      rw [hu] at h
      simp only at h
      cases ht : boxOpenedTime w e with
      | none => rw [ht] at h; simp at h
      | some ts =>
        rw [ht] at h
        simp only [Outcome.push.injEq] at h
        obtain ⟨ha, hr, -⟩ := h
        subst hr
        subst ha
        exact ⟨rfl, rfl, fun hne => absurd rfl hne⟩
  | staked =>
    simp only [bodyOf] at h
    unfold stakedBody at h
    cases hu : truthyString e.user with
    | none => rw [hu] at h; simp at h
    | some user =>
      rw [hu] at h
      simp only at h
      cases ht : w.getBlock e.blockNumber with
      | none => rw [ht] at h; simp at h
      | some ts =>
        rw [ht] at h
        simp only [Outcome.push.injEq] at h
        obtain ⟨ha, hr, -⟩ := h
        subst hr
        subst ha
        exact ⟨rfl, rfl, fun _ _ _ _ => rfl⟩
  | harvested =>
    simp only [bodyOf] at h
    unfold harvestedBody at h
    cases hu : truthyString e.user with
    | none => rw [hu] at h; simp at h
    | some user =>
      rw [hu] at h
      simp only at h
      cases ht : w.getBlock e.blockNumber with
      | none => rw [ht] at h; simp at h
      | some ts =>
        rw [ht] at h
        simp only [Outcome.push.injEq] at h
        obtain ⟨ha, hr, -⟩ := h
        subst hr
        subst ha
        exact ⟨rfl, rfl, fun _ _ _ _ => rfl⟩
  | listingSold =>
    simp only [bodyOf] at h
    unfold listingSoldBody at h
    cases hu : truthyString e.buyer with
    | none => rw [hu] at h; simp at h
    | some user =>
      rw [hu] at h
      simp only at h
      cases ht : w.getBlock e.blockNumber with
      | none => rw [ht] at h; simp at h
      | some ts =>
        rw [ht] at h
        simp only [Outcome.push.injEq] at h
        obtain ⟨ha, hr, -⟩ := h
        subst hr
        subst ha
        exact ⟨rfl, rfl, fun _ _ _ _ => rfl⟩

/-- The description of the `BoxOpened` event of 2 boxes is the `LootBox(es)` template filled
with the truncated address, the count 2 and the trophy 12. -/
theorem description_is_template_witness :
    bodyOf renderedScenario Source.boxOpened twoBoxesEvent =
      Outcome.push "0xaa01"
        { actor := "0xaa01", display := "0xaa01...aa01",
          text := "0xaa01...aa01 opened 2 LootBox(es) and won trophy #12",
          txHash := "0xt2", time := 300 }
        (numberOfNat 2) ∧
    "0xaa01...aa01 opened 2 LootBox(es) and won trophy #12" =
      descriptionOf Source.boxOpened "0xaa01...aa01"
        (renderedScenario.numberToString (quantityOf Source.boxOpened twoBoxesEvent))
        (trophyOf Source.boxOpened twoBoxesEvent) :=
  ⟨by decide!,
    (description_is_template renderedScenario Source.boxOpened twoBoxesEvent "0xaa01"
      { actor := "0xaa01", display := "0xaa01...aa01",
        text := "0xaa01...aa01 opened 2 LootBox(es) and won trophy #12",
        txHash := "0xt2", time := 300 }
      (numberOfNat 2) (by decide!)).2.1⟩

/-! ## Runs without provider -/

/-- After the provider went away, a run of `refreshGovernanceSummary` replaces the published
deadline summary by `No active proposals`. -/
theorem disconnect_resets_deadline_summary :
    disconnectedScenario.provider = false ∧
    publishedDeadlineState.govNext = "Next vote: Proposal #2 closes in 0h 8m" ∧
    (runRefreshGovernanceSummary disconnectedScenario publishedDeadlineState).govNext =
      "No active proposals" ∧
    runRefreshGovernanceSummary disconnectedScenario publishedDeadlineState ≠
      publishedDeadlineState := by
  refine ⟨rfl, by decide!, by decide!, ?_⟩
  decide!

/-- Claim C22, amended.  Without provider a run of `refreshTVL` or of `refreshActivity` leaves
every published value unchanged; a run of `refreshGovernanceSummary` sets the deadline summary
to `No active proposals` and leaves the other six values unchanged. -/
theorem disconnect_frame (w : World) (token : ArcadeToken) (st : HomeState)
    (h : w.provider = false) :
    runRefreshTVL w token st = st ∧
    runRefreshActivity w st = st ∧
    runRefreshGovernanceSummary w st = { st with govNext := "No active proposals" } := by
  refine ⟨?_, ?_, ?_⟩
  · simp [runRefreshTVL, h]
  · simp [runRefreshActivity, refreshActivity, h]
  · simp [runRefreshGovernanceSummary, refreshGovernanceSummary, selectNearestDeadline, h]

/-- In the disconnected deadline scenario the state published before keeps its TVL and its
activity values, and its deadline summary becomes `No active proposals`. -/
theorem disconnect_frame_witness :
    disconnectedScenario.provider = false ∧
    runRefreshTVL disconnectedScenario tokenScenario publishedDeadlineState =
      publishedDeadlineState ∧
    runRefreshActivity disconnectedScenario publishedDeadlineState = publishedDeadlineState ∧
    runRefreshGovernanceSummary disconnectedScenario publishedDeadlineState =
      { publishedDeadlineState with govNext := "No active proposals" } :=
  ⟨rfl, disconnect_frame disconnectedScenario tokenScenario publishedDeadlineState rfl⟩

/-! ## The polling effect -/

/-- After the effect body has started a run of `refreshTVL`, a tick of its timer before that
run settles starts a second one: two runs are in flight. -/
theorem tick_while_running_starts_second_run :
    pollRun idle [PollEvent.effect] RefreshTask.refreshTVL = 1 ∧
    pollRun idle [PollEvent.effect, PollEvent.tick RefreshTask.refreshTVL]
      RefreshTask.refreshTVL = 2 := by
  decide

/-- Claim C23, amended.  A timer tick always starts a run of its task, also while earlier
runs of that task are in flight: it raises the number of runs in flight of its task by one
and leaves the other tasks alone, the effect body starts one run of every task, and `n` ticks
without a settled run leave `n` runs of the task in flight. -/
theorem tick_always_starts_run (s : InFlight) (task t : RefreshTask) (n : Nat) :
    pollStep s (PollEvent.tick task) t = s t + (if t = task then 1 else 0) ∧
    pollStep s PollEvent.effect t = s t + 1 ∧
    pollRun s (List.replicate n (PollEvent.tick task)) task = s task + n := by
  refine ⟨?_, rfl, ?_⟩
  · simp only [pollStep]
    split <;> rfl
  · induction n generalizing s with
    | zero => rfl
    | succ n ih =>
      simp only [pollRun, List.replicate_succ, List.foldl_cons] at ih ⊢
      rw [ih]
      simp only [pollStep, if_true]
      omega

/-- With one run of `refreshTVL` in flight after the effect body, the next tick of its timer
makes it two, and the runs of `refreshActivity` stay at one. -/
theorem tick_always_starts_run_witness :
    pollStep (pollRun idle [PollEvent.effect]) (PollEvent.tick RefreshTask.refreshTVL)
      RefreshTask.refreshTVL = 1 + 1 ∧
    pollStep (pollRun idle [PollEvent.effect]) (PollEvent.tick RefreshTask.refreshTVL)
      RefreshTask.refreshActivity = 1 + 0 :=
  ⟨(tick_always_starts_run (pollRun idle [PollEvent.effect]) RefreshTask.refreshTVL
      RefreshTask.refreshTVL 0).1,
    (tick_always_starts_run (pollRun idle [PollEvent.effect]) RefreshTask.refreshTVL
      RefreshTask.refreshActivity 0).1⟩

/-! ## The countdown of the deadline summary -/

/-- The deadline scan keeps `nextEnd` after the clock reading. -/
theorem foldlM_scanStep_nextEnd (w : World) (now : Nat) :
    ∀ (l : List Nat) (s₀ st : Nearest), (∀ e, s₀.nextEnd = some e → now < e) →
      l.foldlM (scanStep w now) s₀ = some st → ∀ e, st.nextEnd = some e → now < e := by
  intro l
  induction l with
  | nil =>
    intro s₀ st h₀ h
    simp only [List.foldlM_nil, Option.pure_def, Option.some.injEq] at h
    subst h
    exact h₀
  | cons i l ih =>
    intro s₀ st h₀ h
    simp only [List.foldlM_cons, Option.bind_eq_bind] at h
    cases hs : scanStep w now s₀ i with
    | none => rw [hs] at h; simp at h
    | some s₁ =>
      rw [hs] at h
      simp only [Option.some_bind] at h
      refine ih s₁ st ?_ h
      unfold scanStep at hs
      cases hp : w.getProposal i with
      | none => rw [hp] at hs; simp at hs
      | some p =>
        rw [hp] at hs
        simp only at hs
        split at hs
        · rename_i hc
          simp only [Option.some.injEq] at hs
          subst hs
          intro e he
          simp only [Option.some.injEq] at he
          subst he
          exact hc.1
        · simp only [Option.some.injEq] at hs
          subst hs
          exact h₀

/-- The selected deadline lies after the clock reading. -/
theorem selectNearestDeadline_future (w : World) (d : DeadlineSummary)
    (h : selectNearestDeadline w = some d) : w.nowSec < d.closesAt := by
  unfold selectNearestDeadline at h
  split at h
  · cases hc : w.getProposalCount with
    | none => rw [hc] at h; simp at h
    | some count =>
      rw [hc] at h
      simp only at h
      cases hs : scanProposals w w.nowSec count with
      | none => rw [hs] at h; simp at h
      | some st =>
        rw [hs] at h
        simp only at h
        have hinv := foldlM_scanStep_nextEnd w w.nowSec (List.range' 1 count)
          { nextId := none, nextEnd := none } st (by intro e he; simp at he) hs
        split at h
        · rename_i nextId nextEnd hid hend
          simp only [Option.some.injEq] at h
          subst h
          exact hinv _ hend
        · simp at h
  · simp at h

/-- Claim C25.  Whenever `refreshGovernanceSummary` selects a proposal, `diff = closesAt - now`
is positive and the published countdown shows `days = diff / 86400`,
`hours = (diff % 86400) / 3600` and `mins = (diff % 3600) / 60`, the day part only when
`days > 0`; `hours < 24`, `mins < 60`, and
`days*86400 + hours*3600 + mins*60 ≤ diff < days*86400 + hours*3600 + mins*60 + 60`. -/
theorem countdown_decomposition (w : World) (d : DeadlineSummary)
    (h : selectNearestDeadline w = some d) :
    0 < d.closesAt - w.nowSec ∧
    ∃ days hours mins : Nat,
      days = (d.closesAt - w.nowSec) / 86400 ∧
      hours = (d.closesAt - w.nowSec) % 86400 / 3600 ∧
      mins = (d.closesAt - w.nowSec) % 3600 / 60 ∧
      refreshGovernanceSummary w =
        "Next vote: Proposal #" ++ toString d.proposalId ++ " closes in " ++
          ((if days > 0 then toString days ++ "d " else "") ++
            toString hours ++ "h " ++ toString mins ++ "m") ∧
      hours < 24 ∧ mins < 60 ∧
      days * 86400 + hours * 3600 + mins * 60 ≤ d.closesAt - w.nowSec ∧
      d.closesAt - w.nowSec < days * 86400 + hours * 3600 + mins * 60 + 60 := by
  have hpos := selectNearestDeadline_future w d h
  refine ⟨by omega, _, _, _, rfl, rfl, rfl, ?_, ?_, ?_, ?_, ?_⟩
  · simp only [refreshGovernanceSummary, h, countdownLabel]
  · omega
  · omega
  · omega
  · omega

/-- In the deadline scenario proposal 2 closes 500 seconds after the clock reading and the
summary shows no day part, 0 hours and 8 minutes. -/
theorem countdown_decomposition_witness :
    selectNearestDeadline deadlineScenario = some { proposalId := 2, closesAt := 1500 } ∧
    refreshGovernanceSummary deadlineScenario = "Next vote: Proposal #2 closes in 0h 8m" ∧
    0 < 1500 - deadlineScenario.nowSec :=
  ⟨by decide!, by decide!,
    (countdown_decomposition deadlineScenario { proposalId := 2, closesAt := 1500 }
      (by decide!)).1⟩

/-! ## `timeLeft` -/

/-- A string that ends in `s` is not `Ended`. -/
theorem ne_Ended_of_ends_in_s (a : String) : a ++ "s" ≠ "Ended" := by
  intro h
  have h₁ : (a ++ "s").data.getLast? = ("Ended" : String).data.getLast? := by rw [h]
  rw [String.data_append] at h₁
  have h₂ : ("s" : String).data = ['s'] := rfl
  have h₃ : ("Ended" : String).data.getLast? = some 'd' := by decide
  rw [h₂, h₃, List.getLast?_append] at h₁
  simp at h₁

/-- Claim C26.  `timeLeft(end)` returns `Ended` exactly when `now ≥ end`; otherwise it returns
`{mins}m {secs}s` with `mins*60 + secs = end - now` and `secs < 60`. -/
theorem timeLeft_spec (now endSec : Nat) :
    (timeLeft now endSec = "Ended" ↔ now ≥ endSec) ∧
    (now < endSec → ∃ mins secs : Nat,
      timeLeft now endSec = toString mins ++ "m " ++ toString secs ++ "s" ∧
      mins * 60 + secs = endSec - now ∧ secs < 60) := by
  refine ⟨⟨?_, ?_⟩, ?_⟩
  · intro h
    by_contra hlt
    unfold timeLeft at h
    rw [if_neg hlt] at h
    exact ne_Ended_of_ends_in_s _ h
  · intro h
    unfold timeLeft
    rw [if_pos h]
  · intro h
    refine ⟨(endSec - now) / 60, (endSec - now) % 60, ?_, ?_, ?_⟩
    · unfold timeLeft
      rw [if_neg (by omega)]
    · omega
    · omega

/-- At `now = 1000` a vote that ends at 1125 shows `2m 5s`, and one that ended at 1000 shows
`Ended`. -/
theorem timeLeft_spec_witness :
    timeLeft 1000 1125 = "2m 5s" ∧ timeLeft 1000 1000 = "Ended" ∧
    ∃ mins secs : Nat, timeLeft 1000 1125 = toString mins ++ "m " ++ toString secs ++ "s" ∧
      mins * 60 + secs = 1125 - 1000 ∧ secs < 60 :=
  ⟨by decide!, by decide!, (timeLeft_spec 1000 1125).2 (by decide)⟩

/-! ## `refreshTVL` -/

/-- The loop over the modules adds the contribution of each module to `sum` and enters it in
`perModule`. -/
theorem foldl_balanceStep (token : ArcadeToken) (arcId : Nat) (ms : List (String × Bool)) :
    ∀ acc : TvlAcc, ms.foldl (balanceStep token arcId) acc =
      { sum := acc.sum + (ms.map (moduleContribution token arcId)).sum
        perModule := acc.perModule ++ ms.map (fun m => (m.1, moduleContribution token arcId m)) } := by
  induction ms with
  | nil => intro acc; simp
  | cons m ms ih =>
    intro acc
    rw [List.foldl_cons, ih]
    obtain ⟨key, addr⟩ := m
    cases addr with
    | false => simp [balanceStep, moduleContribution]
    | true =>
      cases hb : token.balanceOf key arcId with
      | none => simp [balanceStep, moduleContribution, hb]
      | some bal => simp [balanceStep, moduleContribution, hb, Nat.add_assoc]

/-- The values handed to `setTvl` and `setModuleTvls` do not depend on the mint scan. -/
theorem runRefreshTVL_tvl (w : World) (token : ArcadeToken) (st : HomeState) (arcId : Nat)
    (hp : w.provider = true) (hc : token.ARCADE_COIN = some arcId) :
    (runRefreshTVL w token st).tvl = renderUnits token (moduleBalances w token arcId).sum ∧
    (runRefreshTVL w token st).moduleTvls =
      (moduleBalances w token arcId).perModule.map (fun kv => (kv.1, renderUnits token kv.2)) := by
  unfold runRefreshTVL
  rw [if_pos hp, hc]
  simp only
  cases w.getBlockNumber with
  | none => exact ⟨rfl, rfl⟩
  | some currentBlock =>
    simp only
    split
    · split
      · exact ⟨rfl, rfl⟩
      · exact ⟨rfl, rfl⟩
    · exact ⟨rfl, rfl⟩

/-- Claim C27.  In a run of `refreshTVL` that reads the coin id, the published total value
locked is the rendering of the sum of the module balances whose renderings are published per
module, where a module without configured address or with a rejected balance read counts 0
and the other modules are still read and summed. -/
theorem tvl_is_sum_of_module_balances (w : World) (token : ArcadeToken) (st : HomeState)
    (arcId : Nat) (hp : w.provider = true) (hc : token.ARCADE_COIN = some arcId) :
    (runRefreshTVL w token st).tvl =
      renderUnits token ((MODULES w).map (moduleContribution token arcId)).sum ∧
    (runRefreshTVL w token st).moduleTvls =
      (MODULES w).map (fun m => (m.1, renderUnits token (moduleContribution token arcId m))) ∧
    (moduleBalances w token arcId).sum =
      ((moduleBalances w token arcId).perModule.map (fun kv => kv.2)).sum ∧
    (∀ m, (m.2 = false ∨ token.balanceOf m.1 arcId = none) →
      moduleContribution token arcId m = 0) ∧
    (∀ m bal, m.2 = true → token.balanceOf m.1 arcId = some bal →
      moduleContribution token arcId m = bal) := by
  obtain ⟨h₁, h₂⟩ := runRefreshTVL_tvl w token st arcId hp hc
  have hfold : moduleBalances w token arcId =
      { sum := ((MODULES w).map (moduleContribution token arcId)).sum
        perModule := (MODULES w).map (fun m => (m.1, moduleContribution token arcId m)) } := by
    unfold moduleBalances
    rw [foldl_balanceStep]
    simp
  refine ⟨?_, ?_, ?_, ?_, ?_⟩
  · rw [h₁, hfold]
  · rw [h₂, hfold]
    simp [List.map_map, Function.comp_def]
  · rw [hfold]
    simp [List.map_map, Function.comp_def]
  · intro m hm
    unfold moduleContribution
    rcases hm with hm | hm
    · simp [hm]
    · simp [hm]
  · intro m bal hm hb
    unfold moduleContribution
    simp [hm, hb]

/-- With 5 ARC staked, 2 ARC in the market, a rejected read for the loot module and no council
address, the dashboard shows 7 in total and 5, 0, 2, 0 per module. -/
theorem tvl_is_sum_of_module_balances_witness :
    runRefreshTVL dashboardScenario tokenScenario initialHomeState =
      { initialHomeState with
        tvl := "7"
        moduleTvls := [("stake", "5"), ("loot", "0"), ("market", "2"), ("dao", "0")]
        totalMinted := "7" } ∧
    (runRefreshTVL dashboardScenario tokenScenario initialHomeState).tvl =
      renderUnits tokenScenario
        ((MODULES dashboardScenario).map (moduleContribution tokenScenario 1)).sum :=
  ⟨by decide!,
    (tvl_is_sum_of_module_balances dashboardScenario tokenScenario initialHomeState 1
      rfl rfl).1⟩

/-- The mint scan adds the values of the mints of the coin to `minted`. -/
theorem foldl_mintedStep (arcId : Nat) (events : List TransferSingleEvent) :
    ∀ minted : Nat,
      events.foldl (mintedStep arcId) minted = minted + mintedAsWorded arcId events := by
  induction events with
  | nil => intro minted; simp [mintedAsWorded]
  | cons ev events ih =>
    intro minted
    rw [List.foldl_cons, ih]
    unfold mintedStep mintedAsWorded
    cases ha : ev.args with
    | none => simp [ha]
    | some a =>
      by_cases hm : toLowerCase a.fromAddress = ZERO ∧ a.id = arcId
      · have hne : a.fromAddress ≠ "" := by
          intro h
          rw [h] at hm
          exact absurd hm.1 (by decide)
        simp [ha, hne, hm, Nat.add_assoc]
      · have hstep : (if a.fromAddress = "" then minted
            else if toLowerCase a.fromAddress = ZERO ∧ a.id = arcId then minted + a.value
            else minted) = minted := by
          rw [if_neg hm]
          split <;> rfl
        simp only [ha, List.filterMap_cons]
        rw [hstep, List.filter_cons_of_neg (by simpa using hm)]

/-- Claim C28.  In a run of `refreshTVL` that gets to the mint scan, the published total
minted amount is the rendering of the sum of `value` over exactly the `TransferSingle` events
whose `from` is the zero address, compared in lower case, and whose token id is the id of the
coin; an event without `from`, with another `from` or with another token id adds nothing. -/
theorem total_minted_is_sum_of_mints (w : World) (token : ArcadeToken) (st : HomeState)
    (arcId currentBlock : Nat) (events : List TransferSingleEvent)
    (hp : w.provider = true) (hc : token.ARCADE_COIN = some arcId)
    (hb : w.getBlockNumber = some currentBlock)
    (hf : token.transferSingle.hasFilter = true)
    (hq : token.transferSingle.queryFilter
      (mintScanRange token.DEPLOY_BLOCK currentBlock).fromBlock
      (mintScanRange token.DEPLOY_BLOCK currentBlock).toBlock = some events) :
    (runRefreshTVL w token st).totalMinted = renderUnits token (mintedAsWorded arcId events) ∧
    mintedOf arcId events = mintedAsWorded arcId events ∧
    (∀ ev minted, notAMint arcId ev → mintedStep arcId minted ev = minted) := by
  have hsum : mintedOf arcId events = mintedAsWorded arcId events := by
    unfold mintedOf
    rw [foldl_mintedStep]
    simp
  refine ⟨?_, hsum, ?_⟩
  · unfold runRefreshTVL
    rw [if_pos hp, hc]
    simp only
    rw [hb]
    simp only
    rw [if_pos hf, hq]
    simp only
    rw [hsum]
  · intro ev minted hn
    unfold mintedStep
    rcases hn with hn | ⟨a, ha, hn⟩
    · rw [hn]
    · rw [ha]
      simp only
      split
      · rfl
      · rw [if_neg]
        rintro ⟨h₁, h₂⟩
        rcases hn with hn | hn
        · exact hn h₁
        · exact hn h₂

/-- Of the four logs of the token scenario only the mint of 7 ARC of the coin is counted: the
mint of another token, the transfer between wallets and the undecoded log add nothing. -/
theorem total_minted_is_sum_of_mints_witness :
    (runRefreshTVL dashboardScenario tokenScenario initialHomeState).totalMinted = "7" ∧
    (runRefreshTVL dashboardScenario tokenScenario initialHomeState).totalMinted =
      renderUnits tokenScenario (mintedAsWorded 1
        [{ args := some { operator := "0xop", fromAddress := ZERO, toAddress := "0xAA01",
                          id := 1, value := 7 * 10 ^ 18 } },
         { args := some { operator := "0xop", fromAddress := ZERO, toAddress := "0xAA01",
                          id := 2, value := 3 * 10 ^ 18 } },
         { args := some { operator := "0xop", fromAddress := "0xAA01", toAddress := "0xBB02",
                          id := 1, value := 10 ^ 18 } },
         { args := none }]) :=
  ⟨by decide!,
    (total_minted_is_sum_of_mints dashboardScenario tokenScenario initialHomeState 1 7000 _
      rfl rfl rfl rfl rfl).1⟩

end CryptoArcade
